/-
Verification of the tex2canvas converter (tex2canvas.py).

The Python source is shallowly embedded over `List Char`: every regex-driven
transformation of the source is re-expressed as an explicit character
scanner with the same leftmost / non-greedy match semantics, and stateful
code (the line scanner of `convert_tex_to_html`) becomes explicit state
passing.  File-system and subprocess effects of the figure renderer are
modelled by threading the set of files present in the output directory and
an environment record describing the external tools.
-/
import Mathlib

namespace Tex2Canvas

/-- Frequently used special characters, named to keep literals readable. -/
def obrace : Char := Char.ofNat 123

/-- Closing brace character. -/
def cbrace : Char := Char.ofNat 125

/-- Double-quote character. -/
def dquote : Char := Char.ofNat 34

/-- Apostrophe character. -/
def squote : Char := Char.ofNat 39

/-- Backslash character. -/
def bslash : Char := '\\'

/-- Python `str` whitespace (ASCII part), as used by `strip`/`rstrip`. -/
def pyWS (c : Char) : Bool :=
  c = ' ' || c = '\t' || c = '\n' || c = '\r' || c = '\x0b' || c = '\x0c'

/-- Python `str.lstrip()`. -/
def lstripL (s : List Char) : List Char := s.dropWhile pyWS

/-- Python `str.rstrip()`. -/
def rstripL (s : List Char) : List Char := (s.reverse.dropWhile pyWS).reverse

/-- Python `str.strip()`. -/
def stripL (s : List Char) : List Char := lstripL (rstripL s)

/-- Whether `pat` is a prefix of `s` (Boolean, decidable by evaluation). -/
def startsL : List Char → List Char → Bool
  | [], _ => true
  | _ :: _, [] => false
  | p :: ps, c :: cs => p = c && startsL ps cs

/-- Whether `pat` occurs as a contiguous substring of `s`. -/
def containsSub (pat : List Char) : List Char → Bool
  | [] => startsL pat []
  | c :: cs => startsL pat (c :: cs) || containsSub pat cs

/-- Index of the leftmost occurrence of `pat` in `s` (Python `str.find` /
`re.search` on a literal pattern). -/
def findSubIdx (pat : List Char) : List Char → Option Nat
  | [] => if startsL pat [] then some 0 else none
  | c :: cs =>
    if startsL pat (c :: cs) then some 0
    else (findSubIdx pat cs).map (fun k => k + 1)

/-- Python slice `s[a:b]` for nonnegative bounds. -/
def pySlice (s : List Char) (a b : Nat) : List Char := (s.take b).drop a

/-- Python `str.splitlines()` worker ('\n' separators; the converter reads
text files whose lines are newline separated). -/
def splitLinesGo : List Char → List Char → List (List Char)
  | [], acc => [acc.reverse]
  | c :: cs, acc =>
    if c = '\n' then
      acc.reverse :: (match cs with | [] => [] | _ :: _ => splitLinesGo cs [])
    else splitLinesGo cs (c :: acc)

/-- Python `str.splitlines()`. -/
def splitLinesL (s : List Char) : List (List Char) :=
  match s with
  | [] => []
  | _ :: _ => splitLinesGo s []

/-- Python `"\n".join(lines)`. -/
def joinNL : List (List Char) → List Char
  | [] => []
  | [l] => l
  | l :: ls => l ++ '\n' :: joinNL ls

/-- Decimal rendering of a natural number (Python f-string interpolation). -/
def natStr (n : Nat) : List Char := (Nat.repr n).data

/-- Python truthiness of an optional string. -/
def pyTruthy : Option (List Char) → Bool
  | none => false
  | some x => x ≠ []

/-- Python `a or b` on optional strings (empty string is falsy). -/
def pyOrOpt (a b : Option (List Char)) : Option (List Char) :=
  if pyTruthy a then a else b

/-- ASCII lower-casing of one character (Python `str.lower` on the
identifiers that occur in option keys). -/
def pyLowerC (c : Char) : Char :=
  if 'A' ≤ c ∧ c ≤ 'Z' then Char.ofNat (c.toNat + 32) else c

/-- ASCII lower-casing of a string. -/
def pyLower (s : List Char) : List Char := s.map pyLowerC

/-- Word characters for the regex `\b` boundary ( `[A-Za-z0-9_]` ). -/
def wordChar (c : Char) : Bool :=
  ('a' ≤ c && c ≤ 'z') || ('A' ≤ c && c ≤ 'Z') || ('0' ≤ c && c ≤ '9') || c = '_'

/-! ## `split_unescaped_percent` (tex2canvas.py lines 14-19)

`re.search(r"(?<!\\)%", line)`: the first percent sign not immediately
preceded by a backslash splits the line into code and comment. -/

/-- Scanner for `split_unescaped_percent`; `prev` is the previous character
(for the negative lookbehind). -/
def supGo : Option Char → List Char → List Char × Option (List Char)
  | _, [] => ([], none)
  | prev, c :: cs =>
    if c = '%' ∧ prev ≠ some bslash then ([], some cs)
    else
      let r := supGo (some c) cs
      (c :: r.1, r.2)

/-- `split_unescaped_percent(line)`. -/
def split_unescaped_percent (line : List Char) : List Char × Option (List Char) :=
  supGo none line

/-! ## `strip_braces`, `split_options`, `parse_alt_from_options`
(tex2canvas.py lines 22-61) -/

/-- `strip_braces(s)`: remove one pair of surrounding braces if present. -/
def strip_braces (s : List Char) : List Char :=
  let t := stripL s
  if startsL [obrace] t ∧ t.reverse.head? = some cbrace then
    stripL (t.drop 1).dropLast
  else t

/-- Worker for `split_options`: depth-aware splitting on commas. -/
def splitOptsGo : Nat → List Char → List Char → List (List Char)
  | _, curr, [] => if curr = [] then [] else [stripL curr.reverse]
  | depth, curr, ch :: rest =>
    let d1 : Nat :=
      if ch = obrace then depth + 1
      else if ch = cbrace ∧ depth > 0 then depth - 1
      else depth
    if ch = ',' ∧ d1 = 0 then stripL curr.reverse :: splitOptsGo d1 [] rest
    else splitOptsGo d1 (ch :: curr) rest

/-- `split_options(opts)`. -/
def split_options (opts : List Char) : List (List Char) := splitOptsGo 0 [] opts

/-- Split a part at the first `=` sign, if any (Python `part.split("=", 1)`). -/
def splitEq1 (part : List Char) : Option (List Char × List Char) :=
  (List.findIdx? (fun c => c = '=') part).map
    (fun j => (part.take j, part.drop (j + 1)))

/-- Whether a lower-cased stripped key selects alt text. -/
def altKey (k : List Char) : Bool :=
  k = ("alt").data || k = ("alttext").data || k = ("description").data

/-- One step of `parse_alt_from_options`: examine a single option part. -/
def altOfPart (part : List Char) : Option (List Char) :=
  match splitEq1 part with
  | none => none
  | some (k, v) =>
    if altKey (pyLower (stripL k)) then some (strip_braces (stripL v)) else none

/-- Iterate over parts, returning the first alt value found. -/
def firstAlt : List (List Char) → Option (List Char)
  | [] => none
  | p :: ps =>
    match altOfPart p with
    | some v => some v
    | none => firstAlt ps

/-- `parse_alt_from_options(opts)` (`opts = none` models Python `None`). -/
def parse_alt_from_options : Option (List Char) → Option (List Char)
  | none => none
  | some o => if o = [] then none else firstAlt (split_options o)

/-! ## `resolve_image_path` (tex2canvas.py lines 64-73)

The directory listing of the input file's folder is passed explicitly. -/

/-- Final path component (`pathlib` `name`). -/
def lastComponent (p : List Char) : List Char :=
  (p.reverse.takeWhile (fun c => c ≠ '/')).reverse

/-- `pathlib.PurePath.suffix`: the extension of the final component. -/
def pySuffix (p : List Char) : List Char :=
  let nm := lastComponent p
  match List.findIdx? (fun c => c = '.') nm.reverse with
  | none => []
  | some k =>
    if 1 ≤ k ∧ k + 1 < nm.length then (nm.reverse.take (k + 1)).reverse else []

/-- `pathlib.PurePath.stem`: the final component without its suffix. -/
def pyStem (p : List Char) : List Char :=
  let nm := lastComponent p
  nm.take (nm.length - (pySuffix p).length)

/-- Extensions probed by `resolve_image_path`, in order. -/
def probeExts : List (List Char) :=
  [(".png").data, (".jpg").data, (".jpeg").data, (".gif").data, (".svg").data]

/-- First extension whose candidate file exists in the directory. -/
def firstExt (p : List Char) (dirFiles : List (List Char)) :
    List (List Char) → Option (List Char)
  | [] => none
  | e :: es =>
    if (p ++ e) ∈ dirFiles then some (p ++ e) else firstExt p dirFiles es

/-- `resolve_image_path(image_path, tex_dir)`; `dirFiles` lists the files
present in `tex_dir`. -/
def resolve_image_path (p : List Char) (dirFiles : List (List Char)) : List Char :=
  if pySuffix p ≠ [] then p
  else
    match firstExt p dirFiles probeExts with
    | some r => r
    | none => p

/-! ## `extract_title_author`, `extract_body`, `extract_preamble`
(tex2canvas.py lines 76-103) -/

/-- Match `(.+?)\}` after an opening brace was consumed: the content is at
least one character, running to the first following closing brace. -/
def matchBraced1 : List Char → Option (List Char × List Char)
  | [] => none
  | c :: rs =>
    (List.findIdx? (fun x => x = cbrace) rs).map
      (fun j => (c :: rs.take j, rs.drop (j + 1)))

/-- Match `(.*?)\}`: possibly-empty content to the first closing brace. -/
def matchBraced0 (rest : List Char) : Option (List Char × List Char) :=
  (List.findIdx? (fun x => x = cbrace) rest).map
    (fun j => (rest.take j, rest.drop (j + 1)))

/-- Leftmost match of `cmd(.+?)\}` (the literal prefix `cmd` ends with the
opening brace), returning the stripped group: models
`re.search(r"\\title\{(.+?)\}", text, re.DOTALL)` and the author variant. -/
def findCmdVal (cmd : List Char) : List Char → Option (List Char)
  | [] => none
  | c :: cs =>
    if startsL cmd (c :: cs) then
      match matchBraced1 ((c :: cs).drop cmd.length) with
      | some (content, _) => some (stripL content)
      | none => findCmdVal cmd cs
    else findCmdVal cmd cs

/-- Literal `\begin{document}`. -/
def beginDocTok : List Char := ("\\begin\x7bdocument\x7d").data

/-- Literal `\end{document}`. -/
def endDocTok : List Char := ("\\end\x7bdocument\x7d").data

/-- `extract_title_author(text)`. -/
def extract_title_author (t : List Char) : Option (List Char) × Option (List Char) :=
  (findCmdVal (("\\title\x7b").data) t, findCmdVal (("\\author\x7b").data) t)

/-- `extract_body(text)`: the content between the document markers, or the
whole text when either marker is missing. -/
def extract_body (t : List Char) : List Char :=
  match findSubIdx beginDocTok t, findSubIdx endDocTok t with
  | some i, some j => pySlice t (i + beginDocTok.length) j
  | some _, none => t
  | none, _ => t

/-- `extract_preamble(text)`: the content before `\begin{document}`, or the
whole text when the marker is missing. -/
def extract_preamble (t : List Char) : List Char :=
  match findSubIdx beginDocTok t with
  | some i => t.take i
  | none => t

/-! ## Encodings: UTF-8, `urllib.parse.quote`, `html.escape`/`html.unescape` -/

/-- UTF-8 encoding of one scalar value, as a list of byte values. -/
def utf8Bytes (c : Char) : List Nat :=
  let n := c.toNat
  if n < 128 then [n]
  else if n < 2048 then [192 + n / 64, 128 + n % 64]
  else if n < 65536 then [224 + n / 4096, 128 + (n / 64) % 64, 128 + n % 64]
  else [240 + n / 262144, 128 + (n / 4096) % 64, 128 + (n / 64) % 64, 128 + n % 64]

/-- Upper-case hex digit (as used by `urllib.parse.quote`). -/
def hexU (n : Nat) : Char := ("0123456789ABCDEF").data.getD (n % 16) '0'

/-- Lower-case hex digit (as used by `hashlib` hexdigests). -/
def hexL (n : Nat) : Char := ("0123456789abcdef").data.getD (n % 16) '0'

/-- Bytes `urllib.parse.quote` never encodes (letters, digits, `_.-~`);
with `safe=""` no further byte is exempt. -/
def quoteSafeByte (b : Nat) : Bool :=
  (48 ≤ b && b ≤ 57) || (65 ≤ b && b ≤ 90) || (97 ≤ b && b ≤ 122) ||
    b = 95 || b = 46 || b = 45 || b = 126

/-- Percent-encoding of a single byte. -/
def quoteByte (b : Nat) : List Char :=
  if quoteSafeByte b then [Char.ofNat b] else ['%', hexU (b / 16), hexU (b % 16)]

/-- `urllib.parse.quote(s, safe="")`. -/
def pyQuote (s : List Char) : List Char :=
  (((s.map utf8Bytes).flatten).map quoteByte).flatten

/-- `html.escape` on one character (`quote=True`). -/
def escChar (c : Char) : List Char :=
  if c = '&' then ("&amp;").data
  else if c = '<' then ("&lt;").data
  else if c = '>' then ("&gt;").data
  else if c = dquote then ("&quot;").data
  else if c = squote then ("&#x27;").data
  else [c]

/-- `html.escape(s, quote=True)`. -/
def pyHtmlEscape (s : List Char) : List Char := (s.map escChar).flatten

/-- Worker for `html.unescape` restricted to the five entities `html.escape`
emits — the only ones that occur in the converter's output attributes. -/
def unescGo : Nat → List Char → List Char
  | 0, s => s
  | _ + 1, [] => []
  | f + 1, c :: cs =>
    if c = '&' then
      if startsL (("amp;").data) cs then '&' :: unescGo f (cs.drop 4)
      else if startsL (("lt;").data) cs then '<' :: unescGo f (cs.drop 3)
      else if startsL (("gt;").data) cs then '>' :: unescGo f (cs.drop 3)
      else if startsL (("quot;").data) cs then dquote :: unescGo f (cs.drop 5)
      else if startsL (("#x27;").data) cs then squote :: unescGo f (cs.drop 5)
      else c :: unescGo f cs
    else c :: unescGo f cs

/-- `html.unescape(s)` on strings built from the escaper's entity subset. -/
def pyHtmlUnescape (s : List Char) : List Char := unescGo s.length s

/-! ## SHA-1 (`hashlib.sha1(...).hexdigest()`) -/

/-- Truncate to 32 bits. -/
def m32 (n : Nat) : Nat := n % 4294967296

/-- 32-bit left rotation (input assumed `< 2^32`). -/
def rotl (k n : Nat) : Nat :=
  m32 (Nat.lor (Nat.shiftLeft n k) (Nat.shiftRight n (32 - k)))

/-- Big-endian 4-byte rendering of a 32-bit word. -/
def be4 (n : Nat) : List Nat :=
  [n / 16777216 % 256, n / 65536 % 256, n / 256 % 256, n % 256]

/-- Big-endian 8-byte rendering of the 64-bit message length. -/
def be8 (n : Nat) : List Nat :=
  [n / 72057594037927936 % 256, n / 281474976710656 % 256,
   n / 1099511627776 % 256, n / 4294967296 % 256,
   n / 16777216 % 256, n / 65536 % 256, n / 256 % 256, n % 256]

/-- SHA-1 message padding: `0x80`, zeros to 56 mod 64, 8-byte bit length. -/
def sha1Pad (m : List Nat) : List Nat :=
  m ++ 128 :: (List.replicate ((119 - m.length % 64) % 64) 0 ++ be8 (8 * m.length))

/-- Combine consecutive byte quadruples into big-endian 32-bit words. -/
def wordsOfBytes : List Nat → List Nat
  | b0 :: b1 :: b2 :: b3 :: rest =>
    (b0 * 16777216 + b1 * 65536 + b2 * 256 + b3) :: wordsOfBytes rest
  | _ => []

/-- Split a word list (length a multiple of 16) into 16-word blocks. -/
def chunk16 : List Nat → List (List Nat)
  | a1 :: a2 :: a3 :: a4 :: a5 :: a6 :: a7 :: a8 ::
    a9 :: a10 :: a11 :: a12 :: a13 :: a14 :: a15 :: a16 :: rest =>
    [a1, a2, a3, a4, a5, a6, a7, a8, a9, a10, a11, a12, a13, a14, a15, a16]
      :: chunk16 rest
  | _ => []

/-- Message-schedule extension: prepend 64 derived words to the reversed
16-word block (`w[i] = rotl1 (w[i-3] xor w[i-8] xor w[i-14] xor w[i-16])`). -/
def extendW : Nat → List Nat → List Nat
  | 0, acc => acc
  | f + 1, acc =>
    let w := rotl 1 (Nat.xor (Nat.xor (acc.getD 2 0) (acc.getD 7 0))
      (Nat.xor (acc.getD 13 0) (acc.getD 15 0)))
    extendW f (w :: acc)

/-- The 80 SHA-1 rounds over the extended schedule. -/
def sha1Rounds : Nat → List Nat → Nat × Nat × Nat × Nat × Nat → Nat × Nat × Nat × Nat × Nat
  | _, [], st => st
  | i, w :: ws, (a, b, c, d, e) =>
    let f :=
      if i < 20 then Nat.lor (Nat.land b c) (Nat.land (Nat.xor b 4294967295) d)
      else if i < 40 then Nat.xor (Nat.xor b c) d
      else if i < 60 then
        Nat.lor (Nat.lor (Nat.land b c) (Nat.land b d)) (Nat.land c d)
      else Nat.xor (Nat.xor b c) d
    let k :=
      if i < 20 then 1518500249
      else if i < 40 then 1859775393
      else if i < 60 then 2400959708
      else 3395469782
    let temp := m32 (rotl 5 a + f + e + k + w)
    sha1Rounds (i + 1) ws (temp, a, rotl 30 b, c, d)

/-- Fold the compression function over the 16-word blocks. -/
def sha1Blocks : Nat × Nat × Nat × Nat × Nat → List (List Nat) → Nat × Nat × Nat × Nat × Nat
  | h, [] => h
  | (h0, h1, h2, h3, h4), blk :: rest =>
    let ws := (extendW 64 blk.reverse).reverse
    let r := sha1Rounds 0 ws (h0, h1, h2, h3, h4)
    sha1Blocks (m32 (h0 + r.1), m32 (h1 + r.2.1), m32 (h2 + r.2.2.1),
      m32 (h3 + r.2.2.2.1), m32 (h4 + r.2.2.2.2)) rest

/-- SHA-1 digest of a byte string, as 20 bytes. -/
def sha1Bytes20 (m : List Nat) : List Nat :=
  let h := sha1Blocks (1732584193, 4023233417, 2562383102, 271733878, 3285377520)
    (chunk16 (wordsOfBytes (sha1Pad m)))
  be4 h.1 ++ be4 h.2.1 ++ be4 h.2.2.1 ++ be4 h.2.2.2.1 ++ be4 h.2.2.2.2

/-- Two lower-case hex digits of one byte. -/
def byteHex (b : Nat) : List Char := [hexL (b / 16), hexL (b % 16)]

/-- `hashlib.sha1(s.encode("utf-8")).hexdigest()`. -/
def sha1HexUtf8 (s : List Char) : List Char :=
  ((sha1Bytes20 ((s.map utf8Bytes).flatten)).map byteHex).flatten

/-- `hashlib.sha1(tikz_code.encode("utf-8")).hexdigest()[:10]` — the content
hash used for figure cache filenames (tex2canvas.py line 134). -/
def tikzDigest (code : List Char) : List Char := (sha1HexUtf8 code).take 10

/-- The cache-keyed candidate filename `f"{basename}_{digest}.png"`
(tex2canvas.py line 135). -/
def tikzPngName (basename code : List Char) : List Char :=
  basename ++ '_' :: (tikzDigest code ++ (".png").data)

/-! ## `canvas_equation_img` (tex2canvas.py lines 205-214) -/

/-- `canvas_equation_img(latex)`: the Canvas equation-image wire tag. -/
def canvas_equation_img (latex : List Char) : List Char :=
  ("<img class=\x22equation_image\x22 title=\x22").data ++ pyHtmlEscape latex
    ++ ("\x22 src=\x22/equation_images/").data ++ pyQuote latex
    ++ ("?scale=1\x22 alt=\x22LaTeX: ").data ++ pyHtmlEscape latex
    ++ ("\x22 data-equation-content=\x22").data ++ pyHtmlEscape latex
    ++ ("\x22 data-ignore-a11y-check=\x22\x22 />").data

/-! ## Generic substitution scanner

`re.sub` semantics: scan left to right, at each position try the pattern;
on a match emit the replacement and continue after the matched span (the
replacement is not rescanned); otherwise emit the character and advance.
`step st s` returns `(replacement, remainder, newState)` when the pattern
matches at the head of `s`; `upd` folds skipped characters into the state
(used for look-behind context).  Fuel is the input length: every step
consumes at least one character, so the fuel never runs out. -/
def scanSt {σ : Type} (step : σ → List Char → Option (List Char × List Char × σ))
    (upd : σ → Char → σ) : Nat → σ → List Char → List Char × σ
  | 0, st, s => (s, st)
  | _ + 1, st, [] => ([], st)
  | f + 1, st, c :: cs =>
    match step st (c :: cs) with
    | some (rep, rest, st') =>
      let r := scanSt step upd f st' rest
      (rep ++ r.1, r.2)
    | none =>
      let r := scanSt step upd f (upd st c) cs
      (c :: r.1, r.2)

/-- State-preserving skip function for substitutions without look-behind. -/
def keepSt {σ : Type} (st : σ) (_ : Char) : σ := st

/-- Run a substitution over a whole string. -/
def runSub {σ : Type} (step : σ → List Char → Option (List Char × List Char × σ))
    (st : σ) (s : List Char) : List Char × σ :=
  scanSt step keepSt s.length st s

/-- Match step for `cmd\*?\{(.*?)\}` patterns (the optional star present
when `star` is true), replacing the match with `wrap group`. -/
def stepCmdArg (cmd : List Char) (star : Bool) (wrap : List Char → List Char) :
    Unit → List Char → Option (List Char × List Char × Unit) := fun _ s =>
  if startsL cmd s then
    let r1 := s.drop cmd.length
    let r2 := if star ∧ r1.head? = some '*' then r1.drop 1 else r1
    match r2 with
    | [] => none
    | c :: rest =>
      if c = obrace then
        (matchBraced0 rest).map (fun p => (wrap p.1, p.2, ()))
      else none
  else none

/-- Match step for a literal token replacement (Python `str.replace` and
the inline `\begin{itemize}`/`\end{itemize}` substitutions). -/
def stepLit (tok rep : List Char) :
    Unit → List Char → Option (List Char × List Char × Unit) := fun _ s =>
  if startsL tok s then some (rep, s.drop tok.length, ()) else none

/-- Match step for `\\begin\{<env>\}(?:\[[^\]]*\])?` inline list-open
substitutions: an unclosed bracket group falls back to the empty group. -/
def stepBeginInline (tok rep : List Char) :
    Unit → List Char → Option (List Char × List Char × Unit) := fun _ s =>
  if startsL tok s then
    let r1 := s.drop tok.length
    match r1 with
    | '[' :: rest =>
      match List.findIdx? (fun c => c = ']') rest with
      | some j => some (rep, rest.drop (j + 1), ())
      | none => some (rep, r1, ())
    | _ => some (rep, r1, ())
  else none

/-- Match step for `\{\\bf\s+(.*?)\}`. -/
def stepBf : Unit → List Char → Option (List Char × List Char × Unit) := fun _ s =>
  if startsL [obrace, bslash, 'b', 'f'] s then
    let r1 := s.drop 4
    let ws := r1.takeWhile pyWS
    if ws = [] then none
    else
      (matchBraced0 (r1.drop ws.length)).map
        (fun p => (("<strong>").data ++ p.1 ++ ("</strong>").data, p.2, ()))
  else none

/-- Match step for `\\subsection\*?\{(.*?)\}` with the auto-numbering
counter threaded as state (the `replace_subsection` closure). -/
def stepSubsec : Nat → List Char → Option (List Char × List Char × Nat) := fun n s =>
  if startsL (("\\subsection").data) s then
    let r1 := s.drop 11
    let r2 := if r1.head? = some '*' then r1.drop 1 else r1
    match r2 with
    | [] => none
    | c :: rest =>
      if c = obrace then
        (matchBraced0 rest).map (fun p =>
          let ct := stripL p.1
          if ct = [] then
            (("<h4>Part ").data ++ natStr (n + 1) ++ ("</h4>").data, p.2, n + 1)
          else (("<h4>").data ++ ct ++ ("</h4>").data, p.2, n))
      else none
  else none

/-! ## `\includegraphics` replacement (tex2canvas.py lines 426-436, 467-479) -/

/-- The literal `\includegraphics`. -/
def incTok : List Char := ("\\includegraphics").data

/-- After the bracket group, expect `\{(.*?)\}` giving `(path, after)`. -/
def incTail : List Char → Option (List Char × List Char)
  | [] => none
  | c :: rest => if c = obrace then matchBraced0 rest else none

/-- Backtracking search for the close of `\[(.*?)\]` such that a braced
group follows: the bracket content extends past candidate `]` characters
that are not followed by a brace group. -/
def incScanBr (acc : List Char) : List Char → Option (List Char × List Char × List Char)
  | [] => none
  | c :: rest =>
    if c = ']' then
      match incTail rest with
      | some (path, after) => some (acc.reverse, path, after)
      | none => incScanBr (c :: acc) rest
    else incScanBr (c :: acc) rest

/-- The `repl` closure: build the `<img>` tag with alt-text precedence
option-supplied alt, else pending comment alt, else a stem-derived default. -/
def includeRepl (dirFiles : List (List Char)) (pa : Option (List Char))
    (opts : Option (List Char)) (path : List Char) : List Char :=
  let p := stripL path
  let alt0 := pyOrOpt (parse_alt_from_options opts) pa
  let resolved := resolve_image_path p dirFiles
  let alt := if pyTruthy alt0 then alt0.getD [] else ("Image: ").data ++ pyStem resolved
  ("<img src=\x22").data ++ resolved ++ ("\x22 alt=\x22").data ++ alt ++ ("\x22>").data

/-- Match step for `\\includegraphics(?:\[(.*?)\])?\{(.*?)\}`. -/
def stepInclude (dirFiles : List (List Char)) (pa : Option (List Char)) :
    Unit → List Char → Option (List Char × List Char × Unit) := fun _ s =>
  if startsL incTok s then
    let r1 := s.drop incTok.length
    match r1 with
    | '[' :: rest =>
      (incScanBr [] rest).map
        (fun t => (includeRepl dirFiles pa (some t.1) t.2.1, t.2.2, ()))
    | _ =>
      (incTail r1).map (fun p => (includeRepl dirFiles pa none p.1, p.2, ()))
  else none

/-! ## Line classification for the block scanner -/

/-- Regex `^\s*\\item\b\s*`: if the line opens with an item marker, return
the line with the marker (and following whitespace) removed. -/
def matchItemTrim (line : List Char) : Option (List Char) :=
  let l1 := line.dropWhile pyWS
  if startsL (("\\item").data) l1 then
    let r := l1.drop 5
    match r.head? with
    | some c => if wordChar c then none else some (r.dropWhile pyWS)
    | none => some []
  else none

/-- Full-line match `^\s*\\begin\{(itemize|enumerate)\}(?:\[[^\]]*\])?\s*$`,
returning the target tag (`ul` or `ol`). -/
def matchBeginList (line : List Char) : Option (List Char) :=
  let l1 := line.dropWhile pyWS
  let kind : Option (List Char × List Char) :=
    if startsL (("\\begin\x7bitemize\x7d").data) l1 then
      some ((("ul").data), l1.drop (("\\begin\x7bitemize\x7d").data).length)
    else if startsL (("\\begin\x7benumerate\x7d").data) l1 then
      some ((("ol").data), l1.drop (("\\begin\x7benumerate\x7d").data).length)
    else none
  match kind with
  | none => none
  | some (tag, r1) =>
    let r2 := match r1 with
      | '[' :: rest =>
        (match List.findIdx? (fun c => c = ']') rest with
         | some j => rest.drop (j + 1)
         | none => r1)
      | _ => r1
    if r2.dropWhile pyWS = [] then some tag else none

/-- Full-line match `^\s*\\end\{(itemize|enumerate)\}\s*$`. -/
def matchEndList (line : List Char) : Option (List Char) :=
  let l1 := line.dropWhile pyWS
  if startsL (("\\end\x7bitemize\x7d").data) l1 then
    if (l1.drop (("\\end\x7bitemize\x7d").data).length).dropWhile pyWS = [] then
      some (("ul").data)
    else none
  else if startsL (("\\end\x7benumerate\x7d").data) l1 then
    if (l1.drop (("\\end\x7benumerate\x7d").data).length).dropWhile pyWS = [] then
      some (("ol").data)
    else none
  else none

/-- Leftmost match of `\\begin\{(equation\*?|cases|array)\}` in a line. -/
def envSearch : List Char → Option (List Char)
  | [] => none
  | c :: cs =>
    if startsL (("\\begin\x7bequation*\x7d").data) (c :: cs) then some (("equation*").data)
    else if startsL (("\\begin\x7bequation\x7d").data) (c :: cs) then some (("equation").data)
    else if startsL (("\\begin\x7bcases\x7d").data) (c :: cs) then some (("cases").data)
    else if startsL (("\\begin\x7barray\x7d").data) (c :: cs) then some (("array").data)
    else envSearch cs

/-- Python `line.split(tok, 1)[1]` (only called when `tok` occurs). -/
def splitAfterTok (tok line : List Char) : List Char :=
  match findSubIdx tok line with
  | some i => line.drop (i + tok.length)
  | none => line

/-- Python `line.split(tok, 1)[0]`. -/
def takeBeforeTok (tok line : List Char) : List Char :=
  match findSubIdx tok line with
  | some i => line.take i
  | none => line

/-! ## Alt-text comment annotation
`re.search(r"\balt\s*:\s*(.+)", comment, re.IGNORECASE)` -/

/-- Case-insensitive `alt` at the head. -/
def startsAltCI : List Char → Bool
  | a :: l :: t :: _ => (a = 'a' || a = 'A') && (l = 'l' || l = 'L') && (t = 't' || t = 'T')
  | _ => false

/-- Word boundary `\b` before the candidate position. -/
def altBoundary : Option Char → Bool
  | none => true
  | some p => ¬ wordChar p

/-- After `alt`, match `\s*:\s*(.+)` and return the greedy group: the rest
of the line after the colon and maximal whitespace, except that an
all-whitespace remainder backtracks to its final character. -/
def altGroup (r : List Char) : Option (List Char) :=
  let r1 := r.dropWhile pyWS
  match r1 with
  | ':' :: r2 =>
    if r2 = [] then none
    else
      match r2.dropWhile pyWS with
      | [] => (match r2.reverse with | x :: _ => some [x] | [] => none)
      | gs => some gs
  | _ => none

/-- Scan the comment for the leftmost full match of the alt annotation. -/
def altSearchGo : Option Char → List Char → Option (List Char)
  | _, [] => none
  | prev, c :: cs =>
    if altBoundary prev ∧ startsAltCI (c :: cs) then
      match altGroup ((c :: cs).drop 3) with
      | some g => some g
      | none => altSearchGo (some c) cs
    else altSearchGo (some c) cs

/-- `re.search(r"\balt\s*:\s*(.+)", comment, re.IGNORECASE)` group 1. -/
def altSearch (comment : List Char) : Option (List Char) := altSearchGo none comment

/-- Update the pending alt slot from a line's comment part (`if comment:`
guards on Python truthiness, so an empty comment is skipped). -/
def updAlt (pa : Option (List Char)) : Option (List Char) → Option (List Char)
  | none => pa
  | some c =>
    if c = [] then pa
    else match altSearch c with
      | some g => some (stripL g)
      | none => pa

/-! ## `convert_math_to_canvas` (tex2canvas.py lines 217-233) -/

/-- Non-greedy close of `\$\$(.+?)\$\$`: least `j ≥ 1` with `$$` at `j`. -/
def ddClose : List Char → Option Nat
  | [] => none
  | _ :: rs => (findSubIdx ['$', '$'] rs).map (fun k => k + 1)

/-- Match step for the display pass `\$\$(.+?)\$\$` (DOTALL). -/
def stepDollarDollar : Unit → List Char → Option (List Char × List Char × Unit) := fun _ s =>
  if startsL ['$', '$'] s then
    let rest := s.drop 2
    match ddClose rest with
    | some j =>
      some ((("<p>").data ++ canvas_equation_img (stripL (rest.take j)) ++ ("</p>").data),
        rest.drop (j + 2), ())
    | none => none
  else none

/-- Match step for the bracket display pass `\\\[(.+?)\\\]` (DOTALL). -/
def stepDispBr : Unit → List Char → Option (List Char × List Char × Unit) := fun _ s =>
  if startsL [bslash, '['] s then
    let rest := s.drop 2
    match rest with
    | [] => none
    | _ :: rs =>
      (findSubIdx [bslash, ']'] rs).map (fun k =>
        ((("<p>").data ++ canvas_equation_img (stripL (rest.take (k + 1))) ++ ("</p>").data),
          rest.drop (k + 3), ()))
  else none

/-- Close scan for the inline pass: least `j ≥ 1` with an unescaped `$` at
`j` not followed by another `$`. -/
def inlineCloseGo (prev : Char) (idx : Nat) : List Char → Option Nat
  | [] => none
  | c :: rs =>
    if c = '$' ∧ prev ≠ bslash ∧ rs.head? ≠ some '$' then some idx
    else inlineCloseGo c (idx + 1) rs

/-- Close scan entry: the content group `(.+?)` is at least one character. -/
def inlineClose : List Char → Option Nat
  | [] => none
  | c :: rs => inlineCloseGo c 1 rs

/-- Match step for `(?<!\\)\$(?!\$)(.+?)(?<!\\)\$(?!\$)` (DOTALL); the
state is the previous character of the original text (look-behind). -/
def stepInline : Option Char → List Char → Option (List Char × List Char × Option Char) :=
  fun prev s =>
  match s with
  | '$' :: cs =>
    if prev ≠ some bslash ∧ cs.head? ≠ some '$' then
      match inlineClose cs with
      | some j =>
        some (canvas_equation_img (stripL (cs.take j)), cs.drop (j + 1), some '$')
      | none => none
    else none
  | _ => none

/-- Display pass 1: `\$\$(.+?)\$\$`. -/
def mathPassDD (t : List Char) : List Char :=
  (scanSt stepDollarDollar keepSt t.length () t).1

/-- Display pass 2: `\\\[(.+?)\\\]`. -/
def mathPassBr (t : List Char) : List Char :=
  (scanSt stepDispBr keepSt t.length () t).1

/-- Inline pass 3, with the previous-character look-behind state. -/
def mathPassInline (t : List Char) : List Char :=
  (scanSt stepInline (fun _ c => some c) t.length none t).1

/-- `convert_math_to_canvas(text)`: the three passes in source order. -/
def convert_math_to_canvas (t : List Char) : List Char :=
  mathPassInline (mathPassBr (mathPassDD t))

/-! ## Figure renderer (tex2canvas.py lines 106-202)

External effects are modelled explicitly: `fs` is the set of file names
present in the output directory, and the `Cfg` record carries tool
availability and the outcome of each external invocation (indexed by the
standalone document contents).  The third result component counts
`subprocess.run` invocations. -/

/-- Whether a preamble line survives into the standalone document. -/
def keepPreambleLine (line : List Char) : Bool :=
  let st := stripL line
  if st = [] then true
  else if startsL (("\\documentclass").data) st then false
  else if startsL beginDocTok st || startsL endDocTok st then false
  else if startsL (("\\title").data) st || startsL (("\\author").data) st
      || startsL (("\\date").data) st then false
  else true

/-- `build_tikz_standalone_doc(tikz_code, preamble)`. -/
def build_tikz_standalone_doc (tikz preamble : List Char) : List Char :=
  let preserved := (splitLinesL preamble).filter keepPreambleLine
  joinNL (((("\\documentclass[tikz,border=4pt]\x7bstandalone\x7d").data) :: preserved)
    ++ [beginDocTok, tikz, endDocTok, []])

/-- Conversion environment: input-file facts and external-tool behaviour. -/
structure Cfg where
  stem : List Char
  dirFiles : List (List Char)
  pdflatex : Bool
  pdftocairo : Bool
  magick : Bool
  compileOk : List Char → Bool
  rasterOk : List Char → Bool
  produced : List Char → Bool

/-- `render_tikz_to_png(tikz_code, preamble, out_dir, basename)`: returns
the optional png filename, the updated output-directory contents, and the
number of external-tool invocations performed. -/
def render_tikz_to_png (cfg : Cfg) (fs : List (List Char))
    (tikz preamble basename : List Char) : Option (List Char) × List (List Char) × Nat :=
  if ¬ cfg.pdflatex then (none, fs, 0)
  else
    let pngN := tikzPngName basename tikz
    if pngN ∈ fs then (some pngN, fs, 0)
    else
      let doc := build_tikz_standalone_doc tikz preamble
      if ¬ cfg.compileOk doc then (none, fs, 1)
      else if cfg.pdftocairo then
        if ¬ cfg.rasterOk doc then (none, fs, 2)
        else if ¬ cfg.produced doc then (none, fs, 2)
        else (some pngN, pngN :: fs, 2)
      else if cfg.magick then
        if ¬ cfg.rasterOk doc then (none, fs, 2)
        else if ¬ cfg.produced doc then (none, fs, 2)
        else (some pngN, pngN :: fs, 2)
      else (none, fs, 1)

/-! ## Block scanner state (`convert_tex_to_html`, tex2canvas.py 236-495) -/

/-- Mutable scan state of `convert_tex_to_html`: emitted lines (most
recent first), output-directory contents, the pending-alt slot, the
subsection counter, the list stack with its open-item flags, the figure
counter, and the external-invocation count. -/
structure St where
  outRev : List (List Char)
  fs : List (List Char)
  pa : Option (List Char)
  subsec : Nat
  stack : List (List Char)
  openLi : List Bool
  tikzN : Nat
  calls : Nat

/-- `output_lines.append(l)`. -/
def emit (st : St) (l : List Char) : St := { st with outRev := l :: st.outRev }

/-- `if output_lines and output_lines[-1] != "": output_lines.append("")`. -/
def emitSep (st : St) : St :=
  match st.outRev with
  | [] => st
  | l :: _ => if l = [] then st else emit st []

/-- Literal `\begin{tikzpicture}`. -/
def tikzBeginTok : List Char := ("\\begin\x7btikzpicture\x7d").data

/-- Literal `\end{tikzpicture}`. -/
def tikzEndTok : List Char := ("\\end\x7btikzpicture\x7d").data

/-- Literal `\begin{eqnarray}`. -/
def eqnarrayBeginTok : List Char := ("\\begin\x7beqnarray\x7d").data

/-- Literal `\end{eqnarray}`. -/
def eqnarrayEndTok : List Char := ("\\end\x7beqnarray\x7d").data

/-- Accumulate raw lines of a multi-line tikz block up to (and including)
the line containing the close marker; comments on swallowed lines update
the pending-alt slot.  Lines are appended before the close test
(tex2canvas.py lines 272-282). -/
def tikzCollect (pa : Option (List Char)) (acc : List (List Char)) :
    List (List Char) → List (List Char) × Option (List Char) × List (List Char)
  | [] => (acc.reverse, pa, [])
  | l :: ls =>
    let pr := split_unescaped_percent l
    let pa' := updAlt pa pr.2
    let acc' := rstripL pr.1 :: acc
    if containsSub tikzEndTok pr.1 then (acc'.reverse, pa', ls)
    else tikzCollect pa' acc' ls

/-- Accumulate inner lines of an equation-style environment up to the
close marker; the close test precedes appending, and the final partial
line is stripped and kept only if nonempty (tex2canvas.py 313-327,
356-371). -/
def envCollect (endTok : List Char) (pa : Option (List Char)) (acc : List (List Char)) :
    List (List Char) → List (List Char) × Option (List Char) × List (List Char)
  | [] => (acc.reverse, pa, [])
  | l :: ls =>
    let pr := split_unescaped_percent l
    let pa' := updAlt pa pr.2
    if containsSub endTok pr.1 then
      let before := stripL (takeBeforeTok endTok pr.1)
      let acc' := if before = [] then acc else before :: acc
      (acc'.reverse, pa', ls)
    else envCollect endTok pa' (rstripL pr.1 :: acc) ls

/-- Per-line cleanup inside an eqnarray: drop a trailing `\\`, then remove
alignment ampersands. -/
def eqnarrayLine (l : List Char) : List Char :=
  let l1 := rstripL l
  let l2 :=
    if startsL [bslash, bslash] l1.reverse then rstripL l1.dropLast.dropLast else l1
  l2.filter (fun c => c ≠ '&')

/-- Reassemble eqnarray rows as independent display equations. -/
def eqnarrayBlock (inner : List (List Char)) : List Char :=
  let inner1 := (inner.map stripL).filter (fun l => l ≠ [])
  let ml := (inner1.map eqnarrayLine).filter (fun l => l ≠ [])
  joinNL (ml.map (fun l => ("$$\n").data ++ l ++ ("\n$$").data))

/-- Reassemble an equation / cases / array environment as a display
block; cases and array are re-wrapped in their environment markers. -/
def envBlock (env : List Char) (inner : List (List Char)) : List Char :=
  let inner1 := (inner.map stripL).filter (fun l => l ≠ [])
  let latex := joinNL inner1
  if env = ("cases").data ∨ env = ("array").data then
    ("$$\n").data ++ ("\\begin\x7b").data ++ env ++ ("\x7d\n").data ++ latex
      ++ ("\n\\end\x7b").data ++ env ++ ("\x7d\n").data ++ ("$$").data
  else ("$$\n").data ++ latex ++ ("\n$$").data

/-- The tikz branch of the scanner (tex2canvas.py lines 261-304). -/
def tikzBranch (cfg : Cfg) (preamble : List Char) (st : St) (line : List Char)
    (rest : List (List Char)) : St × List (List Char) :=
  let col :=
    if containsSub tikzEndTok line then
      let s := (findSubIdx tikzBeginTok line).getD 0
      let e := (findSubIdx tikzEndTok line).getD 0 + tikzEndTok.length
      ([pySlice line s e], st.pa, rest)
    else
      let s := (findSubIdx tikzBeginTok line).getD 0
      tikzCollect st.pa [line.drop s] rest
  let tikzCode := stripL (joinNL col.1)
  let n := st.tikzN + 1
  let defAlt := ("TikZ figure ").data ++ natStr n
  let alt := match col.2.1 with
    | some a => if a = [] then defAlt else a
    | none => defAlt
  let basename := cfg.stem ++ ("_tikz_").data ++ natStr n
  let r := render_tikz_to_png cfg st.fs tikzCode preamble basename
  let st1 : St := { st with fs := r.2.1, calls := st.calls + r.2.2, tikzN := n, pa := none }
  let st2 := emitSep st1
  let st3 := match r.1 with
    | some name =>
      emit st2 ((("<img src=\x22").data ++ name ++ ("\x22 alt=\x22").data
        ++ pyHtmlEscape alt ++ ("\x22>").data))
    | none => emit st2 tikzCode
  (emit st3 [], col.2.2)

/-- The eqnarray branch (tex2canvas.py lines 306-347). -/
def eqnarrayBranch (st : St) (line : List Char) (rest : List (List Char)) :
    St × List (List Char) :=
  let after := stripL (splitAfterTok eqnarrayBeginTok line)
  let acc0 := if after = [] then [] else [after]
  let col := envCollect eqnarrayEndTok st.pa acc0 rest
  let block := eqnarrayBlock col.1
  let st1 := emitSep st
  let st2 := emit (emit st1 block) []
  ({ st2 with pa := none }, col.2.2)

/-- The equation / cases / array branch (tex2canvas.py lines 349-386). -/
def envBranch (st : St) (env : List Char) (line : List Char)
    (rest : List (List Char)) : St × List (List Char) :=
  let beginTok := ("\\begin\x7b").data ++ env ++ [cbrace]
  let endTok := ("\\end\x7b").data ++ env ++ [cbrace]
  let after := stripL (splitAfterTok beginTok line)
  let acc0 := if after = [] then [] else [after]
  let col := envCollect endTok st.pa acc0 rest
  let block := envBlock env col.1
  let st1 := emitSep st
  let st2 := emit (emit st1 block) []
  ({ st2 with pa := none }, col.2.2)

/-- Set the open-item flag of the top list frame. -/
def setTopOpen (st : St) (b : Bool) : St :=
  { st with openLi := match st.openLi with | [] => [] | _ :: t => b :: t }

/-- List-open marker: emit the tag and push a frame (lines 397-406). -/
def pushList (st : St) (tag : List Char) : St :=
  let st' := emit st ('<' :: (tag ++ [('>' : Char)]))
  { st' with stack := tag :: st'.stack, openLi := false :: st'.openLi }

/-- List-close marker with a nonempty stack: close any open item, pop the
frame, emit the close tag (lines 408-416). -/
def popList (st : St) : St :=
  let st1 := if st.openLi.head? = some true then emit st (("</li>").data) else st
  match st1.stack, st1.openLi with
  | t :: ts, _ :: os =>
    { (emit st1 (("</").data ++ t ++ [('>' : Char)])) with stack := ts, openLi := os }
  | _, _ => st1

/-- Stage: `re.sub(r"\\section\*?\{(.*?)\}", r"<h3>\1</h3>", line)`. -/
def sub_section (l : List Char) : List Char :=
  (runSub (stepCmdArg (("\\section").data) true
    (fun c => ("<h3>").data ++ c ++ ("</h3>").data)) () l).1

/-- Stage: the subsection substitution with its counter. -/
def sub_subsection (n : Nat) (l : List Char) : List Char × Nat := runSub stepSubsec n l

/-- Stage: `\subsubsection` → `<h5>`. -/
def sub_subsubsection (l : List Char) : List Char :=
  (runSub (stepCmdArg (("\\subsubsection").data) true
    (fun c => ("<h5>").data ++ c ++ ("</h5>").data)) () l).1

/-- Stage: `\emph` → `<em>`. -/
def sub_emph (l : List Char) : List Char :=
  (runSub (stepCmdArg (("\\emph").data) false
    (fun c => ("<em>").data ++ c ++ ("</em>").data)) () l).1

/-- Stage: `\textbf` → `<strong>`. -/
def sub_textbf (l : List Char) : List Char :=
  (runSub (stepCmdArg (("\\textbf").data) false
    (fun c => ("<strong>").data ++ c ++ ("</strong>").data)) () l).1

/-- Stage: `{\bf ...}` → `<strong>`. -/
def sub_bf (l : List Char) : List Char := (runSub stepBf () l).1

/-- Stage: inline `\begin{enumerate}` → `<ol>`. -/
def sub_begin_ol (l : List Char) : List Char :=
  (runSub (stepBeginInline (("\\begin\x7benumerate\x7d").data) (("<ol>").data)) () l).1

/-- Stage: inline `\end{enumerate}` → `</ol>`. -/
def sub_end_ol (l : List Char) : List Char :=
  (runSub (stepLit (("\\end\x7benumerate\x7d").data) (("</ol>").data)) () l).1

/-- Stage: inline `\begin{itemize}` → `<ul>`. -/
def sub_begin_ul (l : List Char) : List Char :=
  (runSub (stepBeginInline (("\\begin\x7bitemize\x7d").data) (("<ul>").data)) () l).1

/-- Stage: inline `\end{itemize}` → `</ul>`. -/
def sub_end_ul (l : List Char) : List Char :=
  (runSub (stepLit (("\\end\x7bitemize\x7d").data) (("</ul>").data)) () l).1

/-- Stage: the fallback `\item` rewrite into a self-closed list item. -/
def sub_item_line (l : List Char) : List Char :=
  match matchItemTrim l with
  | some t => ("<li>").data ++ stripL t ++ ("</li>").data
  | none => l

/-- Stage: the `\includegraphics` substitution guarded by its substring
test, returning the new line and pending-alt slot. -/
def sub_include (dirFiles : List (List Char)) (pa : Option (List Char))
    (l : List Char) : List Char × Option (List Char) :=
  if containsSub incTok l then ((runSub (stepInclude dirFiles pa) () l).1, none)
  else (l, pa)

/-- Stage: drop lines mentioning minipage markers. -/
def sub_minipage (l : List Char) : List Char :=
  if containsSub (("\\begin\x7bminipage\x7d").data) l
      || containsSub (("\\end\x7bminipage\x7d").data) l then []
  else l

/-- Stage: drop a bare `\maketitle`. -/
def sub_maketitle (l : List Char) : List Char :=
  if l = ("\\maketitle").data then [] else l

/-- Item marker inside an open list (lines 418-442). -/
def itemBranch (cfg : Cfg) (st : St) (line : List Char) : St :=
  let txt := stripL ((matchItemTrim line).getD [])
  let st1 := if st.openLi.head? = some true then emit st (("</li>").data) else st
  if txt = [] then setTopOpen (emit st1 (("<li>").data)) true
  else
    let t3 := sub_bf (sub_textbf (sub_emph txt))
    let pr := sub_include cfg.dirFiles st.pa t3
    let st2 := emit { st1 with pa := pr.2 } (("<li>").data ++ pr.1)
    setTopOpen st2 true

/-- The fallback substitution chain (lines 444-488), returning the final
line together with the updated subsection counter and pending-alt slot. -/
def fallbackLine (cfg : Cfg) (pa : Option (List Char)) (n : Nat) (line : List Char) :
    List Char × Nat × Option (List Char) :=
  let r2 := sub_subsection n (sub_section line)
  let l10 := sub_end_ul (sub_begin_ul (sub_end_ol (sub_begin_ol
    (sub_bf (sub_textbf (sub_emph (sub_subsubsection r2.1)))))))
  let pr := sub_include cfg.dirFiles pa (sub_item_line l10)
  (sub_maketitle (sub_minipage pr.1), r2.2, pr.2)

/-- The main scan loop of `convert_tex_to_html` (lines 250-489); fuel is
the number of lines, and every iteration consumes at least one line. -/
def scanGo (cfg : Cfg) (preamble : List Char) :
    Nat → St → List (List Char) → St
  | 0, st, _ => st
  | _ + 1, st, [] => st
  | f + 1, st, rawLine :: rest =>
    let pr0 := split_unescaped_percent rawLine
    let st0 : St := { st with pa := updAlt st.pa pr0.2 }
    let line := rstripL pr0.1
    if containsSub tikzBeginTok line then
      let r := tikzBranch cfg preamble st0 line rest
      scanGo cfg preamble f r.1 r.2
    else if containsSub eqnarrayBeginTok line then
      let r := eqnarrayBranch st0 line rest
      scanGo cfg preamble f r.1 r.2
    else
      match envSearch line with
      | some env =>
        let r := envBranch st0 env line rest
        scanGo cfg preamble f r.1 r.2
      | none =>
        if line = [] then
          scanGo cfg preamble f (if st0.stack = [] then emit st0 [] else st0) rest
        else
          let st1 := if containsSub (("\\section\x7b").data) line then
            { st0 with subsec := 0 } else st0
          match matchBeginList line with
          | some tag => scanGo cfg preamble f (pushList st1 tag) rest
          | none =>
            if (matchEndList line).isSome ∧ st1.stack ≠ [] then
              scanGo cfg preamble f (popList st1) rest
            else if (matchItemTrim line).isSome ∧ st1.stack ≠ [] then
              scanGo cfg preamble f (itemBranch cfg st1 line) rest
            else
              let r := fallbackLine cfg st1.pa st1.subsec line
              scanGo cfg preamble f
                (emit { st1 with subsec := r.2.1, pa := r.2.2 } r.1) rest

/-- Close any remaining open list frames at end of input (lines 491-495). -/
def drainGo : List (List Char) → List Bool → List (List Char) → List (List Char)
  | [], _, out => out
  | t :: ts, os, out =>
    let out1 := if os.head? = some true then (("</li>").data) :: out else out
    drainGo ts os.tail (((("</").data ++ t ++ [('>' : Char)])) :: out1)

/-- Apply the end-of-input drain to the scan state. -/
def drain (st : St) : St :=
  { st with outRev := drainGo st.stack st.openLi st.outRev, stack := [], openLi := [] }

/-- Group emitted lines into blank-separated blocks (lines 497-507). -/
def groupGo (curr : List (List Char)) : List (List Char) → List (List Char)
  | [] => if curr = [] then [] else [stripL (joinNL curr.reverse)]
  | l :: ls =>
    if stripL l = [] then
      if curr = [] then groupGo [] ls
      else stripL (joinNL curr.reverse) :: groupGo [] ls
    else groupGo (l :: curr) ls

/-- `blocks` construction from the emitted lines. -/
def groupBlocks (outs : List (List Char)) : List (List Char) := groupGo [] outs

/-- The structural-block test of the composer (lines 523-526). -/
def isBlockTag (s : List Char) : Bool :=
  startsL (("<h").data) s || startsL (("<img").data) s || startsL (("<blockquote").data) s
    || startsL (("<ul").data) s || startsL (("<ol").data) s || startsL (("<div").data) s
    || startsL (("<li").data) s || startsL (("</ol").data) s || startsL (("</ul").data) s
    || startsL (("<p><img class=\x22equation_image\x22").data) s

/-- `block.replace("\\\\", "<br>")`. -/
def replaceBr (b : List Char) : List Char :=
  (runSub (stepLit [bslash, bslash] (("<br>").data)) () b).1

/-- Composer treatment of one block (lines 517-531). -/
def renderBlock (b : List Char) : Option (List Char) :=
  let b1 := convert_math_to_canvas b
  let s := stripL b1
  if s = [] then none
  else if isBlockTag s then some s
  else some (("<p>").data ++ replaceBr b1 ++ ("</p>").data)

/-- HTML shell before the `<title>` content. -/
def shellA : List Char :=
  ("<!DOCTYPE html>\n<html lang=\x22en\x22>\n<head>\n  <meta charset=\x22utf-8\x22>\n  <meta name=\x22viewport\x22 content=\x22width=device-width, initial-scale=1\x22>\n  <title>").data

/-- HTML shell between the title and the body. -/
def shellB : List Char :=
  ("</title>\n  <script>\n    window.MathJax = \x7b\n      tex: \x7b\n        inlineMath: [[\x27$\x27, \x27$\x27], [\x27\\(\x27, \x27\\)\x27]],\n        displayMath: [[\x27$$\x27, \x27$$\x27], [\x27\\[\x27, \x27\\]\x27]],\n        processEscapes: true\n      \x7d\n    \x7d;\n  </script>\n  <script async src=\x22https://cdn.jsdelivr.net/npm/mathjax@3/es5/tex-mml-chtml.js\x22></script>\n  <style>\n    body \x7b\n      font-family: \x22Georgia\x22, \x22Times New Roman\x22, serif;\n      max-width: 900px;\n      margin: 24px auto;\n      padding: 0 16px;\n      line-height: 1.5;\n    \x7d\n    img \x7b max-width: 100%; height: auto; \x7d\n    h2, h3, h4, h5 \x7b margin-top: 1.2em; \x7d\n  </style>\n</head>\n<body>\n").data

/-- HTML shell after the body. -/
def shellC : List Char := ("\n</body>\n</html>\n").data

/-- Assemble the full document shell. -/
def htmlShell (title body : List Char) : List Char :=
  shellA ++ title ++ shellB ++ body ++ shellC

/-- Initial scan state over the given output-directory contents. -/
def initSt (fs0 : List (List Char)) : St :=
  { outRev := [], fs := fs0, pa := none, subsec := 0, stack := [],
    openLi := [], tikzN := 0, calls := 0 }

/-- Run the scanner (with end-of-input drain) over a raw input text. -/
def convertScan (cfg : Cfg) (fs0 : List (List Char)) (raw : List Char) : St :=
  let lines := splitLinesL (extract_body raw)
  drain (scanGo cfg (extract_preamble raw) lines.length (initSt fs0) lines)

/-- `convert_tex_to_html(tex_path, out_dir)`: the returned HTML text. -/
def convert_tex_to_html (cfg : Cfg) (fs0 : List (List Char)) (raw : List Char) : List Char :=
  let ta := extract_title_author raw
  let st := convertScan cfg fs0 raw
  let blocks := groupBlocks st.outRev.reverse
  let headerPart :=
    if pyTruthy ta.1 then
      (("<h2>").data ++ ta.1.getD [] ++ ("</h2>").data)
        :: (if pyTruthy ta.2 then
              [("<p><em>").data ++ ta.2.getD [] ++ ("</em></p>").data]
            else [])
    else []
  let rendered := headerPart ++ blocks.filterMap renderBlock
  htmlShell (if pyTruthy ta.1 then ta.1.getD [] else cfg.stem) (joinNL rendered)

/-! ## Verification-side definitions

These do not model source code; they are observation tools used to state
the claims (an attribute parser for image tags, a token model for list
inputs, and concrete tool environments). -/

/-- Parse a sequence of `name="value"` attributes separated by single
spaces and terminated by `/>`; at most 8 attributes. -/
def parseAttrsGo : Nat → List Char → Option (List (List Char × List Char))
  | 0, _ => none
  | f + 1, s =>
    if s = ("/>").data then some []
    else
      let name := s.takeWhile (fun c => c ≠ '=')
      match s.drop name.length with
      | '=' :: rest₁ =>
        match rest₁ with
        | q :: rest₂ =>
          if q = dquote then
            let v := rest₂.takeWhile (fun c => c ≠ dquote)
            match rest₂.drop v.length with
            | q2 :: ' ' :: rest₃ =>
              if q2 = dquote then
                (parseAttrsGo f rest₃).map (fun l => (name, v) :: l)
              else none
            | _ => none
          else none
        | [] => none
      | _ => none

/-- Parse an `<img ... />` tag into its attribute list. -/
def parseImgTag (tag : List Char) : Option (List (List Char × List Char)) :=
  if startsL (("<img ").data) tag then parseAttrsGo 8 (tag.drop 5) else none

/-- Look up one attribute of a parsed image tag. -/
def imgAttr (tag name : List Char) : Option (List Char) :=
  (parseImgTag tag).bind
    (fun l => (l.find? (fun p => p.1 = name)).map (fun p => p.2))

/-- No occurrence of the two adjacent characters `x y` in the list. -/
def noPair (x y : Char) : List Char → Bool
  | [] => true
  | [_] => true
  | a :: b :: t => !(a = x && b = y) && noPair x y (b :: t)

/-- `pat` mismatches `w` inside their common length (so `pat` cannot be a
prefix of `w ++ anything`). -/
def clash : List Char → List Char → Bool
  | [], _ => false
  | _ :: _, [] => false
  | p :: ps, c :: cs => p ≠ c || clash ps cs

/-- `pat` clashes with every suffix of `x` (so no occurrence of `pat` in
`x ++ y` starts inside `x`, whatever `y` is). -/
def allClash (pat x : List Char) : Bool :=
  (List.range x.length).all (fun k => clash pat (x.drop k))

/-- Input tokens for the list-balance claim: list open and close markers
(`true` = itemize), item lines, and plain text lines. -/
inductive LTok where
  | lopen : Bool → LTok
  | lclose : Bool → LTok
  | litem : List Char → LTok
  | lplain : List Char → LTok

/-- The source line denoted by a token. -/
def tokLine : LTok → List Char
  | .lopen true => ("\\begin\x7bitemize\x7d").data
  | .lopen false => ("\\begin\x7benumerate\x7d").data
  | .lclose true => ("\\end\x7bitemize\x7d").data
  | .lclose false => ("\\end\x7benumerate\x7d").data
  | .litem t => ("\\item ").data ++ t
  | .lplain l => l

/-- Nesting checker: run the token list against a stack of list kinds,
requiring closes to match opens and items to occur inside a list. -/
def balRun : List Bool → List LTok → Option (List Bool)
  | stk, [] => some stk
  | stk, .lopen k :: ts => balRun (k :: stk) ts
  | stk, .lclose k :: ts =>
    (match stk with
     | t :: r => if t = k then balRun r ts else none
     | [] => none)
  | stk, .litem _ :: ts => if stk = [] then none else balRun stk ts
  | stk, .lplain _ :: ts => balRun stk ts

/-- Side conditions on an item's text: nonblank, strip-fixed, without
comment or command characters, and not itself looking like an item tag. -/
def itemTextOk (t : List Char) : Bool :=
  t ≠ [] && stripL t = t && (bslash ∉ t : Bool) && ('%' ∉ t : Bool)
    && !startsL (("<li").data) t

/-- Side conditions on a plain line: nonblank, strip-fixed, without
comment or command characters, and not confusable with an emitted tag. -/
def plainLineOk (l : List Char) : Bool :=
  l ≠ [] && stripL l = l && (bslash ∉ l : Bool) && ('%' ∉ l : Bool)
    && !startsL (("<li").data) l
    && l ≠ ("<ul>").data && l ≠ ("</ul>").data
    && l ≠ ("<ol>").data && l ≠ ("</ol>").data && l ≠ ("</li>").data

/-- Side conditions per token. -/
def tokOk : LTok → Bool
  | .lopen _ => true
  | .lclose _ => true
  | .litem t => itemTextOk t
  | .lplain l => plainLineOk l

/-- Count of lines equal to `l₀`. -/
def cntEq (l₀ : List Char) (outs : List (List Char)) : Nat :=
  outs.countP (fun l => l = l₀)

/-- Count of lines starting with `<li`. -/
def cntLiOpen (outs : List (List Char)) : Nat :=
  outs.countP (fun l => startsL (("<li").data) l)

/-- Count of tokens of a given open kind. -/
def cntOpen (k : Bool) (toks : List LTok) : Nat :=
  toks.countP (fun t => match t with | .lopen k' => k' = k | _ => false)

/-- No two adjacent emitted lines both start with `<li`. -/
def noAdjLi : List (List Char) → Bool
  | [] => true
  | [_] => true
  | a :: b :: t =>
    !(startsL (("<li").data) a && startsL (("<li").data) b) && noAdjLi (b :: t)

/-- Count of tokens of a given close kind. -/
def cntClose (k : Bool) (toks : List LTok) : Nat :=
  toks.countP (fun t => match t with | .lclose k' => k' = k | _ => false)

/-- Count of frames of a given kind on a stack of list kinds. -/
def cntB (k : Bool) (stk : List Bool) : Nat := stk.countP (fun b => b = k)

/-- The HTML tag name for a list kind (`true` = itemize). -/
def tagOf (b : Bool) : List Char := if b then ("ul").data else ("ol").data

/-- Index of a hex character in the lower-case hex table, as `Fin 16`. -/
def hexVal (c : Char) : Fin 16 :=
  ⟨(List.findIdx (fun x => x = c) (("0123456789abcdef").data)) % 16,
    Nat.mod_lt _ (by decide)⟩

/-- View a length-10 hex string as a function `Fin 10 → Fin 16`. -/
def hexVec (l : List Char) : Fin 10 → Fin 16 := fun i => hexVal (l.getD i.val '0')

/-- A concrete properly-nested token sequence exercising both list kinds. -/
def toksW : List LTok :=
  [.lopen true, .litem (("alpha").data), .lopen false, .litem (("beta").data),
   .lclose false, .litem (("gamma").data), .lclose true, .lplain (("done").data)]

/-- Environment with no external toolchain reachable. -/
def cfgAbsent : Cfg :=
  { stem := ("hw").data, dirFiles := [], pdflatex := false, pdftocairo := false,
    magick := false, compileOk := fun _ => false, rasterOk := fun _ => false,
    produced := fun _ => false }

/-- Environment where the compiler exists but every compile fails. -/
def cfgFail : Cfg :=
  { stem := ("hw").data, dirFiles := [], pdflatex := true, pdftocairo := true,
    magick := false, compileOk := fun _ => false, rasterOk := fun _ => false,
    produced := fun _ => false }

/-- Environment where the full toolchain exists and always succeeds. -/
def cfgOk : Cfg :=
  { stem := ("hw").data, dirFiles := [], pdflatex := true, pdftocairo := true,
    magick := false, compileOk := fun _ => true, rasterOk := fun _ => true,
    produced := fun _ => true }

/-! ## String toolkit lemmas -/

theorem startsL_append_self (pat b : List Char) : startsL pat (pat ++ b) = true := by
  induction pat with
  | nil => rfl
  | cons p ps ih => simp [startsL, ih]

theorem startsL_self (pat : List Char) : startsL pat pat = true := by
  have := startsL_append_self pat []
  simpa using this

theorem startsL_of_startsL_append (pat a b : List Char) (h : startsL pat a = true) :
    startsL pat (a ++ b) = true := by
  induction pat generalizing a with
  | nil => rfl
  | cons p ps ih =>
    cases a with
    | nil => simp [startsL] at h
    | cons c cs =>
      simp only [startsL, Bool.and_eq_true, decide_eq_true_eq] at h
      simp [startsL, h.1, ih cs h.2]

theorem startsL_false_of_clash (pat w y : List Char) (h : clash pat w = true) :
    startsL pat (w ++ y) = false := by
  induction pat generalizing w with
  | nil => simp [clash] at h
  | cons p ps ih =>
    cases w with
    | nil => simp [clash] at h
    | cons c cs =>
      simp only [clash, Bool.or_eq_true, decide_eq_true_eq] at h
      rcases h with h | h
      · simp [startsL, h]
      · simp [startsL, ih cs h]

theorem findSubIdx_of_startsL (pat l : List Char) (h : startsL pat l = true) :
    findSubIdx pat l = some 0 := by
  cases l with
  | nil => simp [findSubIdx, h]
  | cons c cs => simp [findSubIdx, h]

theorem findSubIdx_append_right (pat a b : List Char)
    (h : ∀ k, k < a.length → startsL pat ((a ++ b).drop k) = false) :
    findSubIdx pat (a ++ b) = (findSubIdx pat b).map (fun i => i + a.length) := by
  induction a with
  | nil =>
    simp only [List.nil_append, List.length_nil]
    cases findSubIdx pat b <;> simp
  | cons x xs ih =>
    have h0 : startsL pat (x :: (xs ++ b)) = false := by
      have := h 0 (by simp)
      simpa using this
    have ih' := ih (fun k hk => by
      have := h (k + 1) (by simpa using Nat.succ_lt_succ hk)
      simpa using this)
    have hstep : findSubIdx pat (x :: (xs ++ b)) =
        (findSubIdx pat (xs ++ b)).map (fun k => k + 1) := by
      simp [findSubIdx, h0]
    simp only [List.cons_append, hstep, ih']
    cases findSubIdx pat b with
    | none => rfl
    | some i => simp [Nat.add_assoc]

theorem drop_append_cons_head (x y : List Char) (k : Nat) (hk : k < x.length) :
    (x ++ y).drop k = x[k] :: (x.drop (k + 1) ++ y) := by
  rw [List.drop_append_of_le_length (Nat.le_of_lt hk), List.drop_eq_getElem_cons hk,
    List.cons_append]

theorem not_starts_within_of_head_ne (p : Char) (ps x y : List Char)
    (hx : ∀ c ∈ x, c ≠ p) : ∀ k, k < x.length →
    startsL (p :: ps) ((x ++ y).drop k) = false := by
  intro k hk
  rw [drop_append_cons_head x y k hk]
  have hne : x[k] ≠ p := hx _ (List.getElem_mem hk)
  simp [startsL, Ne.symm hne]

theorem no_starts_within_of_allClash (pat x y : List Char) (h : allClash pat x = true) :
    ∀ k, k < x.length → startsL pat ((x ++ y).drop k) = false := by
  intro k hk
  have hcl : clash pat (x.drop k) = true := by
    have := (List.all_eq_true.mp h) k (List.mem_range.mpr hk)
    simpa using this
  rw [List.drop_append_of_le_length (Nat.le_of_lt hk)]
  exact startsL_false_of_clash pat (x.drop k) y hcl

theorem containsSub_eq_isSome (pat l : List Char) :
    containsSub pat l = (findSubIdx pat l).isSome := by
  induction l with
  | nil =>
    by_cases h : startsL pat [] = true
    · simp [containsSub, findSubIdx, h]
    · simp only [Bool.not_eq_true] at h
      simp [containsSub, findSubIdx, h]
  | cons c cs ih =>
    by_cases h : startsL pat (c :: cs) = true
    · simp [containsSub, findSubIdx, h]
    · simp only [Bool.not_eq_true] at h
      simp [containsSub, findSubIdx, h, ih]

theorem containsSub_false_of_not_starts (pat l : List Char)
    (h : ∀ k, startsL pat (l.drop k) = false) : containsSub pat l = false := by
  induction l with
  | nil =>
    have := h 0
    simpa [containsSub] using this
  | cons c cs ih =>
    have h0 := h 0
    simp only [List.drop_zero] at h0
    simp [containsSub, h0, ih (fun k => by have := h (k + 1); simpa using this)]

theorem containsSub_of_starts_drop (pat l : List Char) (k : Nat)
    (h : startsL pat (l.drop k) = true) : containsSub pat l = true := by
  induction l generalizing k with
  | nil =>
    simp only [List.drop_nil] at h
    simp [containsSub, h]
  | cons c cs ih =>
    cases k with
    | zero =>
      simp only [List.drop_zero] at h
      simp [containsSub, h]
    | succ k' =>
      simp only [List.drop_succ_cons] at h
      simp [containsSub, ih k' h]

theorem containsSub_append_middle (x pre suf : List Char) :
    containsSub x (pre ++ (x ++ suf)) = true := by
  refine containsSub_of_starts_drop x _ pre.length ?_
  rw [List.drop_left]
  exact startsL_append_self x suf

theorem containsSub_false_of_head_not_mem (p : Char) (ps l : List Char)
    (h : p ∉ l) : containsSub (p :: ps) l = false := by
  refine containsSub_false_of_not_starts _ _ (fun k => ?_)
  cases e : l.drop k with
  | nil => rfl
  | cons c cs =>
    have hc : c ∈ l := List.drop_subset k l (by rw [e]; exact List.mem_cons_self c cs)
    have hne : c ≠ p := fun hcp => h (hcp ▸ hc)
    simp [startsL, Ne.symm hne]

theorem containsSub_cons (pat : List Char) (c : Char) (cs : List Char) :
    containsSub pat (c :: cs) = (startsL pat (c :: cs) || containsSub pat cs) := rfl

theorem containsSub_false_of_noPair (x y : Char) (r l : List Char)
    (h : noPair x y l = true) : containsSub (x :: y :: r) l = false := by
  induction l with
  | nil => rfl
  | cons a t ih =>
    cases t with
    | nil => simp [containsSub, startsL]
    | cons b t' =>
      simp only [noPair, Bool.and_eq_true, Bool.not_eq_true', Bool.and_eq_false_iff,
        decide_eq_false_iff_not] at h
      have h2 := ih h.2
      have h1 : startsL (x :: y :: r) (a :: b :: t') = false := by
        rcases h.1 with hx | hy
        · simp [startsL, Ne.symm hx]
        · simp [startsL, Ne.symm hy]
      rw [containsSub_cons, h1, h2]
      rfl

theorem noPair_of_not_mem_fst (x y : Char) (l : List Char) (h : x ∉ l) :
    noPair x y l = true := by
  induction l with
  | nil => rfl
  | cons a t ih =>
    cases t with
    | nil => rfl
    | cons b t' =>
      have ha : a ≠ x := fun e => h (e ▸ List.mem_cons_self a _)
      have ht : x ∉ b :: t' := fun m => h (List.mem_cons_of_mem a m)
      simp [noPair, ih ht, fun e => ha e]

theorem noPair_cons_cons (x y a b : Char) (t : List Char) :
    noPair x y (a :: b :: t) = (!(a = x && b = y) && noPair x y (b :: t)) := rfl

theorem noPair_append (x y : Char) (a b : List Char) (ha : noPair x y a = true)
    (hb : noPair x y b = true)
    (hj : ¬(a.getLast? = some x ∧ b.head? = some y)) :
    noPair x y (a ++ b) = true := by
  induction a with
  | nil => simpa using hb
  | cons c cs ih =>
    cases cs with
    | nil =>
      cases b with
      | nil => rfl
      | cons d t =>
        have hcd : ¬(c = x ∧ d = y) := by
          intro ⟨h1, h2⟩
          exact hj ⟨by simp [h1], by simp [h2]⟩
        simp only [List.cons_append, List.nil_append]
        rw [noPair_cons_cons]
        simp only [Bool.and_eq_true, Bool.not_eq_true', Bool.and_eq_false_iff,
          decide_eq_false_iff_not]
        constructor
        · by_cases hc : c = x
          · right; intro hd; exact hcd ⟨hc, hd⟩
          · left; exact hc
        · exact hb
    | cons c2 cs2 =>
      have ha' : noPair x y (c2 :: cs2) = true := by
        rw [noPair_cons_cons] at ha
        exact (Bool.and_eq_true _ _ |>.mp ha).2
      have hj' : ¬((c2 :: cs2).getLast? = some x ∧ b.head? = some y) := by
        intro hp
        exact hj ⟨by rw [List.getLast?_cons_cons]; exact hp.1, hp.2⟩
      have step := ih ha' hj'
      rw [noPair_cons_cons] at ha
      simp only [List.cons_append]
      rw [noPair_cons_cons]
      simp only [Bool.and_eq_true] at ha ⊢
      exact ⟨ha.1, by simpa using step⟩

/-! ## Claim C10 -/

/-- C10: when the document-begin marker or the document-end marker is
missing, `extract_body` returns the whole input unchanged, and when the
begin marker is missing `extract_preamble` does too, so conversion
proceeds over the whole file. -/
theorem C10_missing_markers_passthrough (t : List Char)
    (h : findSubIdx beginDocTok t = none ∨ findSubIdx endDocTok t = none) :
    extract_body t = t ∧
      (findSubIdx beginDocTok t = none → extract_preamble t = t) := by
  constructor
  · unfold extract_body
    rcases h with h | h
    · rw [h]
    · rw [h]
      cases findSubIdx beginDocTok t <;> rfl
  · intro hb
    unfold extract_preamble
    rw [hb]

/-- Witness for C10 at a concrete markerless input. -/
theorem C10_missing_markers_passthrough_witness :
    extract_body (("hello world").data) = ("hello world").data ∧
      (findSubIdx beginDocTok (("hello world").data) = none →
        extract_preamble (("hello world").data) = ("hello world").data) :=
  C10_missing_markers_passthrough (("hello world").data) (Or.inl (by decide))

/-! ## Character classes of the escaped / encoded output -/

/-- Characters occurring in the five escape entities. -/
def entChars : List Char := ("&amp;ltgquo#x27").data

/-- The special characters rewritten by `html.escape`. -/
def escSpecial : List Char := ['&', '<', '>', dquote, squote]

theorem escChar_mem (c x : Char) (hx : x ∈ escChar c) :
    (x = c ∧ c ∉ escSpecial) ∨ x ∈ entChars := by
  by_cases h1 : c = '&'
  · subst h1; right
    rw [show escChar '&' = ("&amp;").data from rfl] at hx
    fin_cases hx <;> decide
  · by_cases h2 : c = '<'
    · subst h2; right
      rw [show escChar '<' = ("&lt;").data from rfl] at hx
      fin_cases hx <;> decide
    · by_cases h3 : c = '>'
      · subst h3; right
        rw [show escChar '>' = ("&gt;").data from rfl] at hx
        fin_cases hx <;> decide
      · by_cases h4 : c = dquote
        · subst h4; right
          rw [show escChar dquote = ("&quot;").data from rfl] at hx
          fin_cases hx <;> decide
        · by_cases h5 : c = squote
          · subst h5; right
            rw [show escChar squote = ("&#x27;").data from rfl] at hx
            fin_cases hx <;> decide
          · have he : escChar c = [c] := by simp [escChar, h1, h2, h3, h4, h5]
            rw [he] at hx
            left
            refine ⟨List.mem_singleton.mp hx, ?_⟩
            simp [escSpecial, h1, h2, h3, h4, h5]

theorem pyHtmlEscape_mem (s : List Char) (x : Char) (hx : x ∈ pyHtmlEscape s) :
    (x ∈ s ∧ x ∉ escSpecial) ∨ x ∈ entChars := by
  unfold pyHtmlEscape at hx
  rcases List.mem_flatten.mp hx with ⟨l, hl, hxl⟩
  rcases List.mem_map.mp hl with ⟨c, hc, rfl⟩
  rcases escChar_mem c x hxl with ⟨rfl, hns⟩ | h
  · exact Or.inl ⟨hc, hns⟩
  · exact Or.inr h

theorem pyHtmlEscape_ne_dquote (s : List Char) : ∀ x ∈ pyHtmlEscape s, x ≠ dquote := by
  intro x hx
  rcases pyHtmlEscape_mem s x hx with ⟨_, hns⟩ | h
  · intro e; exact hns (by rw [e]; decide)
  · intro e; rw [e] at h; revert h; decide

/-- Avoid a given non-special character in the escape output, provided it
is absent from the input. -/
theorem pyHtmlEscape_avoid (s : List Char) (c : Char) (hc : c ∉ entChars)
    (hs : c ∉ s) : ∀ x ∈ pyHtmlEscape s, x ≠ c := by
  intro x hx e
  subst e
  rcases pyHtmlEscape_mem s x hx with ⟨hm, _⟩ | h
  · exact hs hm
  · exact hc h

theorem toNat_ofNat_small (b : Nat) (h : b < 128) : (Char.ofNat b).toNat = b := by
  unfold Char.ofNat
  split
  · rfl
  · next hv => exact absurd (Or.inl (by omega)) hv

/-- Upper-case hex digits land in the hex table. -/
theorem hexU_mem (n : Nat) : hexU n ∈ ("0123456789ABCDEF").data := by
  unfold hexU
  have h : n % 16 < (("0123456789ABCDEF").data).length := by
    have := Nat.mod_lt n (show 0 < 16 by decide)
    simpa using this
  rw [List.getD_eq_getElem _ _ h]
  exact List.getElem_mem h

theorem quoteSafeByte_ne (b : Nat) (h : quoteSafeByte b = true) : b < 128 ∧ b ≠ 34 := by
  unfold quoteSafeByte at h
  simp only [Bool.or_eq_true, Bool.and_eq_true, decide_eq_true_eq] at h
  omega

/-- Avoid any character that `quote` never emits: not a percent sign, not
an upper-case hex digit, and not an unreserved byte. -/
theorem pyQuote_avoid (s : List Char) (c : Char) (h1 : c ≠ '%')
    (h2 : c ∉ ("0123456789ABCDEF").data) (h3 : quoteSafeByte c.toNat = false) :
    ∀ x ∈ pyQuote s, x ≠ c := by
  intro x hx e
  subst e
  unfold pyQuote at hx
  rcases List.mem_flatten.mp hx with ⟨l, hl, hxl⟩
  rcases List.mem_map.mp hl with ⟨b, _, rfl⟩
  unfold quoteByte at hxl
  by_cases hsafe : quoteSafeByte b = true
  · simp only [hsafe, if_true, List.mem_singleton] at hxl
    have hb := quoteSafeByte_ne b hsafe
    have : (Char.ofNat b).toNat = b := toNat_ofNat_small b hb.1
    rw [hxl, this] at h3
    rw [h3] at hsafe
    exact absurd hsafe (by decide)
  · simp only [Bool.not_eq_true] at hsafe
    simp only [hsafe, Bool.false_eq_true, if_false] at hxl
    rcases List.mem_cons.mp hxl with h | hxl2
    · exact h1 h
    rcases List.mem_cons.mp hxl2 with h | hxl3
    · exact h2 (h ▸ hexU_mem (b / 16))
    rcases List.mem_cons.mp hxl3 with h | hxl4
    · exact h2 (h ▸ hexU_mem (b % 16))
    · simp at hxl4

theorem pyQuote_ne_dquote (s : List Char) : ∀ x ∈ pyQuote s, x ≠ dquote :=
  pyQuote_avoid s dquote (by decide) (by decide) (by decide)

/-! ## Attribute parser lemmas -/

theorem takeWhile_append_stop (p : Char → Bool) (a : List Char) (b₀ : Char)
    (bs : List Char) (ha : ∀ c ∈ a, p c = true) (hb : p b₀ = false) :
    (a ++ b₀ :: bs).takeWhile p = a := by
  induction a with
  | nil => simp [List.takeWhile_cons, hb]
  | cons c cs ih =>
    have hc := ha c (List.mem_cons_self c cs)
    simp only [List.cons_append, List.takeWhile_cons, hc, if_true]
    rw [ih (fun d hd => ha d (List.mem_cons_of_mem c hd))]

theorem parseAttrsGo_end (f : Nat) : parseAttrsGo (f + 1) (("/>").data) = some [] := by
  simp [parseAttrsGo]

theorem parseAttrsGo_step (f : Nat) (name v rest : List Char) (c0 : Char)
    (name' : List Char) (hname : name = c0 :: name') (hc0 : c0 ≠ '/')
    (hne : ∀ c ∈ name, c ≠ '=') (hv : ∀ c ∈ v, c ≠ dquote) :
    parseAttrsGo (f + 1) (name ++ '=' :: dquote :: (v ++ dquote :: ' ' :: rest)) =
      (parseAttrsGo f rest).map (fun l => (name, v) :: l) := by
  have hsne : (name ++ '=' :: dquote :: (v ++ dquote :: ' ' :: rest)) ≠ ("/>").data := by
    rw [hname]
    intro h
    have : c0 = '/' := by
      have := congrArg (fun l => List.head? l) h
      simpa using this
    exact hc0 this
  have htake : List.takeWhile (fun c => decide (c ≠ '='))
      (name ++ '=' :: dquote :: (v ++ dquote :: ' ' :: rest)) = name := by
    refine takeWhile_append_stop _ name '=' _ (fun c hc => ?_) (by decide)
    simp [hne c hc]
  have htakev : List.takeWhile (fun c => decide (c ≠ dquote))
      (v ++ dquote :: ' ' :: rest) = v := by
    refine takeWhile_append_stop _ v dquote _ (fun c hc => ?_) (by simp)
    simp [hv c hc]
  rw [parseAttrsGo]
  rw [if_neg hsne]
  simp only [htake, List.drop_left]
  simp only [htakev, List.drop_left]
  simp

/-- The parsed attribute list of `canvas_equation_img` — the wire contract,
shared between claims. -/
theorem parseImgTag_canvas (latex : List Char) :
    parseImgTag (canvas_equation_img latex) =
      some [((("class").data), (("equation_image").data)),
        ((("title").data), pyHtmlEscape latex),
        ((("src").data), (("/equation_images/").data ++ (pyQuote latex ++ ("?scale=1").data))),
        ((("alt").data), (("LaTeX: ").data ++ pyHtmlEscape latex)),
        ((("data-equation-content").data), pyHtmlEscape latex),
        ((("data-ignore-a11y-check").data), ([] : List Char))] := by
  have hs : canvas_equation_img latex = ("<img ").data ++ ((("class").data) ++ '=' :: dquote :: ((("equation_image").data) ++ dquote :: ' ' :: ((("title").data) ++ '=' :: dquote :: ((pyHtmlEscape latex) ++ dquote :: ' ' :: ((("src").data) ++ '=' :: dquote :: ((("/equation_images/").data ++ (pyQuote latex ++ ("?scale=1").data)) ++ dquote :: ' ' :: ((("alt").data) ++ '=' :: dquote :: ((("LaTeX: ").data ++ pyHtmlEscape latex) ++ dquote :: ' ' :: ((("data-equation-content").data) ++ '=' :: dquote :: ((pyHtmlEscape latex) ++ dquote :: ' ' :: ((("data-ignore-a11y-check").data) ++ '=' :: dquote :: ((([] : List Char)) ++ dquote :: ' ' :: (("/>").data))))))))))))) := by
    simp only [canvas_equation_img, List.append_assoc, List.cons_append, List.nil_append]
    rfl
  have hesc := pyHtmlEscape_ne_dquote latex
  have henc := pyQuote_ne_dquote latex
  have hsrcv : ∀ c ∈ (("/equation_images/").data ++ (pyQuote latex ++ ("?scale=1").data)),
      c ≠ dquote := by
    intro c hc
    rcases List.mem_append.mp hc with h | h
    · fin_cases h <;> decide
    · rcases List.mem_append.mp h with h | h
      · exact henc c h
      · fin_cases h <;> decide
  have haltv : ∀ c ∈ (("LaTeX: ").data ++ pyHtmlEscape latex), c ≠ dquote := by
    intro c hc
    rcases List.mem_append.mp hc with h | h
    · fin_cases h <;> decide
    · exact hesc c h
  unfold parseImgTag
  rw [hs, startsL_append_self]
  simp only [if_true]
  rw [show (5 : Nat) = (("<img ").data).length from rfl, List.drop_left]
  rw [show (8 : Nat) = 7 + 1 from rfl,
    parseAttrsGo_step 7 _ _ _ 'c' (("lass").data) rfl (by decide) (by decide) (by decide)]
  rw [show (7 : Nat) = 6 + 1 from rfl,
    parseAttrsGo_step 6 _ _ _ 't' (("itle").data) rfl (by decide) (by decide) hesc]
  rw [show (6 : Nat) = 5 + 1 from rfl,
    parseAttrsGo_step 5 _ _ _ 's' (("rc").data) rfl (by decide) (by decide) hsrcv]
  rw [show (5 : Nat) = 4 + 1 from rfl,
    parseAttrsGo_step 4 _ _ _ 'a' (("lt").data) rfl (by decide) (by decide) haltv]
  rw [show (4 : Nat) = 3 + 1 from rfl,
    parseAttrsGo_step 3 _ _ _ 'd' (("ata-equation-content").data) rfl
      (by decide) (by decide) hesc]
  rw [show (3 : Nat) = 2 + 1 from rfl,
    parseAttrsGo_step 2 _ _ _ 'd' (("ata-ignore-a11y-check").data) rfl
      (by decide) (by decide) (by simp)]
  rw [parseAttrsGo_end 1]
  rfl

/-! ## Claim C1 -/

/-- C1: for every LaTeX string, the equation-image tag is an `<img>`
element carrying exactly the wire-contract attribute set:
`class="equation_image"`, `title` the HTML-escaped source, `src` the
percent-encoding (no safe characters) prefixed by `/equation_images/` and
suffixed by `?scale=1`, `alt` the escaped source prefixed by `LaTeX: `,
`data-equation-content` the escaped source, and an empty
`data-ignore-a11y-check`. -/
theorem C1_equation_img_wire_contract (latex : List Char) :
    parseImgTag (canvas_equation_img latex) =
      some [((("class").data), (("equation_image").data)),
        ((("title").data), pyHtmlEscape latex),
        ((("src").data), (("/equation_images/").data ++ (pyQuote latex ++ ("?scale=1").data))),
        ((("alt").data), (("LaTeX: ").data ++ pyHtmlEscape latex)),
        ((("data-equation-content").data), pyHtmlEscape latex),
        ((("data-ignore-a11y-check").data), ([] : List Char))] :=
  parseImgTag_canvas latex

/-! ## Claim C3 -/

set_option maxRecDepth 10000

/-- C3 counterexample: with the compiler present but every compile
failing, rendering the same figure source twice invokes the external
toolchain in both calls (one invocation each), so "rendering the same
figure source twice invokes the toolchain at most once" is false as
stated, and the second call returns no filename. -/
theorem C3_retry_after_failure_counterexample :
    render_tikz_to_png cfgFail [] (("t").data) [] (("b").data) = (none, [], 1) ∧
      render_tikz_to_png cfgFail
        (render_tikz_to_png cfgFail [] (("t").data) [] (("b").data)).2.1
        (("t").data) [] (("b").data) = (none, [], 1) ∧
      ¬ ((render_tikz_to_png cfgFail [] (("t").data) [] (("b").data)).2.2 +
          (render_tikz_to_png cfgFail
            (render_tikz_to_png cfgFail [] (("t").data) [] (("b").data)).2.1
            (("t").data) [] (("b").data)).2.2 ≤ 1) := by
  refine ⟨by decide, by decide, by decide⟩

/-- C3 amended: provided the compiler is reachable, a call that finds the
cache-keyed candidate name already present returns that filename
immediately with zero external invocations; and whenever a call returns a
filename, a repeated call over the resulting directory returns the same
filename without any invocation.  (If the first call fails nothing is
cached and a later call retries the toolchain.) -/
theorem C3_cache_idempotent :
    (∀ cfg fs t p b, cfg.pdflatex = true → tikzPngName b t ∈ fs →
        render_tikz_to_png cfg fs t p b = (some (tikzPngName b t), fs, 0)) ∧
      (∀ cfg fs t p b nm fs' k, render_tikz_to_png cfg fs t p b = (some nm, fs', k) →
        render_tikz_to_png cfg fs' t p b = (some nm, fs', 0)) := by
  have hhit : ∀ cfg fs t p b, cfg.pdflatex = true → tikzPngName b t ∈ fs →
      render_tikz_to_png cfg fs t p b = (some (tikzPngName b t), fs, 0) := by
    intro cfg fs t p b hpdf hmem
    simp [render_tikz_to_png, hpdf, hmem]
  refine ⟨hhit, ?_⟩
  intro cfg fs t p b nm fs' k h
  unfold render_tikz_to_png at h
  by_cases hpdf : cfg.pdflatex = true
  · simp only [hpdf, not_true, if_false, Bool.not_eq_true] at h
    by_cases hmem : tikzPngName b t ∈ fs
    · simp only [hmem, if_true, if_pos] at h
      have h1 : nm = tikzPngName b t := by
        have := congrArg (fun r => r.1) h
        simpa using this.symm
      have h2 : fs' = fs := by
        have := congrArg (fun r => r.2.1) h
        simpa using this.symm
      rw [h1, h2]
      exact hhit cfg fs t p b hpdf hmem
    · simp only [hmem, if_false] at h
      split_ifs at h with h1 h2 h3 h4 h5 h6 h7 <;>
        first
        | (exfalso; exact Option.noConfusion (congrArg (fun r => r.1) h))
        | (have hnm : nm = tikzPngName b t := by
             have := congrArg (fun r => r.1) h
             simpa using this.symm
           have hfs : fs' = tikzPngName b t :: fs := by
             have := congrArg (fun r => r.2.1) h
             simpa using this.symm
           rw [hnm, hfs]
           exact hhit cfg _ t p b hpdf (List.mem_cons_self _ _))
  · simp only [Bool.not_eq_true] at hpdf
    simp [hpdf] at h

/-- Witness for C3 amended: a concrete cache hit returns the cached
filename with zero invocations. -/
theorem C3_cache_idempotent_witness :
    render_tikz_to_png cfgOk [tikzPngName (("b").data) (("t").data)]
        (("t").data) [] (("b").data) =
      (some (tikzPngName (("b").data) (("t").data)),
        [tikzPngName (("b").data) (("t").data)], 0) :=
  C3_cache_idempotent.1 cfgOk _ _ _ _ (by decide) (List.mem_cons_self _ _)

/-! ## Claim C4 -/

theorem byteHex_flat_length (l : List Nat) : ((l.map byteHex).flatten).length = 2 * l.length := by
  induction l with
  | nil => rfl
  | cons b bs ih => simp [byteHex, ih]; omega

theorem sha1Bytes20_length (m : List Nat) : (sha1Bytes20 m).length = 20 := by
  simp [sha1Bytes20, be4]

theorem sha1HexUtf8_length (s : List Char) : (sha1HexUtf8 s).length = 40 := by
  unfold sha1HexUtf8
  rw [byteHex_flat_length, sha1Bytes20_length]

theorem tikzDigest_length (s : List Char) : (tikzDigest s).length = 10 := by
  unfold tikzDigest
  rw [List.length_take, sha1HexUtf8_length]
  decide

theorem hexL_mem (n : Nat) : hexL n ∈ ("0123456789abcdef").data := by
  unfold hexL
  have h : n % 16 < (("0123456789abcdef").data).length := by
    have := Nat.mod_lt n (show 0 < 16 by decide)
    simpa using this
  rw [List.getD_eq_getElem _ _ h]
  exact List.getElem_mem h

theorem tikzDigest_hex (s : List Char) :
    ∀ c ∈ tikzDigest s, c ∈ ("0123456789abcdef").data := by
  intro c hc
  have hc2 : c ∈ sha1HexUtf8 s := List.take_subset 10 _ hc
  unfold sha1HexUtf8 at hc2
  rcases List.mem_flatten.mp hc2 with ⟨l, hl, hcl⟩
  rcases List.mem_map.mp hl with ⟨b, _, rfl⟩
  unfold byteHex at hcl
  rcases List.mem_cons.mp hcl with h | h2
  · exact h ▸ hexL_mem (b / 16)
  · rcases List.mem_cons.mp h2 with h | h3
    · exact h ▸ hexL_mem (b % 16)
    · simp at h3

theorem hexVal_inj_on_hex :
    ∀ c₁ ∈ ("0123456789abcdef").data, ∀ c₂ ∈ ("0123456789abcdef").data,
      hexVal c₁ = hexVal c₂ → c₁ = c₂ := by decide

theorem hexVec_inj (p q : List Char) (hp : p.length = 10) (hq : q.length = 10)
    (hphex : ∀ c ∈ p, c ∈ ("0123456789abcdef").data)
    (hqhex : ∀ c ∈ q, c ∈ ("0123456789abcdef").data)
    (h : hexVec p = hexVec q) : p = q := by
  refine List.ext_getElem (by omega) (fun n h₁ h₂ => ?_)
  have hn : n < 10 := by omega
  have := congrFun h ⟨n, hn⟩
  unfold hexVec at this
  rw [show ((⟨n, hn⟩ : Fin 10)).val = n from rfl] at this
  rw [List.getD_eq_getElem p '0' (show n < p.length by omega)] at this
  rw [List.getD_eq_getElem q '0' (show n < q.length by omega)] at this
  exact hexVal_inj_on_hex _ (hphex _ (List.getElem_mem h₁)) _
    (hqhex _ (List.getElem_mem h₂)) this

/-- C4 counterexample: filenames use only the first 10 hex digits (40
bits) of the hash, so by pigeonhole over `16^10 + 1` distinct sources two
distinct figure sources must resolve to the same cache filename — the
claim that distinct sources never collide is false. -/
theorem C4_truncated_hash_collision_counterexample :
    ¬ (∀ s1 s2 : List Char, s1 ≠ s2 →
        tikzPngName (("doc_tikz_1").data) s1 ≠ tikzPngName (("doc_tikz_1").data) s2) := by
  intro h
  have hcard : Fintype.card (Fin 10 → Fin 16) < Fintype.card (Fin (16 ^ 10 + 1)) := by
    simp only [Fintype.card_fun, Fintype.card_fin]
    exact Nat.lt_succ_self _
  obtain ⟨a, b, hab, hfab⟩ := Fintype.exists_ne_map_eq_of_card_lt
    (fun k : Fin (16 ^ 10 + 1) => hexVec (tikzDigest (List.replicate k.val 'a'))) hcard
  have hdig : tikzDigest (List.replicate a.val 'a') =
      tikzDigest (List.replicate b.val 'a') :=
    hexVec_inj _ _ (tikzDigest_length _) (tikzDigest_length _)
      (tikzDigest_hex _) (tikzDigest_hex _) hfab
  have hsrc : List.replicate a.val 'a' ≠ List.replicate b.val 'a' := by
    intro he
    have := congrArg List.length he
    simp only [List.length_replicate] at this
    exact hab (Fin.ext this)
  have hnames : tikzPngName (("doc_tikz_1").data) (List.replicate a.val 'a') =
      tikzPngName (("doc_tikz_1").data) (List.replicate b.val 'a') := by
    unfold tikzPngName
    rw [hdig]
  exact h _ _ hsrc hnames

/-- C4 amended: identical figure source always maps to the same filename,
and sources whose truncated digests differ map to different filenames; but
because only 40 bits of the hash are kept, distinctness of sources alone
does not guarantee distinct filenames. -/
theorem C4_content_addressing :
    (∀ b s1 s2 : List Char, s1 = s2 → tikzPngName b s1 = tikzPngName b s2) ∧
      (∀ b s1 s2 : List Char, tikzDigest s1 ≠ tikzDigest s2 →
        tikzPngName b s1 ≠ tikzPngName b s2) := by
  constructor
  · intro b s1 s2 h; rw [h]
  · intro b s1 s2 h he
    unfold tikzPngName at he
    have h1 := List.append_cancel_left he
    have h2 : tikzDigest s1 ++ (".png").data = tikzDigest s2 ++ (".png").data := by
      injection h1
    have h3 := (List.append_inj h2 (by rw [tikzDigest_length, tikzDigest_length])).1
    exact h h3

/-- Witness for C4 amended at concrete sources with distinct digests. -/
theorem C4_content_addressing_witness :
    tikzDigest (("t").data) ≠ tikzDigest (("u").data) ∧
      tikzPngName (("b").data) (("t").data) ≠ tikzPngName (("b").data) (("u").data) :=
  ⟨by decide, C4_content_addressing.2 (("b").data) _ _ (by decide)⟩

/-! ## Scanner lemmas -/

theorem scanSt_nil2 {σ : Type} (step : σ → List Char → Option (List Char × List Char × σ))
    (upd : σ → Char → σ) (f : Nat) (st : σ) : scanSt step upd f st [] = ([], st) := by
  cases f <;> rfl

theorem scanSt_cons_none2 {σ : Type} (step : σ → List Char → Option (List Char × List Char × σ))
    (upd : σ → Char → σ) (f : Nat) (st : σ) (c : Char) (cs : List Char)
    (h : step st (c :: cs) = none) :
    scanSt step upd (f + 1) st (c :: cs) =
      ((c :: (scanSt step upd f (upd st c) cs).1), (scanSt step upd f (upd st c) cs).2) := by
  simp [scanSt, h]

theorem scanSt_cons_some2 {σ : Type} (step : σ → List Char → Option (List Char × List Char × σ))
    (upd : σ → Char → σ) (f : Nat) (st st' : σ) (c : Char) (cs rep rest : List Char)
    (h : step st (c :: cs) = some (rep, rest, st')) :
    scanSt step upd (f + 1) st (c :: cs) =
      ((rep ++ (scanSt step upd f st' rest).1), (scanSt step upd f st' rest).2) := by
  simp [scanSt, h]

theorem scanSt_keep_id {σ : Type} (step : σ → List Char → Option (List Char × List Char × σ))
    (key : List Char)
    (hstep : ∀ (st : σ) (s : List Char) out, step st s = some out → startsL key s = true) :
    ∀ (s : List Char) (f : Nat) (st : σ), containsSub key s = false →
      scanSt step keepSt f st s = (s, st) := by
  intro s
  induction s with
  | nil => intro f st _; exact scanSt_nil2 step keepSt f st
  | cons c cs ih =>
    intro f st hc
    rw [containsSub_cons] at hc
    have h1 : startsL key (c :: cs) = false := by
      cases hsl : startsL key (c :: cs)
      · rfl
      · rw [hsl] at hc; simp at hc
    have h2 : containsSub key cs = false := by
      cases hcs : containsSub key cs
      · rfl
      · rw [hcs] at hc; simp at hc
    have hnone : step st (c :: cs) = none := by
      cases hstp : step st (c :: cs) with
      | none => rfl
      | some out =>
        have := hstep st (c :: cs) out hstp
        rw [this] at h1
        exact absurd h1 (by simp)
    cases f with
    | zero => rfl
    | succ g =>
      rw [scanSt_cons_none2 step keepSt g st c cs hnone]
      rw [ih g (keepSt st c) h2]
      rfl

theorem runSub_id {σ : Type} (step : σ → List Char → Option (List Char × List Char × σ))
    (key : List Char)
    (hstep : ∀ (st : σ) (s : List Char) out, step st s = some out → startsL key s = true)
    (st : σ) (s : List Char) (hc : containsSub key s = false) :
    runSub step st s = (s, st) :=
  scanSt_keep_id step key hstep s s.length st hc

theorem stepCmdArg_starts (cmd : List Char) (star : Bool) (wrap : List Char → List Char) :
    ∀ (u : Unit) (s : List Char) out, stepCmdArg cmd star wrap u s = some out →
      startsL cmd s = true := by
  intro u s out h
  unfold stepCmdArg at h
  by_cases hs : startsL cmd s = true
  · exact hs
  · rw [eq_false_of_ne_true hs] at h
    simp at h

theorem stepLit_starts (tok rep : List Char) :
    ∀ (u : Unit) (s : List Char) out, stepLit tok rep u s = some out →
      startsL tok s = true := by
  intro u s out h
  unfold stepLit at h
  by_cases hs : startsL tok s = true
  · exact hs
  · rw [eq_false_of_ne_true hs] at h
    simp at h

theorem stepBeginInline_starts (tok rep : List Char) :
    ∀ (u : Unit) (s : List Char) out, stepBeginInline tok rep u s = some out →
      startsL tok s = true := by
  intro u s out h
  unfold stepBeginInline at h
  by_cases hs : startsL tok s = true
  · exact hs
  · rw [eq_false_of_ne_true hs] at h
    simp at h

theorem stepBf_starts :
    ∀ (u : Unit) (s : List Char) out, stepBf u s = some out →
      startsL [obrace, bslash, 'b', 'f'] s = true := by
  intro u s out h
  unfold stepBf at h
  by_cases hs : startsL [obrace, bslash, 'b', 'f'] s = true
  · exact hs
  · rw [eq_false_of_ne_true hs] at h
    simp at h

theorem stepSubsec_starts :
    ∀ (n : Nat) (s : List Char) out, stepSubsec n s = some out →
      startsL (("\\subsection").data) s = true := by
  intro n s out h
  unfold stepSubsec at h
  by_cases hs : startsL (("\\subsection").data) s = true
  · exact hs
  · rw [eq_false_of_ne_true hs] at h
    simp at h

theorem stepInclude_starts (dirFiles : List (List Char)) (pa : Option (List Char)) :
    ∀ (u : Unit) (s : List Char) out, stepInclude dirFiles pa u s = some out →
      startsL incTok s = true := by
  intro u s out h
  unfold stepInclude at h
  by_cases hs : startsL incTok s = true
  · exact hs
  · rw [eq_false_of_ne_true hs] at h
    simp at h

theorem stepDollarDollar_starts :
    ∀ (u : Unit) (s : List Char) out, stepDollarDollar u s = some out →
      startsL ['$', '$'] s = true := by
  intro u s out h
  unfold stepDollarDollar at h
  by_cases hs : startsL ['$', '$'] s = true
  · exact hs
  · rw [eq_false_of_ne_true hs] at h
    simp at h

theorem stepDispBr_starts :
    ∀ (u : Unit) (s : List Char) out, stepDispBr u s = some out →
      startsL [bslash, '['] s = true := by
  intro u s out h
  unfold stepDispBr at h
  by_cases hs : startsL [bslash, '['] s = true
  · exact hs
  · rw [eq_false_of_ne_true hs] at h
    simp at h

theorem stepInline_starts :
    ∀ (p : Option Char) (s : List Char) out, stepInline p s = some out →
      startsL ['$'] s = true := by
  intro p s out h
  unfold stepInline at h
  split at h
  · next cs => simp [startsL]
  · simp at h

/-! ## Stage identity lemmas -/

theorem sub_section_id (l : List Char) (h : containsSub (("\\section").data) l = false) :
    sub_section l = l := by
  unfold sub_section
  rw [runSub_id _ _ (stepCmdArg_starts _ _ _) _ _ h]

theorem sub_subsection_id (n : Nat) (l : List Char)
    (h : containsSub (("\\subsection").data) l = false) :
    sub_subsection n l = (l, n) := by
  unfold sub_subsection
  exact runSub_id _ _ stepSubsec_starts _ _ h

theorem sub_subsubsection_id (l : List Char)
    (h : containsSub (("\\subsubsection").data) l = false) : sub_subsubsection l = l := by
  unfold sub_subsubsection
  rw [runSub_id _ _ (stepCmdArg_starts _ _ _) _ _ h]

theorem sub_emph_id (l : List Char) (h : containsSub (("\\emph").data) l = false) :
    sub_emph l = l := by
  unfold sub_emph
  rw [runSub_id _ _ (stepCmdArg_starts _ _ _) _ _ h]

theorem sub_textbf_id (l : List Char) (h : containsSub (("\\textbf").data) l = false) :
    sub_textbf l = l := by
  unfold sub_textbf
  rw [runSub_id _ _ (stepCmdArg_starts _ _ _) _ _ h]

theorem sub_bf_id (l : List Char) (h : containsSub [obrace, bslash, 'b', 'f'] l = false) :
    sub_bf l = l := by
  unfold sub_bf
  rw [runSub_id _ _ stepBf_starts _ _ h]

theorem sub_begin_ol_id (l : List Char)
    (h : containsSub (("\\begin\x7benumerate\x7d").data) l = false) : sub_begin_ol l = l := by
  unfold sub_begin_ol
  rw [runSub_id _ _ (stepBeginInline_starts _ _) _ _ h]

theorem sub_end_ol_id (l : List Char)
    (h : containsSub (("\\end\x7benumerate\x7d").data) l = false) : sub_end_ol l = l := by
  unfold sub_end_ol
  rw [runSub_id _ _ (stepLit_starts _ _) _ _ h]

theorem sub_begin_ul_id (l : List Char)
    (h : containsSub (("\\begin\x7bitemize\x7d").data) l = false) : sub_begin_ul l = l := by
  unfold sub_begin_ul
  rw [runSub_id _ _ (stepBeginInline_starts _ _) _ _ h]

theorem sub_end_ul_id (l : List Char)
    (h : containsSub (("\\end\x7bitemize\x7d").data) l = false) : sub_end_ul l = l := by
  unfold sub_end_ul
  rw [runSub_id _ _ (stepLit_starts _ _) _ _ h]

theorem sub_item_line_id (l : List Char) (h : matchItemTrim l = none) :
    sub_item_line l = l := by
  unfold sub_item_line
  rw [h]

theorem sub_include_id (d : List (List Char)) (pa : Option (List Char)) (l : List Char)
    (h : containsSub incTok l = false) : sub_include d pa l = (l, pa) := by
  unfold sub_include
  rw [h]
  simp

theorem sub_minipage_id (l : List Char)
    (h1 : containsSub (("\\begin\x7bminipage\x7d").data) l = false)
    (h2 : containsSub (("\\end\x7bminipage\x7d").data) l = false) : sub_minipage l = l := by
  unfold sub_minipage
  rw [h1, h2]
  simp

theorem sub_maketitle_id (l : List Char) (h : l ≠ ("\\maketitle").data) :
    sub_maketitle l = l := by
  unfold sub_maketitle
  rw [if_neg h]

/-- Zeta-expanded form of `fallbackLine`, convenient for rewriting. -/
theorem fallbackLine_eq (cfg : Cfg) (pa : Option (List Char)) (n : Nat) (line : List Char) :
    fallbackLine cfg pa n line =
      (sub_maketitle (sub_minipage (sub_include cfg.dirFiles pa (sub_item_line
        (sub_end_ul (sub_begin_ul (sub_end_ol (sub_begin_ol (sub_bf (sub_textbf
          (sub_emph (sub_subsubsection (sub_subsection n (sub_section line)).1)))))))))).1),
        (sub_subsection n (sub_section line)).2,
        (sub_include cfg.dirFiles pa (sub_item_line
          (sub_end_ul (sub_begin_ul (sub_end_ol (sub_begin_ol (sub_bf (sub_textbf
            (sub_emph (sub_subsubsection (sub_subsection n (sub_section line)).1)))))))))).2) :=
  rfl

theorem noPair_of_not_mem_snd (x y : Char) (l : List Char) (h : y ∉ l) :
    noPair x y l = true := by
  induction l with
  | nil => rfl
  | cons a t ih =>
    cases t with
    | nil => rfl
    | cons b t' =>
      have hb : b ≠ y := fun e => h (e ▸ List.mem_cons_of_mem a (List.mem_cons_self b t'))
      have ht : y ∉ b :: t' := fun m => h (List.mem_cons_of_mem a m)
      rw [noPair_cons_cons]
      simp [ih ht, hb]

theorem matchItemTrim_none_of_no_bslash (l : List Char) (h : bslash ∉ l) :
    matchItemTrim l = none := by
  have key : startsL (("\\item").data) (l.dropWhile pyWS) = false := by
    cases e : l.dropWhile pyWS with
    | nil => rfl
    | cons c cs =>
      have hc : c ∈ l :=
        (List.dropWhile_sublist pyWS).subset (by rw [e]; exact List.mem_cons_self c cs)
      have hcb : c ≠ bslash := fun hcc => h (hcc ▸ hc)
      have hstep : startsL (("\\item").data) (c :: cs) =
          (decide (bslash = c) && startsL (("item").data) cs) := rfl
      rw [hstep, decide_eq_false (Ne.symm hcb)]
      rfl
  unfold matchItemTrim
  simp only [key, Bool.false_eq_true, if_false]

/-- Every backslash-led command token is absent from a backslash-free
line. -/
theorem fallbackLine_plain (cfg : Cfg) (pa : Option (List Char)) (n : Nat) (l : List Char)
    (hbs : bslash ∉ l) : fallbackLine cfg pa n l = (l, n, pa) := by
  have hsec : containsSub (("\\section").data) l = false :=
    containsSub_false_of_head_not_mem _ _ _ hbs
  have hsub : containsSub (("\\subsection").data) l = false :=
    containsSub_false_of_head_not_mem _ _ _ hbs
  have hsub2 : containsSub (("\\subsubsection").data) l = false :=
    containsSub_false_of_head_not_mem _ _ _ hbs
  have hem : containsSub (("\\emph").data) l = false :=
    containsSub_false_of_head_not_mem _ _ _ hbs
  have htb : containsSub (("\\textbf").data) l = false :=
    containsSub_false_of_head_not_mem _ _ _ hbs
  have hbf : containsSub [obrace, bslash, 'b', 'f'] l = false :=
    containsSub_false_of_noPair _ _ _ _ (noPair_of_not_mem_snd obrace bslash l hbs)
  have hbo : containsSub (("\\begin\x7benumerate\x7d").data) l = false :=
    containsSub_false_of_head_not_mem _ _ _ hbs
  have heo : containsSub (("\\end\x7benumerate\x7d").data) l = false :=
    containsSub_false_of_head_not_mem _ _ _ hbs
  have hbu : containsSub (("\\begin\x7bitemize\x7d").data) l = false :=
    containsSub_false_of_head_not_mem _ _ _ hbs
  have heu : containsSub (("\\end\x7bitemize\x7d").data) l = false :=
    containsSub_false_of_head_not_mem _ _ _ hbs
  have hit : matchItemTrim l = none := matchItemTrim_none_of_no_bslash l hbs
  have hinc : containsSub incTok l = false :=
    containsSub_false_of_head_not_mem _ _ _ hbs
  have hm1 : containsSub (("\\begin\x7bminipage\x7d").data) l = false :=
    containsSub_false_of_head_not_mem _ _ _ hbs
  have hm2 : containsSub (("\\end\x7bminipage\x7d").data) l = false :=
    containsSub_false_of_head_not_mem _ _ _ hbs
  have hmk : l ≠ ("\\maketitle").data := by
    intro e
    exact hbs (by rw [e]; decide)
  rw [fallbackLine_eq, sub_section_id l hsec, sub_subsection_id n l hsub]
  rw [show ((l, n) : List Char × Nat).1 = l from rfl]
  rw [sub_subsubsection_id l hsub2, sub_emph_id l hem, sub_textbf_id l htb,
    sub_bf_id l hbf, sub_begin_ol_id l hbo, sub_end_ol_id l heo, sub_begin_ul_id l hbu,
    sub_end_ul_id l heu, sub_item_line_id l hit, sub_include_id _ _ l hinc]
  rw [show ((l, pa) : List Char × Option (List Char)).1 = l from rfl]
  rw [sub_minipage_id l hm1 hm2, sub_maketitle_id l hmk]

/-! ## Line-scanner step lemmas -/

theorem updAlt_none (pa : Option (List Char)) : updAlt pa none = pa := rfl

theorem st_eta (st : St) : { st with pa := st.pa } = st := rfl

theorem scanGo_cons_fallback (cfg : Cfg) (p : List Char) (f : Nat) (st : St)
    (rawLine : List Char) (rest : List (List Char))
    (hsplit : split_unescaped_percent rawLine = (rawLine, none))
    (hrstrip : rstripL rawLine = rawLine)
    (h1 : containsSub tikzBeginTok rawLine = false)
    (h2 : containsSub eqnarrayBeginTok rawLine = false)
    (h3 : envSearch rawLine = none)
    (h4 : rawLine ≠ [])
    (h5 : containsSub (("\\section\x7b").data) rawLine = false)
    (h6 : matchBeginList rawLine = none)
    (h7 : matchEndList rawLine = none)
    (h8 : matchItemTrim rawLine = none) :
    scanGo cfg p (f + 1) st (rawLine :: rest) =
      scanGo cfg p f
        (emit
          { st with
            subsec := (fallbackLine cfg st.pa st.subsec rawLine).2.1,
            pa := (fallbackLine cfg st.pa st.subsec rawLine).2.2 }
          (fallbackLine cfg st.pa st.subsec rawLine).1) rest := by
  rw [scanGo]
  simp only [hsplit, updAlt_none, hrstrip, st_eta, h1, h2, h3, h4, h5, h6, h7, h8,
    Bool.false_eq_true, if_false, Option.isSome_none, false_and, and_false, ne_eq,
    not_false_iff, if_true]

theorem scanGo_cons_fallback_emptyStack (cfg : Cfg) (p : List Char) (f : Nat) (st : St)
    (rawLine : List Char) (rest : List (List Char))
    (hsplit : split_unescaped_percent rawLine = (rawLine, none))
    (hrstrip : rstripL rawLine = rawLine)
    (h1 : containsSub tikzBeginTok rawLine = false)
    (h2 : containsSub eqnarrayBeginTok rawLine = false)
    (h3 : envSearch rawLine = none)
    (h4 : rawLine ≠ [])
    (h5 : containsSub (("\\section\x7b").data) rawLine = false)
    (h6 : matchBeginList rawLine = none)
    (hst : st.stack = []) :
    scanGo cfg p (f + 1) st (rawLine :: rest) =
      scanGo cfg p f
        (emit
          { st with
            subsec := (fallbackLine cfg st.pa st.subsec rawLine).2.1,
            pa := (fallbackLine cfg st.pa st.subsec rawLine).2.2 }
          (fallbackLine cfg st.pa st.subsec rawLine).1) rest := by
  rw [scanGo]
  simp only [hsplit, updAlt_none, hrstrip, st_eta, h1, h2, h3, h4, h5, h6, hst,
    Bool.false_eq_true, if_false, ne_eq, not_true_eq_false, and_false, if_true,
    not_false_iff]

theorem scanGo_cons_beginList (cfg : Cfg) (p : List Char) (f : Nat) (st : St)
    (rawLine tag : List Char) (rest : List (List Char))
    (hsplit : split_unescaped_percent rawLine = (rawLine, none))
    (hrstrip : rstripL rawLine = rawLine)
    (h1 : containsSub tikzBeginTok rawLine = false)
    (h2 : containsSub eqnarrayBeginTok rawLine = false)
    (h3 : envSearch rawLine = none)
    (h4 : rawLine ≠ [])
    (h5 : containsSub (("\\section\x7b").data) rawLine = false)
    (h6 : matchBeginList rawLine = some tag) :
    scanGo cfg p (f + 1) st (rawLine :: rest) =
      scanGo cfg p f (pushList st tag) rest := by
  rw [scanGo]
  simp only [hsplit, updAlt_none, hrstrip, st_eta, h1, h2, h3, h4, h5, h6,
    Bool.false_eq_true, if_false, ne_eq, not_false_iff, if_true]

theorem scanGo_cons_endPop (cfg : Cfg) (p : List Char) (f : Nat) (st : St)
    (rawLine tag : List Char) (rest : List (List Char))
    (hsplit : split_unescaped_percent rawLine = (rawLine, none))
    (hrstrip : rstripL rawLine = rawLine)
    (h1 : containsSub tikzBeginTok rawLine = false)
    (h2 : containsSub eqnarrayBeginTok rawLine = false)
    (h3 : envSearch rawLine = none)
    (h4 : rawLine ≠ [])
    (h5 : containsSub (("\\section\x7b").data) rawLine = false)
    (h6 : matchBeginList rawLine = none)
    (h7 : matchEndList rawLine = some tag)
    (hst : st.stack ≠ []) :
    scanGo cfg p (f + 1) st (rawLine :: rest) =
      scanGo cfg p f (popList st) rest := by
  rw [scanGo]
  simp only [hsplit, updAlt_none, hrstrip, st_eta, h1, h2, h3, h4, h5, h6, h7, hst,
    Bool.false_eq_true, if_false, Option.isSome_some, true_and, and_true, ne_eq,
    not_false_iff, if_true]

theorem scanGo_cons_item (cfg : Cfg) (p : List Char) (f : Nat) (st : St)
    (rawLine w : List Char) (rest : List (List Char))
    (hsplit : split_unescaped_percent rawLine = (rawLine, none))
    (hrstrip : rstripL rawLine = rawLine)
    (h1 : containsSub tikzBeginTok rawLine = false)
    (h2 : containsSub eqnarrayBeginTok rawLine = false)
    (h3 : envSearch rawLine = none)
    (h4 : rawLine ≠ [])
    (h5 : containsSub (("\\section\x7b").data) rawLine = false)
    (h6 : matchBeginList rawLine = none)
    (h7 : matchEndList rawLine = none)
    (h8 : matchItemTrim rawLine = some w)
    (hst : st.stack ≠ []) :
    scanGo cfg p (f + 1) st (rawLine :: rest) =
      scanGo cfg p f (itemBranch cfg st rawLine) rest := by
  rw [scanGo]
  simp only [hsplit, updAlt_none, hrstrip, st_eta, h1, h2, h3, h4, h5, h6, h7, h8, hst,
    Bool.false_eq_true, if_false, Option.isSome_none, Option.isSome_some, false_and,
    true_and, and_true, ne_eq, not_false_iff, if_true]

theorem scanGo_cons_blank (cfg : Cfg) (p : List Char) (f : Nat) (st : St)
    (rawLine : List Char) (rest : List (List Char))
    (hsplit : split_unescaped_percent rawLine = (rawLine, none))
    (hrstrip : rstripL rawLine = []) :
    scanGo cfg p (f + 1) st (rawLine :: rest) =
      scanGo cfg p f (if st.stack = [] then emit st [] else st) rest := by
  rw [scanGo]
  simp only [hsplit, updAlt_none, hrstrip, st_eta]
  rfl

theorem scanGo_cons_tikz (cfg : Cfg) (p : List Char) (f : Nat) (st : St)
    (rawLine : List Char) (rest : List (List Char))
    (hsplit : split_unescaped_percent rawLine = (rawLine, none))
    (hrstrip : rstripL rawLine = rawLine)
    (h1 : containsSub tikzBeginTok rawLine = true) :
    scanGo cfg p (f + 1) st (rawLine :: rest) =
      scanGo cfg p f (tikzBranch cfg p st rawLine rest).1 (tikzBranch cfg p st rawLine rest).2 := by
  rw [scanGo]
  simp only [hsplit, updAlt_none, hrstrip, st_eta, h1, if_true]

/-! ## Concrete fallback computations for list-close markers -/

set_option maxHeartbeats 1000000 in
theorem fallbackLine_end_itemize (cfg : Cfg) (pa : Option (List Char)) (n : Nat) :
    fallbackLine cfg pa n (("\\end\x7bitemize\x7d").data) = ((("</ul>").data), n, pa) := by
  have e1 := sub_section_id (("\\end\x7bitemize\x7d").data) (by decide)
  have e2 := sub_subsection_id n (("\\end\x7bitemize\x7d").data) (by decide)
  have e3 := sub_subsubsection_id (("\\end\x7bitemize\x7d").data) (by decide)
  have e4 := sub_emph_id (("\\end\x7bitemize\x7d").data) (by decide)
  have e5 := sub_textbf_id (("\\end\x7bitemize\x7d").data) (by decide)
  have e6 := sub_bf_id (("\\end\x7bitemize\x7d").data) (by decide)
  have e7 := sub_begin_ol_id (("\\end\x7bitemize\x7d").data) (by decide)
  have e8 := sub_end_ol_id (("\\end\x7bitemize\x7d").data) (by decide)
  have e9 := sub_begin_ul_id (("\\end\x7bitemize\x7d").data) (by decide)
  have e10 : sub_end_ul (("\\end\x7bitemize\x7d").data) = (("</ul>").data) := by decide
  have e11 := sub_item_line_id (("</ul>").data) (by decide)
  have e12 := sub_include_id cfg.dirFiles pa (("</ul>").data) (by decide)
  have e13 := sub_minipage_id (("</ul>").data) (by decide) (by decide)
  have e14 := sub_maketitle_id (("</ul>").data) (by decide)
  rw [fallbackLine_eq]
  simp only [e1, e2, e3, e4, e5, e6, e7, e8, e9, e10, e11, e12, e13, e14]

set_option maxHeartbeats 1000000 in
theorem fallbackLine_end_enumerate (cfg : Cfg) (pa : Option (List Char)) (n : Nat) :
    fallbackLine cfg pa n (("\\end\x7benumerate\x7d").data) = ((("</ol>").data), n, pa) := by
  have e1 := sub_section_id (("\\end\x7benumerate\x7d").data) (by decide)
  have e2 := sub_subsection_id n (("\\end\x7benumerate\x7d").data) (by decide)
  have e3 := sub_subsubsection_id (("\\end\x7benumerate\x7d").data) (by decide)
  have e4 := sub_emph_id (("\\end\x7benumerate\x7d").data) (by decide)
  have e5 := sub_textbf_id (("\\end\x7benumerate\x7d").data) (by decide)
  have e6 := sub_bf_id (("\\end\x7benumerate\x7d").data) (by decide)
  have e7 := sub_begin_ol_id (("\\end\x7benumerate\x7d").data) (by decide)
  have e8 : sub_end_ol (("\\end\x7benumerate\x7d").data) = (("</ol>").data) := by decide
  have e9 := sub_begin_ul_id (("</ol>").data) (by decide)
  have e10 := sub_end_ul_id (("</ol>").data) (by decide)
  have e11 := sub_item_line_id (("</ol>").data) (by decide)
  have e12 := sub_include_id cfg.dirFiles pa (("</ol>").data) (by decide)
  have e13 := sub_minipage_id (("</ol>").data) (by decide) (by decide)
  have e14 := sub_maketitle_id (("</ol>").data) (by decide)
  rw [fallbackLine_eq]
  simp only [e1, e2, e3, e4, e5, e6, e7, e8, e9, e10, e11, e12, e13, e14]

/-- C6 counterexample: a stray `\end\x7bitemize\x7d` with the list stack empty is
not ignored — the scanner emits a bare `</ul>` line. -/
theorem C6_stray_close_counterexample :
    (scanGo cfgAbsent [] 1 (initSt []) [("\\end\x7bitemize\x7d").data]).outRev
        = [("</ul>").data] ∧
    (scanGo cfgAbsent [] 1 (initSt []) [("\\end\x7bitemize\x7d").data]).outRev ≠ [] := by
  exact ⟨by decide, by decide⟩

/-- C6 (amended): a list-close marker seen while the stack is empty is NOT a
no-op: the line falls through to the fallback substitutions, which emit the
bare close tag (`</ul>` for itemize, `</ol>` for enumerate) into the output;
no frame is popped and no error is raised. -/
theorem C6_stray_close_emits_tag (cfg : Cfg) (p : List Char) (f : Nat) (st : St)
    (rest : List (List Char)) (hst : st.stack = []) :
    scanGo cfg p (f + 1) st ((("\\end\x7bitemize\x7d").data) :: rest) =
      scanGo cfg p f (emit st (("</ul>").data)) rest ∧
    scanGo cfg p (f + 1) st ((("\\end\x7benumerate\x7d").data) :: rest) =
      scanGo cfg p f (emit st (("</ol>").data)) rest := by
  constructor
  · rw [scanGo_cons_fallback_emptyStack cfg p f st _ rest (by decide) (by decide)
      (by decide) (by decide) (by decide) (by decide) (by decide) (by decide) hst]
    rw [fallbackLine_end_itemize]
  · rw [scanGo_cons_fallback_emptyStack cfg p f st _ rest (by decide) (by decide)
      (by decide) (by decide) (by decide) (by decide) (by decide) (by decide) hst]
    rw [fallbackLine_end_enumerate]

/-- C6 witness: the amended statement at a concrete empty-stack state. -/
theorem C6_stray_close_emits_tag_witness :
    (scanGo cfgAbsent [] 1 (initSt []) ((("\\end\x7bitemize\x7d").data) :: []) =
      scanGo cfgAbsent [] 0 (emit (initSt []) (("</ul>").data)) [] ∧
    scanGo cfgAbsent [] 1 (initSt []) ((("\\end\x7benumerate\x7d").data) :: []) =
      scanGo cfgAbsent [] 0 (emit (initSt []) (("</ol>").data)) []) :=
  C6_stray_close_emits_tag cfgAbsent [] 0 (initSt []) [] rfl

/-! ## Plain-line lemmas: lines without backslash or percent -/

theorem supGo_id (l : List Char) (h : '%' ∉ l) : ∀ prev, supGo prev l = (l, none) := by
  induction l with
  | nil => intro prev; rfl
  | cons c cs ih =>
    intro prev
    have hc : c ≠ '%' := fun e => h (e ▸ List.mem_cons_self c cs)
    have hcs : '%' ∉ cs := fun m => h (List.mem_cons_of_mem c m)
    rw [supGo]
    rw [if_neg (fun hp => hc hp.1)]
    rw [ih hcs (some c)]

theorem split_unescaped_percent_id (l : List Char) (h : '%' ∉ l) :
    split_unescaped_percent l = (l, none) := supGo_id l h none

theorem startsL_cons_head_false (p c : Char) (ps cs : List Char) (h : p ≠ c) :
    startsL (p :: ps) (c :: cs) = false := by
  show (decide (p = c) && startsL ps cs) = false
  rw [decide_eq_false h]
  rfl

theorem startsL_dropWhile_not_mem (p : Char) (ps l : List Char) (h : p ∉ l) :
    startsL (p :: ps) (l.dropWhile pyWS) = false := by
  cases e : l.dropWhile pyWS with
  | nil => rfl
  | cons c cs =>
    have hc : c ∈ l :=
      (List.dropWhile_sublist pyWS).subset (by rw [e]; exact List.mem_cons_self c cs)
    exact startsL_cons_head_false p c ps cs (fun hpc => h (hpc ▸ hc))

theorem matchBeginList_none_of_no_bslash (l : List Char) (h : bslash ∉ l) :
    matchBeginList l = none := by
  have h1 : startsL (("\\begin\x7bitemize\x7d").data) (l.dropWhile pyWS) = false := by
    rw [show (("\\begin\x7bitemize\x7d").data) = bslash :: (("begin\x7bitemize\x7d").data) from rfl]
    exact startsL_dropWhile_not_mem _ _ _ h
  have h2 : startsL (("\\begin\x7benumerate\x7d").data) (l.dropWhile pyWS) = false := by
    rw [show (("\\begin\x7benumerate\x7d").data) = bslash :: (("begin\x7benumerate\x7d").data) from rfl]
    exact startsL_dropWhile_not_mem _ _ _ h
  unfold matchBeginList
  simp only [h1, h2, Bool.false_eq_true, if_false]

theorem matchEndList_none_of_no_bslash (l : List Char) (h : bslash ∉ l) :
    matchEndList l = none := by
  have h1 : startsL (("\\end\x7bitemize\x7d").data) (l.dropWhile pyWS) = false := by
    rw [show (("\\end\x7bitemize\x7d").data) = bslash :: (("end\x7bitemize\x7d").data) from rfl]
    exact startsL_dropWhile_not_mem _ _ _ h
  have h2 : startsL (("\\end\x7benumerate\x7d").data) (l.dropWhile pyWS) = false := by
    rw [show (("\\end\x7benumerate\x7d").data) = bslash :: (("end\x7benumerate\x7d").data) from rfl]
    exact startsL_dropWhile_not_mem _ _ _ h
  unfold matchEndList
  simp only [h1, h2, Bool.false_eq_true, if_false]

theorem envSearch_none_of_no_bslash (l : List Char) (h : bslash ∉ l) :
    envSearch l = none := by
  induction l with
  | nil => rfl
  | cons c cs ih =>
    have hc : c ≠ bslash := fun e => h (e ▸ List.mem_cons_self c cs)
    have hcs : bslash ∉ cs := fun m => h (List.mem_cons_of_mem c m)
    have k1 : startsL (("\\begin\x7bequation*\x7d").data) (c :: cs) = false := by
      rw [show (("\\begin\x7bequation*\x7d").data) = bslash :: (("begin\x7bequation*\x7d").data)
        from rfl]
      exact startsL_cons_head_false _ _ _ _ (Ne.symm hc)
    have k2 : startsL (("\\begin\x7bequation\x7d").data) (c :: cs) = false := by
      rw [show (("\\begin\x7bequation\x7d").data) = bslash :: (("begin\x7bequation\x7d").data)
        from rfl]
      exact startsL_cons_head_false _ _ _ _ (Ne.symm hc)
    have k3 : startsL (("\\begin\x7bcases\x7d").data) (c :: cs) = false := by
      rw [show (("\\begin\x7bcases\x7d").data) = bslash :: (("begin\x7bcases\x7d").data) from rfl]
      exact startsL_cons_head_false _ _ _ _ (Ne.symm hc)
    have k4 : startsL (("\\begin\x7barray\x7d").data) (c :: cs) = false := by
      rw [show (("\\begin\x7barray\x7d").data) = bslash :: (("begin\x7barray\x7d").data) from rfl]
      exact startsL_cons_head_false _ _ _ _ (Ne.symm hc)
    rw [envSearch]
    simp only [k1, k2, k3, k4, Bool.false_eq_true, if_false]
    exact ih hcs

theorem scanGo_cons_plain (cfg : Cfg) (p : List Char) (f : Nat) (st : St)
    (l : List Char) (rest : List (List Char))
    (hrstrip : rstripL l = l) (hne : l ≠ []) (hbs : bslash ∉ l) (hpc : '%' ∉ l) :
    scanGo cfg p (f + 1) st (l :: rest) = scanGo cfg p f (emit st l) rest := by
  have h1 : containsSub tikzBeginTok l = false := by
    rw [show tikzBeginTok = bslash :: (("begin\x7btikzpicture\x7d").data) from rfl]
    exact containsSub_false_of_head_not_mem _ _ _ hbs
  have h2 : containsSub eqnarrayBeginTok l = false := by
    rw [show eqnarrayBeginTok = bslash :: (("begin\x7beqnarray\x7d").data) from rfl]
    exact containsSub_false_of_head_not_mem _ _ _ hbs
  have h5 : containsSub (("\\section\x7b").data) l = false := by
    rw [show (("\\section\x7b").data) = bslash :: (("section\x7b").data) from rfl]
    exact containsSub_false_of_head_not_mem _ _ _ hbs
  rw [scanGo_cons_fallback cfg p f st l rest (split_unescaped_percent_id l hpc) hrstrip
    h1 h2 (envSearch_none_of_no_bslash l hbs) hne h5
    (matchBeginList_none_of_no_bslash l hbs) (matchEndList_none_of_no_bslash l hbs)
    (matchItemTrim_none_of_no_bslash l hbs)]
  rw [fallbackLine_plain cfg st.pa st.subsec l hbs]

/-! ## The include line consumes and clears the pending alt slot -/

theorem fallbackLine_include (cfg : Cfg) (a : List Char) (n : Nat)
    (hane : a ≠ []) (hbs : bslash ∉ a) (hd : cfg.dirFiles = []) :
    fallbackLine cfg (some a) n (("\\includegraphics\x7bimg.png\x7d").data) =
      ((("<img src=\x22img.png\x22 alt=\x22").data) ++ (a ++ (("\x22>").data)), n, none) := by
  obtain ⟨x, xs, rfl⟩ : ∃ x xs, a = x :: xs := by
    cases a with
    | nil => exact absurd rfl hane
    | cons x xs => exact ⟨x, xs, rfl⟩
  have e1 := sub_section_id (("\\includegraphics\x7bimg.png\x7d").data) (by decide)
  have e2 := sub_subsection_id n (("\\includegraphics\x7bimg.png\x7d").data) (by decide)
  have e3 := sub_subsubsection_id (("\\includegraphics\x7bimg.png\x7d").data) (by decide)
  have e4 := sub_emph_id (("\\includegraphics\x7bimg.png\x7d").data) (by decide)
  have e5 := sub_textbf_id (("\\includegraphics\x7bimg.png\x7d").data) (by decide)
  have e6 := sub_bf_id (("\\includegraphics\x7bimg.png\x7d").data) (by decide)
  have e7 := sub_begin_ol_id (("\\includegraphics\x7bimg.png\x7d").data) (by decide)
  have e8 := sub_end_ol_id (("\\includegraphics\x7bimg.png\x7d").data) (by decide)
  have e9 := sub_begin_ul_id (("\\includegraphics\x7bimg.png\x7d").data) (by decide)
  have e10 := sub_end_ul_id (("\\includegraphics\x7bimg.png\x7d").data) (by decide)
  have e11 := sub_item_line_id (("\\includegraphics\x7bimg.png\x7d").data) (by decide)
  have hrun : runSub (stepInclude ([] : List (List Char)) (some (x :: xs))) ()
      (("\\includegraphics\x7bimg.png\x7d").data) =
      (includeRepl [] (some (x :: xs)) none (("img.png").data) ++ [], ()) := rfl
  have e12 : sub_include ([] : List (List Char)) (some (x :: xs))
      (("\\includegraphics\x7bimg.png\x7d").data) =
      (includeRepl [] (some (x :: xs)) none (("img.png").data), none) := by
    unfold sub_include
    simp only [show containsSub incTok (("\\includegraphics\x7bimg.png\x7d").data) = true
      from by decide, if_true]
    rw [hrun, List.append_nil]
  have hrep : includeRepl [] (some (x :: xs)) none (("img.png").data) =
      (("<img src=\x22img.png\x22 alt=\x22").data) ++ ((x :: xs) ++ (("\x22>").data)) := rfl
  have hmem : bslash ∉ (("<img src=\x22img.png\x22 alt=\x22").data) ++ ((x :: xs) ++ (("\x22>").data)) := by
    intro hm
    rcases List.mem_append.mp hm with hA | hA
    · exact absurd hA (by decide)
    · rcases List.mem_append.mp hA with hB | hB
      · exact hbs hB
      · exact absurd hB (by decide)
  have e13 : sub_minipage ((("<img src=\x22img.png\x22 alt=\x22").data) ++ ((x :: xs) ++ (("\x22>").data))) =
      (("<img src=\x22img.png\x22 alt=\x22").data) ++ ((x :: xs) ++ (("\x22>").data)) := by
    refine sub_minipage_id _ ?_ ?_
    · rw [show (("\\begin\x7bminipage\x7d").data) = bslash :: (("begin\x7bminipage\x7d").data)
        from rfl]
      exact containsSub_false_of_head_not_mem _ _ _ hmem
    · rw [show (("\\end\x7bminipage\x7d").data) = bslash :: (("end\x7bminipage\x7d").data) from rfl]
      exact containsSub_false_of_head_not_mem _ _ _ hmem
  have e14 : sub_maketitle ((("<img src=\x22img.png\x22 alt=\x22").data) ++ ((x :: xs) ++ (("\x22>").data))) =
      (("<img src=\x22img.png\x22 alt=\x22").data) ++ ((x :: xs) ++ (("\x22>").data)) :=
    sub_maketitle_id _ (fun he => hmem (by rw [he]; decide))
  rw [fallbackLine_eq]
  simp only [e1, e2, e3, e4, e5, e6, e7, e8, e9, e10, e11, hd, e12, hrep, e13, e14]

theorem scanGo_cons_include (cfg : Cfg) (p : List Char) (f : Nat) (st : St)
    (rest : List (List Char)) (a : List Char) (hpa : st.pa = some a) (hane : a ≠ [])
    (hbs : bslash ∉ a) (hd : cfg.dirFiles = []) :
    scanGo cfg p (f + 1) st ((("\\includegraphics\x7bimg.png\x7d").data) :: rest) =
      scanGo cfg p f
        (emit { st with pa := none }
          ((("<img src=\x22img.png\x22 alt=\x22").data) ++ (a ++ (("\x22>").data)))) rest := by
  rw [scanGo_cons_fallback cfg p f st _ rest (by decide) (by decide) (by decide) (by decide)
    (by decide) (by decide) (by decide) (by decide) (by decide) (by decide)]
  rw [hpa, fallbackLine_include cfg a st.subsec hane hbs hd]

theorem scanGo_cons_altComment (cfg : Cfg) (p : List Char) (f : Nat) (st : St)
    (rest : List (List Char)) :
    scanGo cfg p (f + 1) st ((("% alt: foo").data) :: rest) =
      scanGo cfg p f
        (if st.stack = [] then emit { st with pa := some (("foo").data) } []
         else { st with pa := some (("foo").data) }) rest := by
  rw [scanGo]
  have hsplit : split_unescaped_percent (("% alt: foo").data) =
      ([], some ((" alt: foo").data)) := by decide
  have hupd : ∀ pa, updAlt pa (some ((" alt: foo").data)) = some (("foo").data) :=
    fun pa => rfl
  simp only [hsplit, hupd]
  rfl

/-- C8 counterexample: the pending alt slot, set by an alt comment, is
still populated after the scanner has consumed two subsequent plain
(non-comment, non-blank) lines, so it does hold a value across more than
one non-comment, non-blank construct. -/
theorem C8_pending_alt_counterexample :
    (scanGo cfgAbsent [] 3 (initSt [])
        [("% alt: foo").data, ("hello").data, ("world").data]).pa =
      some (("foo").data) := by decide

/-- C8 (amended): an alt-bearing comment sets the pending alt slot; an
`\includegraphics` line consumes the pending value into the emitted img
tag's alt attribute and clears the slot; but a plain line (no backslash,
no percent) leaves the slot untouched, so the pending value persists
across arbitrarily many plain constructs until an image or figure line
appears. -/
theorem C8_pending_alt_lifecycle :
    (∀ pa, updAlt pa (some ((" alt: foo").data)) = some (("foo").data)) ∧
    (∀ (cfg : Cfg) (p : List Char) (f : Nat) (st : St) (rest : List (List Char))
        (l : List Char), rstripL l = l → l ≠ [] → bslash ∉ l → '%' ∉ l →
      scanGo cfg p (f + 1) st (l :: rest) = scanGo cfg p f (emit st l) rest) ∧
    (∀ (cfg : Cfg) (p : List Char) (f : Nat) (st : St) (rest : List (List Char))
        (a : List Char), st.pa = some a → a ≠ [] → bslash ∉ a → cfg.dirFiles = [] →
      scanGo cfg p (f + 1) st ((("\\includegraphics\x7bimg.png\x7d").data) :: rest) =
        scanGo cfg p f
          (emit { st with pa := none }
            ((("<img src=\x22img.png\x22 alt=\x22").data) ++ (a ++ (("\x22>").data)))) rest) :=
  ⟨fun _ => rfl,
   fun cfg p f st rest l h1 h2 h3 h4 => scanGo_cons_plain cfg p f st l rest h1 h2 h3 h4,
   fun cfg p f st rest a h1 h2 h3 h4 => scanGo_cons_include cfg p f st rest a h1 h2 h3 h4⟩

/-- C8 witness: the amended lifecycle at concrete inputs — a concrete
alt-comment update, a concrete plain line passing through with the state
untouched, and a concrete include line consuming a pending alt value. -/
theorem C8_pending_alt_lifecycle_witness :
    updAlt none (some ((" alt: foo").data)) = some (("foo").data) ∧
    scanGo cfgAbsent [] 1 (initSt []) ((("hello").data) :: []) =
      scanGo cfgAbsent [] 0 (emit (initSt []) (("hello").data)) [] ∧
    scanGo cfgAbsent [] 1 { initSt [] with pa := some (("photo").data) }
        ((("\\includegraphics\x7bimg.png\x7d").data) :: []) =
      scanGo cfgAbsent [] 0
        (emit { { initSt [] with pa := some (("photo").data) } with pa := none }
          ((("<img src=\x22img.png\x22 alt=\x22").data) ++ ((("photo").data) ++ (("\x22>").data)))) [] :=
  ⟨C8_pending_alt_lifecycle.1 none,
   C8_pending_alt_lifecycle.2.1 cfgAbsent [] 0 (initSt []) [] (("hello").data)
     (by decide) (by decide) (by decide) (by decide),
   C8_pending_alt_lifecycle.2.2 cfgAbsent [] 0 _ [] (("photo").data) rfl (by decide)
     (by decide) rfl⟩

/-! ## Figure-branch field lemmas -/

theorem emit_fs (st : St) (l : List Char) : (emit st l).fs = st.fs := rfl

theorem emit_tikzN (st : St) (l : List Char) : (emit st l).tikzN = st.tikzN := rfl

theorem emit_calls (st : St) (l : List Char) : (emit st l).calls = st.calls := rfl

theorem emitSep_fs (st : St) : (emitSep st).fs = st.fs := by
  unfold emitSep
  rcases e : st.outRev with _ | ⟨l, t⟩
  · rfl
  · simp only []
    split <;> rfl

theorem emitSep_tikzN (st : St) : (emitSep st).tikzN = st.tikzN := by
  unfold emitSep
  rcases e : st.outRev with _ | ⟨l, t⟩
  · rfl
  · simp only []
    split <;> rfl

theorem emitSep_calls (st : St) : (emitSep st).calls = st.calls := by
  unfold emitSep
  rcases e : st.outRev with _ | ⟨l, t⟩
  · rfl
  · simp only []
    split <;> rfl

theorem render_tikz_success (cfg : Cfg) (fs : List (List Char)) (t p b : List Char)
    (hpdf : cfg.pdflatex = true) (hname : tikzPngName b t ∉ fs)
    (hc : cfg.compileOk (build_tikz_standalone_doc t p) = true)
    (hpc : cfg.pdftocairo = true)
    (hr : cfg.rasterOk (build_tikz_standalone_doc t p) = true)
    (hprod : cfg.produced (build_tikz_standalone_doc t p) = true) :
    render_tikz_to_png cfg fs t p b =
      (some (tikzPngName b t), tikzPngName b t :: fs, 2) := by
  unfold render_tikz_to_png
  rw [if_neg (by simp [hpdf])]
  rw [if_neg hname]
  rw [if_neg (by simp [hc])]
  rw [if_pos hpc]
  rw [if_neg (by simp [hr])]
  rw [if_neg (by simp [hprod])]

/-- C9 counterexample: a successfully rendered figure is written with a
`_tikz_` component in its name, not the `_figure_` component the spec
names. -/
theorem C9_figure_name_counterexample :
    (scanGo cfgOk [] 1 (initSt [])
        [("\\begin\x7btikzpicture\x7d\\end\x7btikzpicture\x7d").data]).fs =
      [("hw_tikz_1_55f12d4559.png").data] ∧
    containsSub (("_figure_").data) (("hw_tikz_1_55f12d4559.png").data) = false ∧
    containsSub (("_tikz_").data) (("hw_tikz_1_55f12d4559.png").data) = true := by
  exact ⟨by decide, by decide, by decide⟩

/-- C9 (amended): a successfully rendered figure environment writes its
image into the output directory under the name
`<input-stem>_tikz_<n>_<contenthash>.png` — the middle component is
`_tikz_`, not `_figure_` — where `n` is the per-document figure counter
(incremented to `tikzN + 1`) and the content hash is the first 10 hex
digits of the SHA-1 of the stripped figure source; the render costs two
external invocations. -/
theorem C9_tikz_png_naming (cfg : Cfg) (p : List Char) (st : St) (rest : List (List Char))
    (hpdf : cfg.pdflatex = true)
    (hname : tikzPngName (cfg.stem ++ ("_tikz_").data ++ natStr (st.tikzN + 1))
        (("\\begin\x7btikzpicture\x7d\\end\x7btikzpicture\x7d").data) ∉ st.fs)
    (hc : cfg.compileOk (build_tikz_standalone_doc
        (("\\begin\x7btikzpicture\x7d\\end\x7btikzpicture\x7d").data) p) = true)
    (hpc : cfg.pdftocairo = true)
    (hr : cfg.rasterOk (build_tikz_standalone_doc
        (("\\begin\x7btikzpicture\x7d\\end\x7btikzpicture\x7d").data) p) = true)
    (hprod : cfg.produced (build_tikz_standalone_doc
        (("\\begin\x7btikzpicture\x7d\\end\x7btikzpicture\x7d").data) p) = true) :
    (tikzBranch cfg p st (("\\begin\x7btikzpicture\x7d\\end\x7btikzpicture\x7d").data) rest).1.fs =
      tikzPngName (cfg.stem ++ ("_tikz_").data ++ natStr (st.tikzN + 1))
        (("\\begin\x7btikzpicture\x7d\\end\x7btikzpicture\x7d").data) :: st.fs ∧
    (tikzBranch cfg p st (("\\begin\x7btikzpicture\x7d\\end\x7btikzpicture\x7d").data) rest).1.tikzN =
      st.tikzN + 1 ∧
    (tikzBranch cfg p st (("\\begin\x7btikzpicture\x7d\\end\x7btikzpicture\x7d").data) rest).1.calls =
      st.calls + 2 ∧
    (tikzBranch cfg p st (("\\begin\x7btikzpicture\x7d\\end\x7btikzpicture\x7d").data) rest).2 =
      rest := by
  have h1 : containsSub tikzEndTok
      (("\\begin\x7btikzpicture\x7d\\end\x7btikzpicture\x7d").data) = true := by decide
  have h2 : pySlice (("\\begin\x7btikzpicture\x7d\\end\x7btikzpicture\x7d").data)
      ((findSubIdx tikzBeginTok (("\\begin\x7btikzpicture\x7d\\end\x7btikzpicture\x7d").data)).getD 0)
      ((findSubIdx tikzEndTok (("\\begin\x7btikzpicture\x7d\\end\x7btikzpicture\x7d").data)).getD 0
        + tikzEndTok.length) =
      (("\\begin\x7btikzpicture\x7d\\end\x7btikzpicture\x7d").data) := by decide
  have h3 : stripL (joinNL [("\\begin\x7btikzpicture\x7d\\end\x7btikzpicture\x7d").data]) =
      (("\\begin\x7btikzpicture\x7d\\end\x7btikzpicture\x7d").data) := by decide
  have hrend := render_tikz_success cfg st.fs
    (("\\begin\x7btikzpicture\x7d\\end\x7btikzpicture\x7d").data) p
    (cfg.stem ++ ("_tikz_").data ++ natStr (st.tikzN + 1))
    hpdf hname hc hpc hr hprod
  unfold tikzBranch
  simp only [h1, if_true, h2, h3, hrend, emit_fs, emit_tikzN, emit_calls,
    emitSep_fs, emitSep_tikzN, emitSep_calls]
  exact ⟨trivial, trivial, trivial, trivial⟩

/-- C9 witness: the amended naming statement at a concrete always-succeeds
toolchain and the empty starting directory. -/
theorem C9_tikz_png_naming_witness :
    ((tikzBranch cfgOk [] (initSt [])
        (("\\begin\x7btikzpicture\x7d\\end\x7btikzpicture\x7d").data) []).1.fs =
      tikzPngName (cfgOk.stem ++ ("_tikz_").data ++ natStr ((initSt []).tikzN + 1))
        (("\\begin\x7btikzpicture\x7d\\end\x7btikzpicture\x7d").data) :: (initSt []).fs ∧
    (tikzBranch cfgOk [] (initSt [])
        (("\\begin\x7btikzpicture\x7d\\end\x7btikzpicture\x7d").data) []).1.tikzN =
      (initSt []).tikzN + 1 ∧
    (tikzBranch cfgOk [] (initSt [])
        (("\\begin\x7btikzpicture\x7d\\end\x7btikzpicture\x7d").data) []).1.calls =
      (initSt []).calls + 2 ∧
    (tikzBranch cfgOk [] (initSt [])
        (("\\begin\x7btikzpicture\x7d\\end\x7btikzpicture\x7d").data) []).2 = []) :=
  C9_tikz_png_naming cfgOk [] (initSt []) [] rfl (List.not_mem_nil _) rfl rfl rfl rfl

/-! ## Escape / unescape round-trip -/

theorem unescGo_amp (g : Nat) (rest : List Char) :
    unescGo (g + 1) ('&' :: ((("amp;").data) ++ rest)) = '&' :: unescGo g rest := by
  rw [unescGo, if_pos rfl, if_pos (startsL_append_self _ _)]
  all_goals simp [List.drop_left]

theorem unescGo_lt (g : Nat) (rest : List Char) :
    unescGo (g + 1) ('&' :: ((("lt;").data) ++ rest)) = '<' :: unescGo g rest := by
  rw [unescGo, if_pos rfl]
  rw [if_neg (by rw [startsL_false_of_clash _ _ rest (by decide)]; simp)]
  rw [if_pos (startsL_append_self _ _)]
  all_goals simp [List.drop_left]

theorem unescGo_gt (g : Nat) (rest : List Char) :
    unescGo (g + 1) ('&' :: ((("gt;").data) ++ rest)) = '>' :: unescGo g rest := by
  rw [unescGo, if_pos rfl]
  rw [if_neg (by rw [startsL_false_of_clash _ _ rest (by decide)]; simp)]
  rw [if_neg (by rw [startsL_false_of_clash _ _ rest (by decide)]; simp)]
  rw [if_pos (startsL_append_self _ _)]
  all_goals simp [List.drop_left]

theorem unescGo_quot (g : Nat) (rest : List Char) :
    unescGo (g + 1) ('&' :: ((("quot;").data) ++ rest)) = dquote :: unescGo g rest := by
  rw [unescGo, if_pos rfl]
  rw [if_neg (by rw [startsL_false_of_clash _ _ rest (by decide)]; simp)]
  rw [if_neg (by rw [startsL_false_of_clash _ _ rest (by decide)]; simp)]
  rw [if_neg (by rw [startsL_false_of_clash _ _ rest (by decide)]; simp)]
  rw [if_pos (startsL_append_self _ _)]
  all_goals simp [List.drop_left]

theorem unescGo_apos (g : Nat) (rest : List Char) :
    unescGo (g + 1) ('&' :: ((("#x27;").data) ++ rest)) = squote :: unescGo g rest := by
  rw [unescGo, if_pos rfl]
  rw [if_neg (by rw [startsL_false_of_clash _ _ rest (by decide)]; simp)]
  rw [if_neg (by rw [startsL_false_of_clash _ _ rest (by decide)]; simp)]
  rw [if_neg (by rw [startsL_false_of_clash _ _ rest (by decide)]; simp)]
  rw [if_neg (by rw [startsL_false_of_clash _ _ rest (by decide)]; simp)]
  rw [if_pos (startsL_append_self _ _)]
  all_goals simp [List.drop_left]

theorem unescGo_plain (g : Nat) (c : Char) (rest : List Char) (h : c ≠ '&') :
    unescGo (g + 1) (c :: rest) = c :: unescGo g rest := by
  rw [unescGo, if_neg h]

theorem escChar_other (c : Char) (h1 : c ≠ '&') (h2 : c ≠ '<') (h3 : c ≠ '>')
    (h4 : c ≠ dquote) (h5 : c ≠ squote) : escChar c = [c] := by
  unfold escChar
  rw [if_neg h1, if_neg h2, if_neg h3, if_neg h4, if_neg h5]

theorem unescGo_escape (s : List Char) : ∀ f : Nat, (pyHtmlEscape s).length ≤ f →
    unescGo f (pyHtmlEscape s) = s := by
  induction s with
  | nil =>
    intro f _
    cases f <;> rfl
  | cons c cs ih =>
    intro f hf
    have hesc : pyHtmlEscape (c :: cs) = escChar c ++ pyHtmlEscape cs := rfl
    rw [hesc] at hf ⊢
    by_cases h1 : c = '&'
    · subst h1
      rw [show escChar '&' = '&' :: (("amp;").data) from rfl] at hf ⊢
      rw [List.cons_append] at hf ⊢
      rw [List.length_cons] at hf
      cases f with
      | zero => exact absurd hf (by omega)
      | succ g =>
        rw [show (("amp;").data) ++ pyHtmlEscape cs = (("amp;").data) ++ pyHtmlEscape cs
          from rfl]
        rw [unescGo_amp g (pyHtmlEscape cs)]
        rw [ih g (by simp at hf; omega)]
    · by_cases h2 : c = '<'
      · subst h2
        rw [show escChar '<' = '&' :: (("lt;").data) from rfl] at hf ⊢
        rw [List.cons_append] at hf ⊢
        rw [List.length_cons] at hf
        cases f with
        | zero => exact absurd hf (by omega)
        | succ g =>
          rw [unescGo_lt g (pyHtmlEscape cs)]
          rw [ih g (by simp at hf; omega)]
      · by_cases h3 : c = '>'
        · subst h3
          rw [show escChar '>' = '&' :: (("gt;").data) from rfl] at hf ⊢
          rw [List.cons_append] at hf ⊢
          rw [List.length_cons] at hf
          cases f with
          | zero => exact absurd hf (by omega)
          | succ g =>
            rw [unescGo_gt g (pyHtmlEscape cs)]
            rw [ih g (by simp at hf; omega)]
        · by_cases h4 : c = dquote
          · subst h4
            rw [show escChar dquote = '&' :: (("quot;").data) from rfl] at hf ⊢
            rw [List.cons_append] at hf ⊢
            rw [List.length_cons] at hf
            cases f with
            | zero => exact absurd hf (by omega)
            | succ g =>
              rw [unescGo_quot g (pyHtmlEscape cs)]
              rw [ih g (by simp at hf; omega)]
          · by_cases h5 : c = squote
            · subst h5
              rw [show escChar squote = '&' :: (("#x27;").data) from rfl] at hf ⊢
              rw [List.cons_append] at hf ⊢
              rw [List.length_cons] at hf
              cases f with
              | zero => exact absurd hf (by omega)
              | succ g =>
                rw [unescGo_apos g (pyHtmlEscape cs)]
                rw [ih g (by simp at hf; omega)]
            · rw [escChar_other c h1 h2 h3 h4 h5] at hf ⊢
              rw [List.cons_append, List.nil_append] at hf ⊢
              rw [List.length_cons] at hf
              cases f with
              | zero => exact absurd hf (by omega)
              | succ g =>
                rw [unescGo_plain g c (pyHtmlEscape cs) h1]
                rw [ih g (by omega)]

theorem pyHtmlUnescape_escape (s : List Char) :
    pyHtmlUnescape (pyHtmlEscape s) = s :=
  unescGo_escape s (pyHtmlEscape s).length (Nat.le_refl _)

theorem stripL_subset (s : List Char) : ∀ c ∈ stripL s, c ∈ s := by
  intro c hc
  unfold stripL lstripL rstripL at hc
  have h2 := (List.dropWhile_sublist pyWS).subset hc
  rw [List.mem_reverse] at h2
  have h3 := (List.dropWhile_sublist pyWS).subset h2
  rw [← List.mem_reverse]
  exact h3

theorem imgAttr_dec (s : List Char) :
    imgAttr (canvas_equation_img s) (("data-equation-content").data) =
      some (pyHtmlEscape s) := by
  rw [imgAttr, parseImgTag_canvas s]
  rfl

/-! ## Scanner prefix machinery -/

theorem allClash_tail (pat : List Char) (c : Char) (cs : List Char)
    (h : allClash pat (c :: cs) = true) : allClash pat cs = true := by
  unfold allClash at h ⊢
  rw [List.all_eq_true] at h ⊢
  intro k hk
  have hk' : k + 1 ∈ List.range (c :: cs).length := by
    rw [List.mem_range] at hk ⊢
    simp only [List.length_cons]
    omega
  have := h (k + 1) hk'
  simpa [List.drop_succ_cons] using this

theorem allClash_singleton (x : Char) (a : List Char) (h : x ∉ a) :
    allClash [x] a = true := by
  unfold allClash
  rw [List.all_eq_true]
  intro k hk
  rw [List.mem_range] at hk
  cases e : a.drop k with
  | nil =>
    have := congrArg List.length e
    rw [List.length_drop] at this
    simp only [List.length_nil] at this
    omega
  | cons d rest =>
    have hd : d ∈ a := List.drop_subset k a (by rw [e]; exact List.mem_cons_self d rest)
    have hxd : x ≠ d := fun hxd => h (hxd ▸ hd)
    simp only [e, clash]
    simp [hxd]

theorem scanSt_prefix_nofire {σ : Type}
    (step : σ → List Char → Option (List Char × List Char × σ)) (upd : σ → Char → σ)
    (key : List Char)
    (hstep : ∀ (st : σ) (s : List Char) out, step st s = some out → startsL key s = true) :
    ∀ (a : List Char), allClash key a = true → ∀ (f : Nat) (st : σ) (b : List Char),
      scanSt step upd (a.length + f) st (a ++ b) =
        ((a ++ (scanSt step upd f (a.foldl upd st) b).1),
          (scanSt step upd f (a.foldl upd st) b).2) := by
  intro a
  induction a with
  | nil =>
    intro _ f st b
    simp
  | cons c cs ih =>
    intro ha f st b
    have hnofire : step st (c :: (cs ++ b)) = none := by
      cases hs : step st (c :: (cs ++ b)) with
      | none => rfl
      | some out =>
        have h1 := hstep st _ out hs
        have h2 := no_starts_within_of_allClash key (c :: cs) b ha 0 (by simp)
        rw [List.drop_zero, List.cons_append] at h2
        rw [h1] at h2
        exact absurd h2 (by simp)
    have ha' : allClash key cs = true := allClash_tail key c cs ha
    rw [List.cons_append]
    rw [show (c :: cs).length + f = (cs.length + f) + 1 from by
      simp only [List.length_cons]; omega]
    rw [scanSt_cons_none2 step upd (cs.length + f) st c (cs ++ b) hnofire]
    rw [ih ha' f (upd st c) b]
    simp [List.foldl_cons]

theorem foldl_upd_cases (a : List Char) : ∀ st0 : Option Char,
    a.foldl (fun _ c => some c) st0 = st0 ∨
      ∃ c ∈ a, a.foldl (fun _ c => some c) st0 = some c := by
  induction a with
  | nil => intro st0; exact Or.inl rfl
  | cons c cs ih =>
    intro st0
    rw [List.foldl_cons]
    rcases ih (some c) with h | ⟨x, hx, e⟩
    · exact Or.inr ⟨c, List.mem_cons_self c cs, h⟩
    · exact Or.inr ⟨x, List.mem_cons_of_mem c hx, e⟩

theorem inlineCloseGo_skip (w : List Char) : ∀ (prev : Char) (idx : Nat) (r : List Char),
    '$' ∉ w → bslash ∉ w → prev ≠ bslash → r.head? ≠ some '$' →
    inlineCloseGo prev idx (w ++ '$' :: r) = some (idx + w.length) := by
  induction w with
  | nil =>
    intro prev idx r _ _ hprev hr
    rw [List.nil_append, inlineCloseGo]
    rw [if_pos ⟨rfl, hprev, hr⟩]
    simp
  | cons a w' ih =>
    intro prev idx r hw hb hprev hr
    have ha : a ≠ '$' := fun e => hw (e ▸ List.mem_cons_self a w')
    have hab : a ≠ bslash := fun e => hb (e ▸ List.mem_cons_self a w')
    rw [List.cons_append, inlineCloseGo]
    rw [if_neg (fun hcond => ha hcond.1)]
    rw [ih a (idx + 1) r (fun m => hw (List.mem_cons_of_mem a m))
      (fun m => hb (List.mem_cons_of_mem a m)) hab hr]
    exact congrArg some (by simp only [List.length_cons]; omega)

theorem getLast?_ne_of_not_mem (l : List Char) (x : Char) (h : x ∉ l) :
    l.getLast? ≠ some x := fun e => h (List.mem_of_mem_getLast? e)

/-! ## Math-pass computations -/

theorem canvas_img_avoid (s : List Char) (c : Char) (hent : c ∉ entChars) (hs : c ∉ s)
    (h1 : c ≠ '%') (h2 : c ∉ ("0123456789ABCDEF").data)
    (h3 : quoteSafeByte c.toNat = false)
    (hA : c ∉ ("<img class=\x22equation_image\x22 title=\x22").data)
    (hB : c ∉ ("\x22 src=\x22/equation_images/").data)
    (hC : c ∉ ("?scale=1\x22 alt=\x22LaTeX: ").data)
    (hD : c ∉ ("\x22 data-equation-content=\x22").data)
    (hE : c ∉ ("\x22 data-ignore-a11y-check=\x22\x22 />").data) :
    c ∉ canvas_equation_img s := by
  intro hm
  unfold canvas_equation_img at hm
  simp only [List.mem_append] at hm
  rcases hm with ((((((((h | h) | h) | h) | h) | h) | h) | h) | h)
  · exact hA h
  · exact pyHtmlEscape_avoid s c hent hs c h rfl
  · exact hB h
  · exact pyQuote_avoid s c h1 h2 h3 c h rfl
  · exact hC h
  · exact pyHtmlEscape_avoid s c hent hs c h rfl
  · exact hD h
  · exact pyHtmlEscape_avoid s c hent hs c h rfl
  · exact hE h

theorem dollar_not_mem_canvas (s : List Char) (hs : '$' ∉ s) :
    '$' ∉ canvas_equation_img s :=
  canvas_img_avoid s '$' (by decide) hs (by decide) (by decide) (by decide) (by decide)
    (by decide) (by decide) (by decide) (by decide)

theorem bslash_not_mem_canvas (s : List Char) (hs : bslash ∉ s) :
    bslash ∉ canvas_equation_img s :=
  canvas_img_avoid s bslash (by decide) hs (by decide) (by decide) (by decide) (by decide)
    (by decide) (by decide) (by decide) (by decide)

theorem stepDollarDollar_fire (x : List Char) (j : Nat) (hj : ddClose x = some j) :
    stepDollarDollar () ('$' :: '$' :: x) = some
      ((("<p>").data ++ canvas_equation_img (stripL (x.take j)) ++ ("</p>").data),
        x.drop (j + 2), ()) := by
  unfold stepDollarDollar
  rw [if_pos (show startsL ['$', '$'] ('$' :: '$' :: x) = true from rfl)]
  have hd2 : ('$' :: '$' :: x).drop 2 = x := rfl
  simp only [hd2, hj]

theorem stepInline_fire (prev : Option Char) (x : List Char) (j : Nat)
    (hprev : prev ≠ some bslash) (hx : x.head? ≠ some '$') (hj : inlineClose x = some j) :
    stepInline prev ('$' :: x) =
      some (canvas_equation_img (stripL (x.take j)), x.drop (j + 1), some '$') := by
  unfold stepInline
  simp only [hj]
  rw [if_pos ⟨hprev, hx⟩]

theorem mathPassBr_id (t : List Char) (h : bslash ∉ t) : mathPassBr t = t := by
  unfold mathPassBr
  have hcs : containsSub [bslash, '['] t = false := containsSub_false_of_head_not_mem _ _ _ h
  rw [scanSt_keep_id stepDispBr [bslash, '['] stepDispBr_starts t t.length () hcs]

theorem mathPassDD_two (d sep i : List Char) (hd : d ≠ []) (hdD : '$' ∉ d)
    (hsD : '$' ∉ sep) (hi : i ≠ []) (hiD : '$' ∉ i) :
    mathPassDD ('$' :: '$' :: (d ++ ('$' :: '$' :: (sep ++ '$' :: (i ++ ['$']))))) =
      ("<p>").data ++ canvas_equation_img (stripL d) ++ ("</p>").data
        ++ (sep ++ '$' :: (i ++ ['$'])) := by
  obtain ⟨d0, d', rfl⟩ : ∃ d0 d', d = d0 :: d' := by
    cases d with
    | nil => exact absurd rfl hd
    | cons a b => exact ⟨a, b, rfl⟩
  have hno : ∀ k, k < d'.length →
      startsL ['$', '$'] ((d' ++ ('$' :: '$' :: (sep ++ '$' :: (i ++ ['$'])))).drop k)
        = false :=
    not_starts_within_of_head_ne '$' ['$'] d' _
      (fun c hc e => hdD (e ▸ List.mem_cons_of_mem d0 hc))
  have hfind : findSubIdx ['$', '$'] (d' ++ ('$' :: '$' :: (sep ++ '$' :: (i ++ ['$'])))) =
      some d'.length := by
    rw [findSubIdx_append_right ['$', '$'] d' _ hno]
    rw [findSubIdx_of_startsL _ _
      (show startsL ['$', '$'] ('$' :: '$' :: (sep ++ '$' :: (i ++ ['$']))) = true from rfl)]
    simp
  have hdd : ddClose ((d0 :: d') ++ ('$' :: '$' :: (sep ++ '$' :: (i ++ ['$'])))) =
      some (d'.length + 1) := by
    rw [List.cons_append]
    show (findSubIdx ['$', '$'] (d' ++ ('$' :: '$' :: (sep ++ '$' :: (i ++ ['$']))))).map
        (fun k => k + 1) = some (d'.length + 1)
    rw [hfind]
    rfl
  have htake : ((d0 :: d') ++ ('$' :: '$' :: (sep ++ '$' :: (i ++ ['$'])))).take
      (d'.length + 1) = d0 :: d' :=
    List.take_left' (by simp)
  have hdrop : ((d0 :: d') ++ ('$' :: '$' :: (sep ++ '$' :: (i ++ ['$'])))).drop
      (d'.length + 1 + 2) = sep ++ '$' :: (i ++ ['$']) := by
    rw [show d'.length + 1 + 2 = (d0 :: d').length + 2 from by simp]
    rw [List.drop_append]
    rfl
  have hstep := stepDollarDollar_fire
    ((d0 :: d') ++ ('$' :: '$' :: (sep ++ '$' :: (i ++ ['$'])))) (d'.length + 1) hdd
  rw [htake, hdrop] at hstep
  have hinner : noPair '$' '$' ('$' :: (i ++ ['$'])) = true := by
    obtain ⟨i0, i', rfl⟩ : ∃ i0 i', i = i0 :: i' := by
      cases i with
      | nil => exact absurd rfl hi
      | cons a b => exact ⟨a, b, rfl⟩
    have hi0 : i0 ≠ '$' := fun e => hiD (e ▸ List.mem_cons_self i0 i')
    rw [List.cons_append, noPair_cons_cons]
    refine (Bool.and_eq_true _ _).mpr ⟨?_, ?_⟩
    · simp [hi0]
    · rw [← List.cons_append]
      exact noPair_append '$' '$' (i0 :: i') ['$'] (noPair_of_not_mem_fst _ _ _ hiD) rfl
        (fun hp => getLast?_ne_of_not_mem _ _ hiD hp.1)
  have hnp : noPair '$' '$' (sep ++ '$' :: (i ++ ['$'])) = true :=
    noPair_append '$' '$' sep _ (noPair_of_not_mem_fst _ _ _ hsD) hinner
      (fun hp => getLast?_ne_of_not_mem sep '$' hsD hp.1)
  have hcs : containsSub ['$', '$'] (sep ++ '$' :: (i ++ ['$'])) = false :=
    containsSub_false_of_noPair '$' '$' [] _ hnp
  unfold mathPassDD
  rw [show ('$' :: '$' :: ((d0 :: d') ++ ('$' :: '$' :: (sep ++ '$' :: (i ++ ['$']))))).length
      = ('$' :: ((d0 :: d') ++ ('$' :: '$' :: (sep ++ '$' :: (i ++ ['$']))))).length + 1
      from rfl]
  rw [scanSt_cons_some2 stepDollarDollar keepSt _ () () '$' _ _ _ hstep]
  rw [scanSt_keep_id stepDollarDollar ['$', '$'] stepDollarDollar_starts _ _ () hcs]

theorem mathPassInline_one (a i : List Char) (haD : '$' ∉ a) (haB : bslash ∉ a)
    (hi : i ≠ []) (hiD : '$' ∉ i) (hiB : bslash ∉ i) :
    mathPassInline (a ++ '$' :: (i ++ ['$'])) = a ++ canvas_equation_img (stripL i) := by
  obtain ⟨i0, i', rfl⟩ : ∃ i0 i', i = i0 :: i' := by
    cases i with
    | nil => exact absurd rfl hi
    | cons x y => exact ⟨x, y, rfl⟩
  have hi0D : i0 ≠ '$' := fun e => hiD (e ▸ List.mem_cons_self i0 i')
  have hi0B : i0 ≠ bslash := fun e => hiB (e ▸ List.mem_cons_self i0 i')
  have hprev : a.foldl (fun _ c => some c) none ≠ some bslash := by
    rcases foldl_upd_cases a none with h | ⟨c, hc, e⟩
    · rw [h]
      simp
    · rw [e]
      intro he
      exact haB ((Option.some.inj he) ▸ hc)
  have hic : inlineClose ((i0 :: i') ++ ['$']) = some (i0 :: i').length := by
    rw [List.cons_append]
    show inlineCloseGo i0 1 (i' ++ ['$']) = some (i0 :: i').length
    rw [show (['$'] : List Char) = '$' :: ([] : List Char) from rfl]
    rw [inlineCloseGo_skip i' i0 1 [] (fun m => hiD (List.mem_cons_of_mem i0 m))
      (fun m => hiB (List.mem_cons_of_mem i0 m)) hi0B (by simp)]
    exact congrArg some (by simp only [List.length_cons]; omega)
  have hhd : ((i0 :: i') ++ ['$']).head? ≠ some '$' := by
    rw [List.cons_append]
    simp [hi0D]
  have hstep := stepInline_fire (a.foldl (fun _ c => some c) none) ((i0 :: i') ++ ['$'])
    (i0 :: i').length hprev hhd hic
  rw [List.take_left' rfl] at hstep
  rw [show ((i0 :: i') ++ ['$']).drop ((i0 :: i').length + 1) = ([] : List Char) from by
    rw [List.drop_append]
    rfl] at hstep
  unfold mathPassInline
  rw [show (a ++ '$' :: ((i0 :: i') ++ ['$'])).length = a.length + ((i0 :: i').length + 2)
      from by simp [List.length_append, List.length_cons]]
  rw [scanSt_prefix_nofire stepInline (fun _ c => some c) ['$'] stepInline_starts a
    (allClash_singleton '$' a haD) ((i0 :: i').length + 2) none ('$' :: ((i0 :: i') ++ ['$']))]
  rw [show (i0 :: i').length + 2 = ((i0 :: i').length + 1) + 1 from rfl]
  rw [scanSt_cons_some2 stepInline (fun _ c => some c) ((i0 :: i').length + 1) _ (some '$')
    '$' ((i0 :: i') ++ ['$']) _ [] hstep]
  rw [scanSt_nil2]
  simp

/-- C2 counterexample: the math rewriter strips the captured group before
embedding it, so for `$$ x $$ ... $ y $` the data-equation-content
attributes unescape to `x` and `y`, not to the enclosed sources ` x ` and
` y ` — surrounding whitespace inside the delimiters is lost. -/
theorem C2_roundtrip_whitespace_counterexample :
    convert_math_to_canvas (("$$ x $$ and $ y $").data) =
      ("<p>").data ++ canvas_equation_img (("x").data) ++ ("</p>").data ++ (" and ").data
        ++ canvas_equation_img (("y").data) ∧
    (imgAttr (canvas_equation_img (("x").data)) (("data-equation-content").data)).map
        pyHtmlUnescape ≠ some ((" x ").data) ∧
    (imgAttr (canvas_equation_img (("y").data)) (("data-equation-content").data)).map
        pyHtmlUnescape ≠ some ((" y ").data) := by
  refine ⟨by decide, by decide, by decide⟩

/-- C2 (amended): for an input holding one display span and one inline
span (delimiter-free, backslash-free contents), each produced
equation-image tag carries in data-equation-content text whose
HTML-unescaping equals the STRIPPED enclosed source: the round trip is
exact only modulo `str.strip` of the captured group, not for the raw
enclosed text. -/
theorem C2_math_roundtrip_modulo_strip (d sep i : List Char)
    (hd : d ≠ []) (hdD : '$' ∉ d) (hdB : bslash ∉ d)
    (hsD : '$' ∉ sep) (hsB : bslash ∉ sep)
    (hi : i ≠ []) (hiD : '$' ∉ i) (hiB : bslash ∉ i) :
    convert_math_to_canvas ('$' :: '$' :: (d ++ ('$' :: '$' :: (sep ++ '$' :: (i ++ ['$']))))) =
      ("<p>").data ++ canvas_equation_img (stripL d) ++ ("</p>").data ++ sep
        ++ canvas_equation_img (stripL i) ∧
    (imgAttr (canvas_equation_img (stripL d)) (("data-equation-content").data)).map
        pyHtmlUnescape = some (stripL d) ∧
    (imgAttr (canvas_equation_img (stripL i)) (("data-equation-content").data)).map
        pyHtmlUnescape = some (stripL i) := by
  refine ⟨?_, ?_, ?_⟩
  · unfold convert_math_to_canvas
    rw [mathPassDD_two d sep i hd hdD hsD hi hiD]
    have hdB' : bslash ∉ canvas_equation_img (stripL d) :=
      bslash_not_mem_canvas _ (fun m => hdB (stripL_subset d bslash m))
    have hdD' : '$' ∉ canvas_equation_img (stripL d) :=
      dollar_not_mem_canvas _ (fun m => hdD (stripL_subset d '$' m))
    have hbs1 : bslash ∉ ("<p>").data ++ canvas_equation_img (stripL d) ++ ("</p>").data
        ++ (sep ++ '$' :: (i ++ ['$'])) := by
      intro hm
      rcases List.mem_append.mp hm with h1 | h2
      · rcases List.mem_append.mp h1 with h3 | h4
        · rcases List.mem_append.mp h3 with h5 | h6
          · exact absurd h5 (by decide)
          · exact hdB' h6
        · exact absurd h4 (by decide)
      · rcases List.mem_append.mp h2 with h3 | h4
        · exact hsB h3
        · rcases List.mem_cons.mp h4 with h5 | h6
          · exact absurd h5 (by decide)
          · rcases List.mem_append.mp h6 with h7 | h8
            · exact hiB h7
            · exact absurd h8 (by decide)
    rw [mathPassBr_id _ hbs1]
    have hre : ("<p>").data ++ canvas_equation_img (stripL d) ++ ("</p>").data
        ++ (sep ++ '$' :: (i ++ ['$'])) =
        (("<p>").data ++ canvas_equation_img (stripL d) ++ ("</p>").data ++ sep)
          ++ '$' :: (i ++ ['$']) := by
      simp [List.append_assoc]
    rw [hre]
    have haD : '$' ∉ ("<p>").data ++ canvas_equation_img (stripL d) ++ ("</p>").data
        ++ sep := by
      intro hm
      rcases List.mem_append.mp hm with h1 | h2
      · rcases List.mem_append.mp h1 with h3 | h4
        · rcases List.mem_append.mp h3 with h5 | h6
          · exact absurd h5 (by decide)
          · exact hdD' h6
        · exact absurd h4 (by decide)
      · exact hsD h2
    have haB : bslash ∉ ("<p>").data ++ canvas_equation_img (stripL d) ++ ("</p>").data
        ++ sep := by
      intro hm
      rcases List.mem_append.mp hm with h1 | h2
      · rcases List.mem_append.mp h1 with h3 | h4
        · rcases List.mem_append.mp h3 with h5 | h6
          · exact absurd h5 (by decide)
          · exact hdB' h6
        · exact absurd h4 (by decide)
      · exact hsB h2
    rw [mathPassInline_one _ i haD haB hi hiD hiB]
  · rw [imgAttr_dec]
    simp [pyHtmlUnescape_escape]
  · rw [imgAttr_dec]
    simp [pyHtmlUnescape_escape]

/-- C2 witness: the amended round trip at concrete spans ` x ` and ` y `
separated by plain text. -/
theorem C2_math_roundtrip_modulo_strip_witness :
    (convert_math_to_canvas ('$' :: '$' :: ((" x ").data ++ ('$' :: '$' :: ((" and ").data
          ++ '$' :: ((" y ").data ++ ['$']))))) =
      ("<p>").data ++ canvas_equation_img (stripL ((" x ").data)) ++ ("</p>").data
        ++ (" and ").data ++ canvas_equation_img (stripL ((" y ").data)) ∧
    (imgAttr (canvas_equation_img (stripL ((" x ").data)))
        (("data-equation-content").data)).map pyHtmlUnescape = some (stripL ((" x ").data)) ∧
    (imgAttr (canvas_equation_img (stripL ((" y ").data)))
        (("data-equation-content").data)).map pyHtmlUnescape = some (stripL ((" y ").data))) :=
  C2_math_roundtrip_modulo_strip ((" x ").data) ((" and ").data) ((" y ").data)
    (by decide) (by decide) (by decide) (by decide) (by decide) (by decide) (by decide)
    (by decide)

/-! ## Whole-document helpers -/

theorem scanSt_fst_id {σ : Type} (step : σ → List Char → Option (List Char × List Char × σ))
    (upd : σ → Char → σ) (key : List Char)
    (hstep : ∀ (st : σ) (s : List Char) out, step st s = some out → startsL key s = true) :
    ∀ (s : List Char) (f : Nat) (st : σ), containsSub key s = false →
      (scanSt step upd f st s).1 = s := by
  intro s
  induction s with
  | nil =>
    intro f st _
    cases f <;> rfl
  | cons c cs ih =>
    intro f st hc
    rw [containsSub_cons] at hc
    have h1 : startsL key (c :: cs) = false := by
      cases hsl : startsL key (c :: cs)
      · rfl
      · rw [hsl] at hc; simp at hc
    have h2 : containsSub key cs = false := by
      cases hcs : containsSub key cs
      · rfl
      · rw [hcs] at hc; simp at hc
    have hnone : step st (c :: cs) = none := by
      cases hstp : step st (c :: cs) with
      | none => rfl
      | some out =>
        have := hstep st (c :: cs) out hstp
        rw [this] at h1
        exact absurd h1 (by simp)
    cases f with
    | zero => rfl
    | succ g =>
      rw [scanSt_cons_none2 step upd g st c cs hnone]
      rw [ih g (upd st c) h2]

theorem startsL_false_of_containsSub_false (pat l : List Char)
    (h : containsSub pat l = false) : ∀ k, startsL pat (l.drop k) = false := by
  intro k
  cases hs : startsL pat (l.drop k)
  · rfl
  · rw [containsSub_of_starts_drop pat l k hs] at h
    exact absurd h (by simp)

theorem containsSub_append_false (pat x y : List Char)
    (hx : ∀ k, k < x.length → startsL pat ((x ++ y).drop k) = false)
    (hy : containsSub pat y = false) : containsSub pat (x ++ y) = false := by
  refine containsSub_false_of_not_starts _ _ (fun k => ?_)
  by_cases hk : k < x.length
  · exact hx k hk
  · rw [show k = x.length + (k - x.length) from by omega, List.drop_append]
    exact startsL_false_of_containsSub_false pat y hy _

theorem findSubIdx_none_of_not_contains (pat l : List Char)
    (h : containsSub pat l = false) : findSubIdx pat l = none := by
  have := containsSub_eq_isSome pat l
  rw [h] at this
  cases e : findSubIdx pat l
  · rfl
  · rw [e] at this
    exact absurd this.symm (by simp)

theorem findCmdVal_none (cmd : List Char) (t : List Char)
    (h : containsSub cmd t = false) : findCmdVal cmd t = none := by
  induction t with
  | nil => rfl
  | cons c cs ih =>
    rw [containsSub_cons] at h
    have h1 : startsL cmd (c :: cs) = false := by
      cases hs : startsL cmd (c :: cs)
      · rfl
      · rw [hs] at h; simp at h
    have h2 : containsSub cmd cs = false := by
      cases hs : containsSub cmd cs
      · rfl
      · rw [hs] at h; simp at h
    rw [findCmdVal]
    rw [if_neg (by rw [h1]; simp)]
    exact ih h2

/-- A backslash-led pattern that cannot start inside the concrete figure
markers and does not occur in the close marker does not occur in a whole
single-figure document with a backslash-free body. -/
theorem containsSub_raw_false (ps : List Char) (B : List Char) (hbB : bslash ∉ B)
    (hcl : allClash (bslash :: ps) tikzBeginTok = true)
    (hend : containsSub (bslash :: ps) tikzEndTok = false) :
    containsSub (bslash :: ps) (tikzBeginTok ++ '\n' :: (B ++ '\n' :: tikzEndTok)) = false := by
  apply containsSub_append_false _ tikzBeginTok _
    (no_starts_within_of_allClash _ _ _ hcl)
  rw [containsSub_cons]
  rw [startsL_cons_head_false bslash '\n' ps _ (by decide)]
  simp only [Bool.false_or]
  apply containsSub_append_false _ B _
    (not_starts_within_of_head_ne bslash ps B _ (fun c hc e => hbB (e ▸ hc)))
  rw [containsSub_cons]
  rw [startsL_cons_head_false bslash '\n' ps _ (by decide)]
  simp only [Bool.false_or]
  exact hend

theorem lstripL_cons_nonws (c : Char) (t : List Char) (h : pyWS c = false) :
    lstripL (c :: t) = c :: t := by
  unfold lstripL
  rw [List.dropWhile_cons]
  simp [h]

theorem rstripL_append_last (l : List Char) (c : Char) (h : pyWS c = false) :
    rstripL (l ++ [c]) = l ++ [c] := by
  unfold rstripL
  rw [List.reverse_append]
  rw [show ([c] : List Char).reverse = [c] from rfl, List.cons_append, List.nil_append]
  rw [List.dropWhile_cons]
  simp [h]

theorem stripL_raw (B : List Char) :
    stripL (tikzBeginTok ++ '\n' :: (B ++ '\n' :: tikzEndTok)) =
      tikzBeginTok ++ '\n' :: (B ++ '\n' :: tikzEndTok) := by
  have hsplit : tikzBeginTok ++ '\n' :: (B ++ '\n' :: tikzEndTok) =
      (tikzBeginTok ++ '\n' :: (B ++ '\n' :: (("\\end\x7btikzpicture").data))) ++ [cbrace] := by
    rw [show tikzEndTok = (("\\end\x7btikzpicture").data) ++ [cbrace] from rfl]
    simp [List.append_assoc]
  have hr : rstripL (tikzBeginTok ++ '\n' :: (B ++ '\n' :: tikzEndTok)) =
      tikzBeginTok ++ '\n' :: (B ++ '\n' :: tikzEndTok) := by
    rw [hsplit, rstripL_append_last _ _ (by decide)]
  unfold stripL
  rw [hr]
  rw [show tikzBeginTok ++ '\n' :: (B ++ '\n' :: tikzEndTok) =
    bslash :: ((("begin\x7btikzpicture\x7d").data) ++ '\n' :: (B ++ '\n' :: tikzEndTok))
    from rfl]
  rw [lstripL_cons_nonws _ _ (by decide)]

theorem splitLinesGo_cons_ne (x : Char) (xs acc : List Char) (hx : x ≠ '\n') :
    splitLinesGo (x :: xs) acc = splitLinesGo xs (x :: acc) := by
  rw [splitLinesGo.eq_def]
  simp [hx]

theorem splitLinesGo_nl_cons (r0 : Char) (rs acc : List Char) :
    splitLinesGo ('\n' :: (r0 :: rs)) acc = acc.reverse :: splitLinesGo (r0 :: rs) [] := rfl

theorem splitLinesGo_no_nl (c : List Char) (h : '\n' ∉ c) :
    ∀ acc, splitLinesGo c acc = [acc.reverse ++ c] := by
  induction c with
  | nil =>
    intro acc
    simp [splitLinesGo]
  | cons x xs ih =>
    intro acc
    have hx : x ≠ '\n' := fun e => h (e ▸ List.mem_cons_self x xs)
    rw [splitLinesGo_cons_ne x xs acc hx]
    rw [ih (fun m => h (List.mem_cons_of_mem x m)) (x :: acc)]
    simp

theorem splitLinesGo_append (a : List Char) (h : '\n' ∉ a) :
    ∀ (acc rest : List Char), rest ≠ [] →
      splitLinesGo (a ++ '\n' :: rest) acc = (acc.reverse ++ a) :: splitLinesGo rest [] := by
  induction a with
  | nil =>
    intro acc rest hr
    obtain ⟨r0, rs, rfl⟩ : ∃ r0 rs, rest = r0 :: rs := by
      cases rest with
      | nil => exact absurd rfl hr
      | cons p q => exact ⟨p, q, rfl⟩
    rw [List.nil_append, splitLinesGo_nl_cons]
    simp
  | cons x xs ih =>
    intro acc rest hr
    have hx : x ≠ '\n' := fun e => h (e ▸ List.mem_cons_self x xs)
    rw [List.cons_append, splitLinesGo_cons_ne x _ acc hx]
    rw [ih (fun m => h (List.mem_cons_of_mem x m)) (x :: acc) rest hr]
    simp

theorem splitLinesL_raw (B : List Char) (hnB : '\n' ∉ B) :
    splitLinesL (tikzBeginTok ++ '\n' :: (B ++ '\n' :: tikzEndTok)) =
      [tikzBeginTok, B, tikzEndTok] := by
  show splitLinesGo (tikzBeginTok ++ '\n' :: (B ++ '\n' :: tikzEndTok)) [] =
    [tikzBeginTok, B, tikzEndTok]
  rw [splitLinesGo_append tikzBeginTok (by decide) [] _ (by simp)]
  rw [splitLinesGo_append B hnB [] tikzEndTok (by decide)]
  rw [splitLinesGo_no_nl tikzEndTok (by decide) []]
  simp

theorem render_tikz_absent (cfg : Cfg) (fs : List (List Char)) (t p b : List Char)
    (hpdf : cfg.pdflatex = false) : render_tikz_to_png cfg fs t p b = (none, fs, 0) := by
  unfold render_tikz_to_png
  rw [if_pos (by simp [hpdf])]

theorem mathPassBr_id2 (t : List Char) (h : containsSub [bslash, '['] t = false) :
    mathPassBr t = t := by
  unfold mathPassBr
  rw [scanSt_keep_id stepDispBr [bslash, '['] stepDispBr_starts t t.length () h]

theorem mathPassDD_id (t : List Char) (h : containsSub ['$', '$'] t = false) :
    mathPassDD t = t := by
  unfold mathPassDD
  rw [scanSt_keep_id stepDollarDollar ['$', '$'] stepDollarDollar_starts t t.length () h]

theorem mathPassInline_id (t : List Char) (h : containsSub ['$'] t = false) :
    mathPassInline t = t := by
  unfold mathPassInline
  rw [scanSt_fst_id stepInline (fun _ c => some c) ['$'] stepInline_starts t t.length none h]

theorem convert_math_id (t : List Char) (hD : '$' ∉ t)
    (hBr : containsSub [bslash, '['] t = false) : convert_math_to_canvas t = t := by
  unfold convert_math_to_canvas
  rw [mathPassDD_id t (containsSub_false_of_head_not_mem _ _ _ hD)]
  rw [mathPassBr_id2 t hBr]
  rw [mathPassInline_id t (containsSub_false_of_head_not_mem _ _ _ hD)]

theorem replaceBr_id (t : List Char) (h : containsSub [bslash, bslash] t = false) :
    replaceBr t = t := by
  unfold replaceBr
  rw [runSub_id _ _ (stepLit_starts _ _) _ _ h]

theorem isBlockTag_false_head (c : Char) (t : List Char) (h1 : c ≠ '<') :
    isBlockTag (c :: t) = false := by
  have e : ∀ ps, startsL ('<' :: ps) (c :: t) = false := fun ps =>
    startsL_cons_head_false '<' c ps t (Ne.symm h1)
  unfold isBlockTag
  rw [show (("<h").data) = '<' :: (("h").data) from rfl,
    show (("<img").data) = '<' :: (("img").data) from rfl,
    show (("<blockquote").data) = '<' :: (("blockquote").data) from rfl,
    show (("<ul").data) = '<' :: (("ul").data) from rfl,
    show (("<ol").data) = '<' :: (("ol").data) from rfl,
    show (("<div").data) = '<' :: (("div").data) from rfl,
    show (("<li").data) = '<' :: (("li").data) from rfl,
    show (("</ol").data) = '<' :: (("/ol").data) from rfl,
    show (("</ul").data) = '<' :: (("/ul").data) from rfl,
    show (("<p><img class=\x22equation_image\x22").data)
      = '<' :: (("p><img class=\x22equation_image\x22").data) from rfl]
  simp only [e]
  rfl

/-! ## Single-figure document without a toolchain -/

theorem tikzCollect_raw (B : List Char) (hbB : bslash ∉ B) (hpB : '%' ∉ B)
    (hrB : rstripL B = B) (pa : Option (List Char)) :
    tikzCollect pa [tikzBeginTok] [B, tikzEndTok] =
      ([tikzBeginTok, B, tikzEndTok], pa, []) := by
  have h1 : containsSub tikzEndTok B = false := by
    rw [show tikzEndTok = bslash :: (("end\x7btikzpicture\x7d").data) from rfl]
    exact containsSub_false_of_head_not_mem _ _ _ hbB
  rw [tikzCollect.eq_def]
  simp only [split_unescaped_percent_id B hpB, updAlt_none, hrB, h1, Bool.false_eq_true,
    if_false]
  rw [tikzCollect.eq_def]
  simp only [show split_unescaped_percent tikzEndTok = (tikzEndTok, none) from by decide,
    updAlt_none, show rstripL tikzEndTok = tikzEndTok from by decide,
    show containsSub tikzEndTok tikzEndTok = true from by decide, if_true]
  simp

theorem tikzBranch_absent (cfg : Cfg) (p : List Char) (fs0 : List (List Char)) (B : List Char)
    (hpdf : cfg.pdflatex = false) (hbB : bslash ∉ B) (hpB : '%' ∉ B) (hrB : rstripL B = B) :
    tikzBranch cfg p (initSt fs0) tikzBeginTok [B, tikzEndTok] =
      ({ outRev := [[], tikzBeginTok ++ '\n' :: (B ++ '\n' :: tikzEndTok)], fs := fs0,
         pa := none, subsec := 0, stack := [], openLi := [], tikzN := 1, calls := 0 }, []) := by
  have hcol := tikzCollect_raw B hbB hpB hrB none
  unfold tikzBranch
  simp only [initSt, show containsSub tikzEndTok tikzBeginTok = false from by decide,
    Bool.false_eq_true, if_false,
    show (findSubIdx tikzBeginTok tikzBeginTok).getD 0 = 0 from by decide,
    List.drop_zero, hcol,
    show joinNL [tikzBeginTok, B, tikzEndTok] =
      tikzBeginTok ++ '\n' :: (B ++ '\n' :: tikzEndTok) from rfl,
    stripL_raw B, render_tikz_absent cfg fs0 _ p _ hpdf]
  rfl

theorem convertScan_raw (cfg : Cfg) (fs0 : List (List Char)) (B : List Char)
    (hpdf : cfg.pdflatex = false) (hnB : '\n' ∉ B) (hbB : bslash ∉ B) (hpB : '%' ∉ B)
    (hrB : rstripL B = B) :
    convertScan cfg fs0 (tikzBeginTok ++ '\n' :: (B ++ '\n' :: tikzEndTok)) =
      { outRev := [[], tikzBeginTok ++ '\n' :: (B ++ '\n' :: tikzEndTok)], fs := fs0,
        pa := none, subsec := 0, stack := [], openLi := [], tikzN := 1, calls := 0 } := by
  have hbody : extract_body (tikzBeginTok ++ '\n' :: (B ++ '\n' :: tikzEndTok)) =
      tikzBeginTok ++ '\n' :: (B ++ '\n' :: tikzEndTok) := by
    have hc1 : containsSub beginDocTok
        (tikzBeginTok ++ '\n' :: (B ++ '\n' :: tikzEndTok)) = false := by
      rw [show beginDocTok = bslash :: (("begin\x7bdocument\x7d").data) from rfl]
      exact containsSub_raw_false _ B hbB (by decide) (by decide)
    unfold extract_body
    rw [findSubIdx_none_of_not_contains beginDocTok _ hc1]
  unfold convertScan
  rw [hbody, splitLinesL_raw B hnB]
  simp only [show ([tikzBeginTok, B, tikzEndTok] : List (List Char)).length = 2 + 1 from rfl]
  rw [scanGo_cons_tikz cfg _ 2 (initSt fs0) tikzBeginTok [B, tikzEndTok] (by decide)
    (by decide) (by decide)]
  rw [tikzBranch_absent cfg _ fs0 B hpdf hbB hpB hrB]
  rfl

theorem groupGo_cons_nonblank (curr : List (List Char)) (l : List Char)
    (ls : List (List Char))
    (h : stripL l ≠ []) : groupGo curr (l :: ls) = groupGo (l :: curr) ls := by
  rw [groupGo.eq_def]
  simp [h]

theorem groupGo_cons_blank_emit (curr : List (List Char)) (l : List Char)
    (ls : List (List Char))
    (hl : stripL l = []) (hc : curr ≠ []) :
    groupGo curr (l :: ls) = stripL (joinNL curr.reverse) :: groupGo [] ls := by
  rw [groupGo.eq_def]
  simp [hl, hc]

/-- C7: with no rendering toolchain reachable, converting a single-figure
document yields the full HTML shell around a paragraph holding the
figure's literal source text, with the output directory untouched and no
external invocations; the raw figure source appears verbatim in the
returned document. -/
theorem C7_figure_fallback (cfg : Cfg) (fs0 : List (List Char)) (B : List Char)
    (hpdf : cfg.pdflatex = false) (hnB : '\n' ∉ B) (hbB : bslash ∉ B) (hpB : '%' ∉ B)
    (hdB : '$' ∉ B) (hrB : rstripL B = B) :
    convert_tex_to_html cfg fs0 (tikzBeginTok ++ '\n' :: (B ++ '\n' :: tikzEndTok)) =
      shellA ++ cfg.stem ++ shellB
        ++ (("<p>").data ++ (tikzBeginTok ++ '\n' :: (B ++ '\n' :: tikzEndTok))
          ++ ("</p>").data) ++ shellC ∧
    (convertScan cfg fs0 (tikzBeginTok ++ '\n' :: (B ++ '\n' :: tikzEndTok))).fs = fs0 ∧
    (convertScan cfg fs0 (tikzBeginTok ++ '\n' :: (B ++ '\n' :: tikzEndTok))).calls = 0 := by
  have hscan := convertScan_raw cfg fs0 B hpdf hnB hbB hpB hrB
  have hD : '$' ∉ tikzBeginTok ++ '\n' :: (B ++ '\n' :: tikzEndTok) := by
    intro hm
    rcases List.mem_append.mp hm with h | h
    · exact absurd h (by decide)
    · rcases List.mem_cons.mp h with h | h
      · exact absurd h (by decide)
      · rcases List.mem_append.mp h with h | h
        · exact hdB h
        · rcases List.mem_cons.mp h with h | h
          · exact absurd h (by decide)
          · exact absurd h (by decide)
  have hraw_ne : tikzBeginTok ++ '\n' :: (B ++ '\n' :: tikzEndTok) ≠ [] := by
    rw [show tikzBeginTok ++ '\n' :: (B ++ '\n' :: tikzEndTok) =
      bslash :: ((("begin\x7btikzpicture\x7d").data) ++ '\n' :: (B ++ '\n' :: tikzEndTok))
      from rfl]
    simp
  have hrb : renderBlock (tikzBeginTok ++ '\n' :: (B ++ '\n' :: tikzEndTok)) =
      some (("<p>").data ++ (tikzBeginTok ++ '\n' :: (B ++ '\n' :: tikzEndTok))
        ++ ("</p>").data) := by
    have hBr : containsSub [bslash, '[']
        (tikzBeginTok ++ '\n' :: (B ++ '\n' :: tikzEndTok)) = false :=
      containsSub_raw_false ['['] B hbB (by decide) (by decide)
    have hBB : containsSub [bslash, bslash]
        (tikzBeginTok ++ '\n' :: (B ++ '\n' :: tikzEndTok)) = false :=
      containsSub_raw_false [bslash] B hbB (by decide) (by decide)
    have hbt : isBlockTag (tikzBeginTok ++ '\n' :: (B ++ '\n' :: tikzEndTok)) = false := by
      rw [show tikzBeginTok ++ '\n' :: (B ++ '\n' :: tikzEndTok) =
        bslash :: ((("begin\x7btikzpicture\x7d").data) ++ '\n' :: (B ++ '\n' :: tikzEndTok))
        from rfl]
      exact isBlockTag_false_head _ _ (by decide)
    unfold renderBlock
    dsimp only
    rw [convert_math_id _ hD hBr, stripL_raw B]
    rw [if_neg hraw_ne]
    rw [if_neg (by rw [hbt]; simp)]
    rw [replaceBr_id _ hBB]
  have hta : extract_title_author (tikzBeginTok ++ '\n' :: (B ++ '\n' :: tikzEndTok)) =
      (none, none) := by
    have ht : containsSub (("\\title\x7b").data)
        (tikzBeginTok ++ '\n' :: (B ++ '\n' :: tikzEndTok)) = false := by
      rw [show (("\\title\x7b").data) = bslash :: (("title\x7b").data) from rfl]
      exact containsSub_raw_false _ B hbB (by decide) (by decide)
    have ha : containsSub (("\\author\x7b").data)
        (tikzBeginTok ++ '\n' :: (B ++ '\n' :: tikzEndTok)) = false := by
      rw [show (("\\author\x7b").data) = bslash :: (("author\x7b").data) from rfl]
      exact containsSub_raw_false _ B hbB (by decide) (by decide)
    unfold extract_title_author
    rw [findCmdVal_none _ _ ht, findCmdVal_none _ _ ha]
  have hgb : groupBlocks [tikzBeginTok ++ '\n' :: (B ++ '\n' :: tikzEndTok), []] =
      [tikzBeginTok ++ '\n' :: (B ++ '\n' :: tikzEndTok)] := by
    unfold groupBlocks
    rw [groupGo_cons_nonblank [] _ _ (by rw [stripL_raw B]; exact hraw_ne)]
    rw [groupGo_cons_blank_emit _ _ _ (by decide) (by simp)]
    simp only [List.reverse_cons, List.reverse_nil, List.nil_append,
      show joinNL [tikzBeginTok ++ '\n' :: (B ++ '\n' :: tikzEndTok)] =
        tikzBeginTok ++ '\n' :: (B ++ '\n' :: tikzEndTok) from rfl,
      stripL_raw B,
      show (groupGo [] [] : List (List Char)) = [] from rfl]
  refine ⟨?_, by rw [hscan], by rw [hscan]⟩
  unfold convert_tex_to_html
  rw [hscan, hta]
  simp only [pyTruthy, Bool.false_eq_true, if_false]
  rw [show (([[], tikzBeginTok ++ '\n' :: (B ++ '\n' :: tikzEndTok)] : List (List Char))).reverse
    = [tikzBeginTok ++ '\n' :: (B ++ '\n' :: tikzEndTok), []] from by simp]
  rw [hgb]
  rw [show List.filterMap renderBlock [tikzBeginTok ++ '\n' :: (B ++ '\n' :: tikzEndTok)] =
    [("<p>").data ++ (tikzBeginTok ++ '\n' :: (B ++ '\n' :: tikzEndTok)) ++ ("</p>").data]
    from by rw [List.filterMap_cons, hrb]; rfl]
  rfl

/-- C7 witness: the fallback behaviour at a concrete figure document and
an absent toolchain. -/
theorem C7_figure_fallback_witness :
    (convert_tex_to_html cfgAbsent [] (tikzBeginTok ++ '\n' :: ((("x").data) ++ '\n' :: tikzEndTok)) =
      shellA ++ cfgAbsent.stem ++ shellB
        ++ (("<p>").data ++ (tikzBeginTok ++ '\n' :: ((("x").data) ++ '\n' :: tikzEndTok))
          ++ ("</p>").data) ++ shellC ∧
    (convertScan cfgAbsent [] (tikzBeginTok ++ '\n' :: ((("x").data) ++ '\n' :: tikzEndTok))).fs = [] ∧
    (convertScan cfgAbsent [] (tikzBeginTok ++ '\n' :: ((("x").data) ++ '\n' :: tikzEndTok))).calls = 0) :=
  C7_figure_fallback cfgAbsent [] (("x").data) rfl (by decide) (by decide) (by decide)
    (by decide) (by decide)

/-! ## List-balance support lemmas -/

theorem dropWhile_fix_head (p : Char → Bool) (c : Char) (cs : List Char)
    (h : (c :: cs).dropWhile p = c :: cs) : p c = false := by
  by_cases hc : p c = true
  · rw [List.dropWhile_cons, if_pos hc] at h
    have hlen := congrArg List.length h
    have hle := (List.dropWhile_sublist p (l := cs)).length_le
    simp only [List.length_cons] at hlen
    omega
  · exact eq_false_of_ne_true hc

theorem strip_fix_parts (t : List Char) (h : stripL t = t) :
    lstripL t = t ∧ rstripL t = t := by
  have hr_le : (rstripL t).length ≤ t.length := by
    calc (rstripL t).length = (t.reverse.dropWhile pyWS).length := by simp [rstripL]
      _ ≤ t.reverse.length := (List.dropWhile_sublist pyWS).length_le
      _ = t.length := by simp
  have hlen : t.length ≤ (rstripL t).length := by
    have h2 : t.length = (lstripL (rstripL t)).length := by
      conv_lhs => rw [← h]
      rfl
    rw [h2]
    exact (List.dropWhile_sublist pyWS).length_le
  have hreq : (t.reverse.dropWhile pyWS).length = t.reverse.length := by
    have e1 : (rstripL t).length = (t.reverse.dropWhile pyWS).length := by simp [rstripL]
    have := le_antisymm hr_le hlen
    rw [e1] at this
    simp only [List.length_reverse]
    omega
  have hr : rstripL t = t := by
    have := (List.dropWhile_sublist pyWS (l := t.reverse)).eq_of_length hreq
    unfold rstripL
    rw [this, List.reverse_reverse]
  refine ⟨?_, hr⟩
  have h2 := h
  unfold stripL at h2
  rw [hr] at h2
  exact h2

theorem rstripL_append_fix (a t : List Char) (ht : rstripL t = t) (hne : t ≠ []) :
    rstripL (a ++ t) = a ++ t := by
  obtain ⟨c, cs, hrev⟩ : ∃ c cs, t.reverse = c :: cs := by
    cases e : t.reverse with
    | nil => exact absurd (by simpa using congrArg List.reverse e) hne
    | cons x y => exact ⟨x, y, rfl⟩
  have hdw : t.reverse.dropWhile pyWS = t.reverse := by
    have h1 : (t.reverse.dropWhile pyWS).reverse = t := ht
    have h2 := congrArg List.reverse h1
    simpa using h2
  have hc : pyWS c = false := dropWhile_fix_head pyWS c cs (by rw [← hrev]; exact hdw)
  unfold rstripL
  rw [List.reverse_append, hrev]
  rw [List.cons_append]
  rw [List.dropWhile_cons, if_neg (by simp [hc])]
  rw [← List.cons_append, ← hrev, ← List.reverse_append, List.reverse_reverse]

theorem matchBeginList_none_of_heads (l : List Char)
    (h1 : startsL (("\\begin\x7bitemize\x7d").data) (l.dropWhile pyWS) = false)
    (h2 : startsL (("\\begin\x7benumerate\x7d").data) (l.dropWhile pyWS) = false) :
    matchBeginList l = none := by
  unfold matchBeginList
  simp only [h1, h2, Bool.false_eq_true, if_false]

theorem matchEndList_none_of_heads (l : List Char)
    (h1 : startsL (("\\end\x7bitemize\x7d").data) (l.dropWhile pyWS) = false)
    (h2 : startsL (("\\end\x7benumerate\x7d").data) (l.dropWhile pyWS) = false) :
    matchEndList l = none := by
  unfold matchEndList
  simp only [h1, h2, Bool.false_eq_true, if_false]

theorem envSearch_none_of_not_contains (l : List Char)
    (h1 : containsSub (("\\begin\x7bequation*\x7d").data) l = false)
    (h2 : containsSub (("\\begin\x7bequation\x7d").data) l = false)
    (h3 : containsSub (("\\begin\x7bcases\x7d").data) l = false)
    (h4 : containsSub (("\\begin\x7barray\x7d").data) l = false) :
    envSearch l = none := by
  induction l with
  | nil => rfl
  | cons c cs ih =>
    rw [containsSub_cons] at h1 h2 h3 h4
    have k1 : startsL (("\\begin\x7bequation*\x7d").data) (c :: cs) = false := by
      cases e : startsL (("\\begin\x7bequation*\x7d").data) (c :: cs)
      · rfl
      · rw [e] at h1; simp at h1
    have k2 : startsL (("\\begin\x7bequation\x7d").data) (c :: cs) = false := by
      cases e : startsL (("\\begin\x7bequation\x7d").data) (c :: cs)
      · rfl
      · rw [e] at h2; simp at h2
    have k3 : startsL (("\\begin\x7bcases\x7d").data) (c :: cs) = false := by
      cases e : startsL (("\\begin\x7bcases\x7d").data) (c :: cs)
      · rfl
      · rw [e] at h3; simp at h3
    have k4 : startsL (("\\begin\x7barray\x7d").data) (c :: cs) = false := by
      cases e : startsL (("\\begin\x7barray\x7d").data) (c :: cs)
      · rfl
      · rw [e] at h4; simp at h4
    have t1 : containsSub (("\\begin\x7bequation*\x7d").data) cs = false := by
      cases e : containsSub (("\\begin\x7bequation*\x7d").data) cs
      · rfl
      · rw [e] at h1; simp at h1
    have t2 : containsSub (("\\begin\x7bequation\x7d").data) cs = false := by
      cases e : containsSub (("\\begin\x7bequation\x7d").data) cs
      · rfl
      · rw [e] at h2; simp at h2
    have t3 : containsSub (("\\begin\x7bcases\x7d").data) cs = false := by
      cases e : containsSub (("\\begin\x7bcases\x7d").data) cs
      · rfl
      · rw [e] at h3; simp at h3
    have t4 : containsSub (("\\begin\x7barray\x7d").data) cs = false := by
      cases e : containsSub (("\\begin\x7barray\x7d").data) cs
      · rfl
      · rw [e] at h4; simp at h4
    rw [envSearch]
    simp only [k1, k2, k3, k4, Bool.false_eq_true, if_false]
    exact ih t1 t2 t3 t4

/-- A backslash-led pattern absent from a line built from the item marker
and a backslash-free tail. -/
theorem containsSub_item_false (ps t : List Char) (hbt : bslash ∉ t)
    (hcl : allClash (bslash :: ps) (("\\item ").data) = true) :
    containsSub (bslash :: ps) ((("\\item ").data) ++ t) = false := by
  apply containsSub_append_false _ _ _ (no_starts_within_of_allClash _ _ _ hcl)
  exact containsSub_false_of_head_not_mem _ _ _ hbt

theorem noAdjLi_cons2 (x : List Char) (l : List (List Char)) (h : noAdjLi l = true)
    (hp : (startsL (("<li").data) x &&
      (match l.head? with
       | some y => startsL (("<li").data) y
       | none => false)) = false) : noAdjLi (x :: l) = true := by
  cases l with
  | nil => rfl
  | cons y t =>
    simp only [List.head?_cons] at hp
    rw [show noAdjLi (x :: y :: t) =
      (!(startsL (("<li").data) x && startsL (("<li").data) y) && noAdjLi (y :: t)) from rfl]
    rw [hp, h]
    rfl

theorem cntEq_cons (x a : List Char) (out : List (List Char)) :
    cntEq x (a :: out) = cntEq x out + (if a = x then 1 else 0) := by
  simp [cntEq, List.countP_cons]

theorem li_line_ne_ul (t : List Char) : (("<li>").data) ++ t ≠ ("<ul>").data := by
  intro he
  rw [show (("<li>").data) ++ t = '<' :: 'l' :: 'i' :: '>' :: t from rfl] at he
  simp at he

theorem li_line_ne_cul (t : List Char) : (("<li>").data) ++ t ≠ ("</ul>").data := by
  intro he
  rw [show (("<li>").data) ++ t = '<' :: 'l' :: 'i' :: '>' :: t from rfl] at he
  simp at he

theorem li_line_ne_ol (t : List Char) : (("<li>").data) ++ t ≠ ("<ol>").data := by
  intro he
  rw [show (("<li>").data) ++ t = '<' :: 'l' :: 'i' :: '>' :: t from rfl] at he
  simp at he

theorem li_line_ne_col (t : List Char) : (("<li>").data) ++ t ≠ ("</ol>").data := by
  intro he
  rw [show (("<li>").data) ++ t = '<' :: 'l' :: 'i' :: '>' :: t from rfl] at he
  simp at he

theorem cntOpen_cons_open (k k' : Bool) (ts : List LTok) :
    cntOpen k (.lopen k' :: ts) = cntOpen k ts + (if k' = k then 1 else 0) := by
  simp [cntOpen, List.countP_cons]

theorem cntOpen_cons_close (k k' : Bool) (ts : List LTok) :
    cntOpen k (.lclose k' :: ts) = cntOpen k ts := by
  simp [cntOpen, List.countP_cons]

theorem cntOpen_cons_item (k : Bool) (t : List Char) (ts : List LTok) :
    cntOpen k (.litem t :: ts) = cntOpen k ts := by
  simp [cntOpen, List.countP_cons]

theorem cntOpen_cons_plain (k : Bool) (l : List Char) (ts : List LTok) :
    cntOpen k (.lplain l :: ts) = cntOpen k ts := by
  simp [cntOpen, List.countP_cons]

theorem cntClose_cons_open (k k' : Bool) (ts : List LTok) :
    cntClose k (.lopen k' :: ts) = cntClose k ts := by
  simp [cntClose, List.countP_cons]

theorem cntClose_cons_close (k k' : Bool) (ts : List LTok) :
    cntClose k (.lclose k' :: ts) = cntClose k ts + (if k' = k then 1 else 0) := by
  simp [cntClose, List.countP_cons]

theorem cntClose_cons_item (k : Bool) (t : List Char) (ts : List LTok) :
    cntClose k (.litem t :: ts) = cntClose k ts := by
  simp [cntClose, List.countP_cons]

theorem cntClose_cons_plain (k : Bool) (l : List Char) (ts : List LTok) :
    cntClose k (.lplain l :: ts) = cntClose k ts := by
  simp [cntClose, List.countP_cons]

theorem cntB_cons (k b : Bool) (stk : List Bool) :
    cntB k (b :: stk) = cntB k stk + (if b = k then 1 else 0) := by
  simp [cntB, List.countP_cons]

theorem balance_count : ∀ (toks : List LTok) (stk stk' : List Bool),
    balRun stk toks = some stk' →
    ∀ k, cntOpen k toks + cntB k stk = cntClose k toks + cntB k stk' := by
  intro toks
  induction toks with
  | nil =>
    intro stk stk' h k
    have : stk = stk' := by
      have h2 : (some stk : Option (List Bool)) = some stk' := h
      exact Option.some.inj h2
    subst this
    simp [cntOpen, cntClose]
  | cons t ts ih =>
    intro stk stk' h k
    cases t with
    | lopen k' =>
      have hstep : balRun stk (LTok.lopen k' :: ts) = balRun (k' :: stk) ts := rfl
      rw [hstep] at h
      have := ih (k' :: stk) stk' h k
      rw [cntB_cons] at this
      rw [cntOpen_cons_open, cntClose_cons_open]
      omega
    | lclose k' =>
      cases stk with
      | nil =>
        have hstep : balRun ([] : List Bool) (LTok.lclose k' :: ts) = none := rfl
        rw [hstep] at h
        exact absurd h (by simp)
      | cons b r =>
        have hstep : balRun (b :: r) (LTok.lclose k' :: ts) =
            (if b = k' then balRun r ts else none) := rfl
        rw [hstep] at h
        by_cases hb : b = k'
        · rw [if_pos hb] at h
          have := ih r stk' h k
          rw [cntOpen_cons_close, cntClose_cons_close, cntB_cons]
          subst hb
          omega
        · rw [if_neg hb] at h
          exact absurd h (by simp)
    | litem t' =>
      cases stk with
      | nil =>
        have hstep : balRun ([] : List Bool) (LTok.litem t' :: ts) = none := rfl
        rw [hstep] at h
        exact absurd h (by simp)
      | cons b r =>
        have hstep : balRun (b :: r) (LTok.litem t' :: ts) = balRun (b :: r) ts := by
          show (if (b :: r : List Bool) = [] then none else balRun (b :: r) ts) =
            balRun (b :: r) ts
          rw [if_neg (by simp)]
        rw [hstep] at h
        have := ih (b :: r) stk' h k
        rw [cntOpen_cons_item, cntClose_cons_item]
        omega
    | lplain l =>
      have hstep : balRun stk (LTok.lplain l :: ts) = balRun stk ts := rfl
      rw [hstep] at h
      have := ih stk stk' h k
      rw [cntOpen_cons_plain, cntClose_cons_plain]
      omega

/-! ## Token-level scanner steps for the list-balance claim -/

theorem popList_fields (st : St) (k : Bool) (r : List Bool) (b : Bool) (os : List Bool)
    (hstk : st.stack = (k :: r).map tagOf) (hol : st.openLi = b :: os) :
    (popList st).stack = r.map tagOf ∧ (popList st).openLi = os ∧
    (popList st).outRev = ((("</").data ++ tagOf k ++ [('>' : Char)]) ::
      (if b = true then (("</li>").data) :: st.outRev else st.outRev)) := by
  cases b with
  | true => refine ⟨?_, ?_, ?_⟩ <;> simp [popList, hol, hstk, emit]
  | false => refine ⟨?_, ?_, ?_⟩ <;> simp [popList, hol, hstk, emit]

theorem itemTextOk_parts (t : List Char) (hok : itemTextOk t = true) :
    t ≠ [] ∧ stripL t = t ∧ bslash ∉ t ∧ '%' ∉ t ∧
      startsL (("<li").data) t = false := by
  unfold itemTextOk at hok
  simp only [Bool.and_eq_true, decide_eq_true_eq, Bool.not_eq_true'] at hok
  exact ⟨hok.1.1.1.1, hok.1.1.1.2, hok.1.1.2, hok.1.2, hok.2⟩

theorem plainLineOk_parts (l : List Char) (hok : plainLineOk l = true) :
    l ≠ [] ∧ stripL l = l ∧ bslash ∉ l ∧ '%' ∉ l ∧
      startsL (("<li").data) l = false ∧ l ≠ ("<ul>").data ∧ l ≠ ("</ul>").data ∧
      l ≠ ("<ol>").data ∧ l ≠ ("</ol>").data ∧ l ≠ ("</li>").data := by
  unfold plainLineOk at hok
  simp only [Bool.and_eq_true, decide_eq_true_eq, Bool.not_eq_true'] at hok
  exact ⟨hok.1.1.1.1.1.1.1.1.1, hok.1.1.1.1.1.1.1.1.2, hok.1.1.1.1.1.1.1.2,
    hok.1.1.1.1.1.1.2, hok.1.1.1.1.1.2, hok.1.1.1.1.2, hok.1.1.1.2, hok.1.1.2,
    hok.1.2, hok.2⟩

theorem matchItemTrim_item (t : List Char) (hl : lstripL t = t) :
    matchItemTrim ((("\\item ").data) ++ t) = some t := by
  have hdw : ((("\\item ").data) ++ t).dropWhile pyWS = (("\\item ").data) ++ t := by
    rw [show (("\\item ").data) ++ t = bslash :: ((("item ").data) ++ t) from rfl]
    rw [List.dropWhile_cons, if_neg (by decide)]
  unfold matchItemTrim
  rw [hdw]
  rw [show (("\\item ").data) ++ t = (("\\item").data) ++ (' ' :: t) from rfl]
  rw [if_pos (startsL_append_self _ _)]
  simp only [show ((("\\item").data) ++ (' ' :: t)).drop 5 = ' ' :: t from rfl,
    List.head?_cons, show wordChar ' ' = false from rfl, Bool.false_eq_true, if_false,
    show (' ' :: t).dropWhile pyWS = t.dropWhile pyWS from by
      rw [List.dropWhile_cons, if_pos (by decide)]]
  rw [show t.dropWhile pyWS = lstripL t from rfl, hl]

set_option maxHeartbeats 2000000 in
theorem itemBranch_fields (cfg : Cfg) (st : St) (t : List Char) (b : Bool) (os : List Bool)
    (hol : st.openLi = b :: os) (hok : itemTextOk t = true) :
    (itemBranch cfg st ((("\\item ").data) ++ t)).stack = st.stack ∧
    (itemBranch cfg st ((("\\item ").data) ++ t)).openLi = true :: os ∧
    (itemBranch cfg st ((("\\item ").data) ++ t)).outRev =
      (((("<li>").data) ++ t) ::
        (if b = true then (("</li>").data) :: st.outRev else st.outRev)) := by
  obtain ⟨hne, hstrip, hbs, _, _⟩ := itemTextOk_parts t hok
  obtain ⟨hlf, _⟩ := strip_fix_parts t hstrip
  have hmit : matchItemTrim ('\\' :: 'i' :: 't' :: 'e' :: 'm' :: ' ' :: t) = some t :=
    matchItemTrim_item t hlf
  have he1 := sub_emph_id t (containsSub_false_of_head_not_mem _ _ _ hbs)
  have he2 := sub_textbf_id t (containsSub_false_of_head_not_mem _ _ _ hbs)
  have he3 := sub_bf_id t (containsSub_false_of_noPair _ _ _ _
    (noPair_of_not_mem_snd obrace bslash t hbs))
  have he4 := sub_include_id cfg.dirFiles st.pa t
    (containsSub_false_of_head_not_mem _ _ _ hbs)
  cases b with
  | true =>
    refine ⟨?_, ?_, ?_⟩ <;>
      simp [itemBranch, hmit, hstrip, hne, he1, he2, he3, he4, hol, emit, setTopOpen]
  | false =>
    refine ⟨?_, ?_, ?_⟩ <;>
      simp [itemBranch, hmit, hstrip, hne, he1, he2, he3, he4, hol, emit, setTopOpen]

theorem scanGo_cons_openTok (cfg : Cfg) (p : List Char) (f : Nat) (st : St) (k : Bool)
    (rest : List (List Char)) :
    scanGo cfg p (f + 1) st (tokLine (.lopen k) :: rest) =
      scanGo cfg p f (pushList st (tagOf k)) rest := by
  cases k with
  | true =>
    exact scanGo_cons_beginList cfg p f st _ _ rest (by decide) (by decide) (by decide)
      (by decide) (by decide) (by decide) (by decide) (by decide)
  | false =>
    exact scanGo_cons_beginList cfg p f st _ _ rest (by decide) (by decide) (by decide)
      (by decide) (by decide) (by decide) (by decide) (by decide)

theorem scanGo_cons_closeTok (cfg : Cfg) (p : List Char) (f : Nat) (st : St) (k : Bool)
    (rest : List (List Char)) (hst : st.stack ≠ []) :
    scanGo cfg p (f + 1) st (tokLine (.lclose k) :: rest) =
      scanGo cfg p f (popList st) rest := by
  cases k with
  | true =>
    exact scanGo_cons_endPop cfg p f st _ (("ul").data) rest (by decide) (by decide)
      (by decide) (by decide) (by decide) (by decide) (by decide) (by decide) (by decide) hst
  | false =>
    exact scanGo_cons_endPop cfg p f st _ (("ol").data) rest (by decide) (by decide)
      (by decide) (by decide) (by decide) (by decide) (by decide) (by decide) (by decide) hst

theorem scanGo_cons_itemTok (cfg : Cfg) (p : List Char) (f : Nat) (st : St) (t : List Char)
    (rest : List (List Char)) (hok : itemTextOk t = true) (hst : st.stack ≠ []) :
    scanGo cfg p (f + 1) st (((("\\item ").data) ++ t) :: rest) =
      scanGo cfg p f (itemBranch cfg st ((("\\item ").data) ++ t)) rest := by
  obtain ⟨hne, hstrip, hbs, hpc, _⟩ := itemTextOk_parts t hok
  obtain ⟨hlf, hrf⟩ := strip_fix_parts t hstrip
  have hpcl : '%' ∉ (("\\item ").data) ++ t := by
    intro hm
    rcases List.mem_append.mp hm with h | h
    · exact absurd h (by decide)
    · exact hpc h
  have hsplit := split_unescaped_percent_id _ hpcl
  have hrstrip := rstripL_append_fix (("\\item ").data) t hrf hne
  have h1 : containsSub tikzBeginTok ((("\\item ").data) ++ t) = false := by
    rw [show tikzBeginTok = bslash :: (("begin\x7btikzpicture\x7d").data) from rfl]
    exact containsSub_item_false _ t hbs (by decide)
  have h2 : containsSub eqnarrayBeginTok ((("\\item ").data) ++ t) = false := by
    rw [show eqnarrayBeginTok = bslash :: (("begin\x7beqnarray\x7d").data) from rfl]
    exact containsSub_item_false _ t hbs (by decide)
  have h3 : envSearch ((("\\item ").data) ++ t) = none := by
    refine envSearch_none_of_not_contains _ ?_ ?_ ?_ ?_
    · rw [show (("\\begin\x7bequation*\x7d").data) = bslash :: (("begin\x7bequation*\x7d").data)
        from rfl]
      exact containsSub_item_false _ t hbs (by decide)
    · rw [show (("\\begin\x7bequation\x7d").data) = bslash :: (("begin\x7bequation\x7d").data)
        from rfl]
      exact containsSub_item_false _ t hbs (by decide)
    · rw [show (("\\begin\x7bcases\x7d").data) = bslash :: (("begin\x7bcases\x7d").data) from rfl]
      exact containsSub_item_false _ t hbs (by decide)
    · rw [show (("\\begin\x7barray\x7d").data) = bslash :: (("begin\x7barray\x7d").data) from rfl]
      exact containsSub_item_false _ t hbs (by decide)
  have h4 : (("\\item ").data) ++ t ≠ [] := by
    rw [show (("\\item ").data) ++ t = bslash :: ((("item ").data) ++ t) from rfl]
    simp
  have h5 : containsSub (("\\section\x7b").data) ((("\\item ").data) ++ t) = false := by
    rw [show (("\\section\x7b").data) = bslash :: (("section\x7b").data) from rfl]
    exact containsSub_item_false _ t hbs (by decide)
  have hdw : ((("\\item ").data) ++ t).dropWhile pyWS = (("\\item ").data) ++ t := by
    rw [show (("\\item ").data) ++ t = bslash :: ((("item ").data) ++ t) from rfl]
    rw [List.dropWhile_cons, if_neg (by decide)]
  have h6 : matchBeginList ((("\\item ").data) ++ t) = none := by
    refine matchBeginList_none_of_heads _ ?_ ?_ <;> rw [hdw]
    · exact startsL_false_of_clash _ (("\\item ").data) t (by decide)
    · exact startsL_false_of_clash _ (("\\item ").data) t (by decide)
  have h7 : matchEndList ((("\\item ").data) ++ t) = none := by
    refine matchEndList_none_of_heads _ ?_ ?_ <;> rw [hdw]
    · exact startsL_false_of_clash _ (("\\item ").data) t (by decide)
    · exact startsL_false_of_clash _ (("\\item ").data) t (by decide)
  have h8 := matchItemTrim_item t hlf
  exact scanGo_cons_item cfg p f st _ t rest hsplit hrstrip h1 h2 h3 h4 h5 h6 h7 h8 hst

theorem scanGo_cons_plainTok (cfg : Cfg) (p : List Char) (f : Nat) (st : St) (l : List Char)
    (rest : List (List Char)) (hok : plainLineOk l = true) :
    scanGo cfg p (f + 1) st (l :: rest) = scanGo cfg p f (emit st l) rest := by
  obtain ⟨hne, hstrip, hbs, hpc, _, _, _, _, _, _⟩ := plainLineOk_parts l hok
  obtain ⟨hlf, hrf⟩ := strip_fix_parts l hstrip
  exact scanGo_cons_plain cfg p f st l rest hrf hne hbs hpc

/-! ## The list-balance induction -/

theorem tagOf_open_eq (k' k : Bool) :
    (if ('<' :: (tagOf k' ++ [('>' : Char)])) = ('<' :: (tagOf k ++ [('>' : Char)]))
      then 1 else 0) = (if k' = k then (1 : Nat) else 0) := by
  cases k' <;> cases k <;> decide

theorem tagOf_close_eq (k' k : Bool) :
    (if ((("</").data) ++ tagOf k' ++ [('>' : Char)]) = ((("</").data) ++ tagOf k ++ [('>' : Char)])
      then 1 else 0) = (if k' = k then (1 : Nat) else 0) := by
  cases k' <;> cases k <;> decide

theorem open_ne_close (k' k : Bool) :
    ('<' :: (tagOf k' ++ [('>' : Char)])) ≠ ((("</").data) ++ tagOf k ++ [('>' : Char)]) := by
  cases k' <;> cases k <;> decide

theorem close_ne_open (k' k : Bool) :
    ((("</").data) ++ tagOf k' ++ [('>' : Char)]) ≠ ('<' :: (tagOf k ++ [('>' : Char)])) := by
  cases k' <;> cases k <;> decide

theorem closeli_ne_open (k : Bool) :
    (("</li>").data) ≠ ('<' :: (tagOf k ++ [('>' : Char)])) := by
  cases k <;> decide

theorem closeli_ne_close (k : Bool) :
    (("</li>").data) ≠ ((("</").data) ++ tagOf k ++ [('>' : Char)]) := by
  cases k <;> decide

theorem liline_ne_open (t : List Char) (k : Bool) :
    (("<li>").data) ++ t ≠ ('<' :: (tagOf k ++ [('>' : Char)])) := by
  cases k
  · exact li_line_ne_ol t
  · exact li_line_ne_ul t

theorem liline_ne_close (t : List Char) (k : Bool) :
    (("<li>").data) ++ t ≠ ((("</").data) ++ tagOf k ++ [('>' : Char)]) := by
  cases k
  · exact li_line_ne_col t
  · exact li_line_ne_cul t

theorem plain_ne_open (l : List Char) (k : Bool) (h1 : l ≠ ("<ul>").data)
    (h2 : l ≠ ("<ol>").data) : l ≠ ('<' :: (tagOf k ++ [('>' : Char)])) := by
  cases k
  · exact h2
  · exact h1

theorem plain_ne_close (l : List Char) (k : Bool) (h1 : l ≠ ("</ul>").data)
    (h2 : l ≠ ("</ol>").data) : l ≠ ((("</").data) ++ tagOf k ++ [('>' : Char)]) := by
  cases k
  · exact h2
  · exact h1

theorem startsL_li_open (k : Bool) :
    startsL (("<li").data) ('<' :: (tagOf k ++ [('>' : Char)])) = false := by
  cases k <;> decide

theorem startsL_li_close (k : Bool) :
    startsL (("<li").data) ((("</").data) ++ tagOf k ++ [('>' : Char)]) = false := by
  cases k <;> decide

theorem startsL_li_liline (t : List Char) :
    startsL (("<li").data) ((("<li>").data) ++ t) = true := rfl

theorem scanGo_toks_inv (cfg : Cfg) (p : List Char) :
    ∀ (toks : List LTok) (st : St) (stk stk' : List Bool),
      (∀ t ∈ toks, tokOk t = true) →
      balRun stk toks = some stk' →
      st.stack = stk.map tagOf →
      st.openLi.length = stk.length →
      noAdjLi st.outRev = true →
      (∀ h, st.outRev.head? = some h → startsL (("<li").data) h = true →
        st.openLi.head? = some true) →
      (scanGo cfg p toks.length st (toks.map tokLine)).stack = stk'.map tagOf ∧
      (scanGo cfg p toks.length st (toks.map tokLine)).openLi.length = stk'.length ∧
      (∀ k, cntEq ('<' :: (tagOf k ++ [('>' : Char)]))
          (scanGo cfg p toks.length st (toks.map tokLine)).outRev =
        cntEq ('<' :: (tagOf k ++ [('>' : Char)])) st.outRev + cntOpen k toks) ∧
      (∀ k, cntEq ((("</").data) ++ tagOf k ++ [('>' : Char)])
          (scanGo cfg p toks.length st (toks.map tokLine)).outRev =
        cntEq ((("</").data) ++ tagOf k ++ [('>' : Char)]) st.outRev + cntClose k toks) ∧
      noAdjLi (scanGo cfg p toks.length st (toks.map tokLine)).outRev = true := by
  intro toks
  induction toks with
  | nil =>
    intro st stk stk' _ hbal hstack holen hadj _
    have hstk : stk = stk' := Option.some.inj hbal
    subst hstk
    refine ⟨hstack, holen, ?_, ?_, hadj⟩
    · intro k
      have e : scanGo cfg p ([] : List LTok).length st (List.map tokLine []) = st := rfl
      rw [e]
      simp [cntOpen]
    · intro k
      have e : scanGo cfg p ([] : List LTok).length st (List.map tokLine []) = st := rfl
      rw [e]
      simp [cntClose]
  | cons tok ts ih =>
    intro st stk stk' hok hbal hstack holen hadj hheadli
    have hokt : tokOk tok = true := hok tok (List.mem_cons_self _ _)
    have hokts : ∀ t ∈ ts, tokOk t = true := fun t ht => hok t (List.mem_cons_of_mem _ ht)
    rw [show (tok :: ts).map tokLine = tokLine tok :: ts.map tokLine from rfl]
    rw [show (tok :: ts).length = ts.length + 1 from rfl]
    cases tok with
    | lopen k' =>
      rw [scanGo_cons_openTok cfg p ts.length st k' (ts.map tokLine)]
      have hbal' : balRun (k' :: stk) ts = some stk' := hbal
      have hno : startsL (("<li").data) ('<' :: (tagOf k' ++ [('>' : Char)])) = false :=
        startsL_li_open k'
      have e3 : (pushList st (tagOf k')).outRev =
          ('<' :: (tagOf k' ++ [('>' : Char)])) :: st.outRev := rfl
      have e1 : (pushList st (tagOf k')).stack = (k' :: stk).map tagOf := by
        simp [pushList, emit, hstack]
      have e2 : (pushList st (tagOf k')).openLi.length = (k' :: stk).length := by
        simp [pushList, emit, holen]
      have e4 : noAdjLi (pushList st (tagOf k')).outRev = true := by
        rw [e3]
        refine noAdjLi_cons2 _ _ hadj ?_
        rw [hno]
        rfl
      have e5 : ∀ h, (pushList st (tagOf k')).outRev.head? = some h →
          startsL (("<li").data) h = true → (pushList st (tagOf k')).openLi.head? = some true := by
        intro h hh hli
        rw [e3, List.head?_cons] at hh
        rw [← Option.some.inj hh, hno] at hli
        exact absurd hli (by simp)
      obtain ⟨c1, c2, c3, c4, c5⟩ := ih (pushList st (tagOf k')) (k' :: stk) stk'
        hokts hbal' e1 e2 e4 e5
      refine ⟨c1, c2, ?_, ?_, c5⟩
      · intro k
        rw [c3 k, e3, cntEq_cons, tagOf_open_eq k' k, cntOpen_cons_open]
        omega
      · intro k
        rw [c4 k, e3, cntEq_cons, if_neg (open_ne_close k' k), cntClose_cons_open]
        omega
    | lclose k' =>
      obtain ⟨b, r, rfl⟩ : ∃ b r, stk = b :: r := by
        cases stk with
        | nil => exact absurd hbal (by rw [show balRun [] (LTok.lclose k' :: ts) = none from rfl]; simp)
        | cons b r => exact ⟨b, r, rfl⟩
      have hb : b = k' := by
        by_cases hbk : b = k'
        · exact hbk
        · have : balRun (b :: r) (LTok.lclose k' :: ts) = none := by
            show (if b = k' then balRun r ts else none) = none
            rw [if_neg hbk]
          rw [this] at hbal
          exact absurd hbal (by simp)
      subst hb
      have hbal' : balRun r ts = some stk' := by
        have hstep : balRun (b :: r) (LTok.lclose b :: ts) = balRun r ts := by
          show (if b = b then balRun r ts else none) = balRun r ts
          rw [if_pos rfl]
        rw [hstep] at hbal
        exact hbal
      obtain ⟨ob, os, holc⟩ : ∃ ob os, st.openLi = ob :: os := by
        cases e : st.openLi with
        | nil => rw [e] at holen; simp at holen
        | cons x y => exact ⟨x, y, rfl⟩
      have hstne : st.stack ≠ [] := by
        rw [hstack]
        simp
      rw [scanGo_cons_closeTok cfg p ts.length st b (ts.map tokLine) hstne]
      obtain ⟨f1, f2, f3⟩ := popList_fields st b r ob os hstack holc
      have holen' : (popList st).openLi.length = r.length := by
        rw [f2]
        rw [holc] at holen
        simp only [List.length_cons] at holen
        omega
      have hno : startsL (("<li").data) ((("</").data) ++ tagOf b ++ [('>' : Char)]) = false :=
        startsL_li_close b
      have e4 : noAdjLi (popList st).outRev = true := by
        rw [f3]
        cases ob with
        | true =>
          simp only [if_true]
          refine noAdjLi_cons2 _ _ (noAdjLi_cons2 _ _ hadj ?_) ?_
          · rw [show startsL (("<li").data) (("</li>").data) = false from by decide]
            rfl
          · rw [hno]
            rfl
        | false =>
          simp only [Bool.false_eq_true, if_false]
          refine noAdjLi_cons2 _ _ hadj ?_
          rw [hno]
          rfl
      have e5 : ∀ h, (popList st).outRev.head? = some h →
          startsL (("<li").data) h = true → (popList st).openLi.head? = some true := by
        intro h hh hli
        rw [f3, List.head?_cons] at hh
        rw [← Option.some.inj hh, hno] at hli
        exact absurd hli (by simp)
      obtain ⟨c1, c2, c3, c4, c5⟩ := ih (popList st) r stk' hokts hbal' f1 holen' e4 e5
      refine ⟨c1, c2, ?_, ?_, c5⟩
      · intro k
        rw [c3 k, f3, cntEq_cons, if_neg (close_ne_open b k), cntOpen_cons_close]
        cases ob with
        | true =>
          simp only [if_true]
          rw [cntEq_cons, if_neg (closeli_ne_open k)]
          omega
        | false =>
          simp only [Bool.false_eq_true, if_false]
          omega
      · intro k
        rw [c4 k, f3, cntEq_cons, tagOf_close_eq b k, cntClose_cons_close]
        cases ob with
        | true =>
          simp only [if_true]
          rw [cntEq_cons, if_neg (closeli_ne_close k)]
          omega
        | false =>
          simp only [Bool.false_eq_true, if_false]
          omega
    | litem t =>
      obtain ⟨b2, r2, rfl⟩ : ∃ b2 r2, stk = b2 :: r2 := by
        cases stk with
        | nil => exact absurd hbal (by rw [show balRun [] (LTok.litem t :: ts) = none from rfl]; simp)
        | cons b r => exact ⟨b, r, rfl⟩
      have hbal' : balRun (b2 :: r2) ts = some stk' := by
        have hstep : balRun (b2 :: r2) (LTok.litem t :: ts) = balRun (b2 :: r2) ts := by
          show (if (b2 :: r2 : List Bool) = [] then none else balRun (b2 :: r2) ts) =
            balRun (b2 :: r2) ts
          rw [if_neg (by simp)]
        rw [hstep] at hbal
        exact hbal
      obtain ⟨ob, os, holc⟩ : ∃ ob os, st.openLi = ob :: os := by
        cases e : st.openLi with
        | nil => rw [e] at holen; simp at holen
        | cons x y => exact ⟨x, y, rfl⟩
      have hstne : st.stack ≠ [] := by
        rw [hstack]
        simp
      rw [show tokLine (.litem t) = (("\\item ").data) ++ t from rfl]
      rw [scanGo_cons_itemTok cfg p ts.length st t (ts.map tokLine) hokt hstne]
      obtain ⟨g1, g2, g3⟩ := itemBranch_fields cfg st t ob os holc hokt
      have holen' : (itemBranch cfg st ((("\\item ").data) ++ t)).openLi.length =
          (b2 :: r2).length := by
        rw [g2]
        rw [holc] at holen
        simp only [List.length_cons] at holen
        simp only [List.length_cons]
        omega
      have hstk' : (itemBranch cfg st ((("\\item ").data) ++ t)).stack =
          (b2 :: r2).map tagOf := by
        rw [g1, hstack]
      have e4 : noAdjLi (itemBranch cfg st ((("\\item ").data) ++ t)).outRev = true := by
        rw [g3]
        cases ob with
        | true =>
          simp only [if_true]
          refine noAdjLi_cons2 _ _ (noAdjLi_cons2 _ _ hadj ?_) ?_
          · rw [show startsL (("<li").data) (("</li>").data) = false from by decide]
            rfl
          · rfl
        | false =>
          simp only [Bool.false_eq_true, if_false]
          refine noAdjLi_cons2 _ _ hadj ?_
          have hfac : (match st.outRev.head? with
              | some y => startsL (("<li").data) y
              | none => false) = false := by
            cases e : st.outRev.head? with
            | none => rfl
            | some y =>
              cases hy : startsL (("<li").data) y with
              | false => exact hy
              | true =>
                have := hheadli y e hy
                rw [holc] at this
                simp at this
          rw [hfac, Bool.and_false]
      have e5 : ∀ h, (itemBranch cfg st ((("\\item ").data) ++ t)).outRev.head? = some h →
          startsL (("<li").data) h = true →
          (itemBranch cfg st ((("\\item ").data) ++ t)).openLi.head? = some true := by
        intro h hh _
        rw [g2]
        rfl
      obtain ⟨c1, c2, c3, c4, c5⟩ := ih (itemBranch cfg st ((("\\item ").data) ++ t))
        (b2 :: r2) stk' hokts hbal' hstk' holen' e4 e5
      refine ⟨c1, c2, ?_, ?_, c5⟩
      · intro k
        rw [c3 k, g3, cntEq_cons, if_neg (liline_ne_open t k), cntOpen_cons_item]
        cases ob with
        | true =>
          simp only [if_true]
          rw [cntEq_cons, if_neg (closeli_ne_open k)]
          omega
        | false =>
          simp only [Bool.false_eq_true, if_false]
          omega
      · intro k
        rw [c4 k, g3, cntEq_cons, if_neg (liline_ne_close t k), cntClose_cons_item]
        cases ob with
        | true =>
          simp only [if_true]
          rw [cntEq_cons, if_neg (closeli_ne_close k)]
          omega
        | false =>
          simp only [Bool.false_eq_true, if_false]
          omega
    | lplain l =>
      obtain ⟨hne, hstrip, hbs, hpc, hli, hnul, hncul, hnol, hncol, hncli⟩ :=
        plainLineOk_parts l hokt
      have hbal' : balRun stk ts = some stk' := hbal
      rw [show tokLine (.lplain l) = l from rfl]
      rw [scanGo_cons_plainTok cfg p ts.length st l (ts.map tokLine) hokt]
      have e3 : (emit st l).outRev = l :: st.outRev := rfl
      have e4 : noAdjLi (emit st l).outRev = true := by
        rw [e3]
        refine noAdjLi_cons2 _ _ hadj ?_
        rw [hli]
        rfl
      have e5 : ∀ h, (emit st l).outRev.head? = some h →
          startsL (("<li").data) h = true → (emit st l).openLi.head? = some true := by
        intro h hh hlih
        rw [e3, List.head?_cons] at hh
        rw [← Option.some.inj hh, hli] at hlih
        exact absurd hlih (by simp)
      obtain ⟨c1, c2, c3, c4, c5⟩ := ih (emit st l) stk stk' hokts hbal' hstack holen e4 e5
      refine ⟨c1, c2, ?_, ?_, c5⟩
      · intro k
        rw [c3 k, e3, cntEq_cons, if_neg (plain_ne_open l k hnul hnol), cntOpen_cons_plain]
        omega
      · intro k
        rw [c4 k, e3, cntEq_cons, if_neg (plain_ne_close l k hncul hncol), cntClose_cons_plain]
        omega

/-- C5: over any properly nested, fully closed token sequence of list-open
markers, matching close markers, item lines, and plain lines (with
well-formed texts), the scanner emits exactly as many `<ul>` lines as
`</ul>` lines — both equal to the number of itemize opens — and likewise
for `<ol>`/`</ol>` and enumerate; no two consecutive emitted lines both
open an item; and the run ends with an empty list stack and no open-item
flags. The proof maintains the invariant that the scanner's stack mirrors
the nesting stack (one open-item flag per frame) at every step. -/
theorem C5_list_balance (cfg : Cfg) (p : List Char) (fs0 : List (List Char))
    (toks : List LTok) (hok : ∀ t ∈ toks, tokOk t = true)
    (hbal : balRun [] toks = some []) :
    cntEq (("<ul>").data)
        (scanGo cfg p toks.length (initSt fs0) (toks.map tokLine)).outRev =
      cntOpen true toks ∧
    cntEq (("</ul>").data)
        (scanGo cfg p toks.length (initSt fs0) (toks.map tokLine)).outRev =
      cntOpen true toks ∧
    cntEq (("<ol>").data)
        (scanGo cfg p toks.length (initSt fs0) (toks.map tokLine)).outRev =
      cntOpen false toks ∧
    cntEq (("</ol>").data)
        (scanGo cfg p toks.length (initSt fs0) (toks.map tokLine)).outRev =
      cntOpen false toks ∧
    noAdjLi (scanGo cfg p toks.length (initSt fs0) (toks.map tokLine)).outRev = true ∧
    (scanGo cfg p toks.length (initSt fs0) (toks.map tokLine)).stack = [] ∧
    (scanGo cfg p toks.length (initSt fs0) (toks.map tokLine)).openLi = [] := by
  obtain ⟨c1, c2, c3, c4, c5⟩ := scanGo_toks_inv cfg p toks (initSt fs0) [] [] hok hbal
    rfl rfl rfl (fun h hh _ => absurd hh (by simp [initSt]))
  have hoc : ∀ k, cntClose k toks = cntOpen k toks := by
    intro k
    have := balance_count toks [] [] hbal k
    simp [cntB] at this
    omega
  refine ⟨?_, ?_, ?_, ?_, c5, by simpa using c1, ?_⟩
  · have := c3 true
    rw [show ('<' :: (tagOf true ++ [('>' : Char)])) = ("<ul>").data from rfl] at this
    simpa [initSt, cntEq] using this
  · have := c4 true
    rw [show ((("</").data) ++ tagOf true ++ [('>' : Char)]) = ("</ul>").data from rfl] at this
    rw [hoc true] at this
    simpa [initSt, cntEq] using this
  · have := c3 false
    rw [show ('<' :: (tagOf false ++ [('>' : Char)])) = ("<ol>").data from rfl] at this
    simpa [initSt, cntEq] using this
  · have := c4 false
    rw [show ((("</").data) ++ tagOf false ++ [('>' : Char)]) = ("</ol>").data from rfl] at this
    rw [hoc false] at this
    simpa [initSt, cntEq] using this
  · have := c2
    simpa [List.length_eq_zero] using this

/-- C5 witness: the balance statement over a concrete nested itemize body
holding an enumerate sublist, items at both levels, and a plain line. -/
theorem C5_list_balance_witness :
    (cntEq (("<ul>").data)
        (scanGo cfgAbsent [] toksW.length (initSt []) (toksW.map tokLine)).outRev =
      cntOpen true toksW ∧
    cntEq (("</ul>").data)
        (scanGo cfgAbsent [] toksW.length (initSt []) (toksW.map tokLine)).outRev =
      cntOpen true toksW ∧
    cntEq (("<ol>").data)
        (scanGo cfgAbsent [] toksW.length (initSt []) (toksW.map tokLine)).outRev =
      cntOpen false toksW ∧
    cntEq (("</ol>").data)
        (scanGo cfgAbsent [] toksW.length (initSt []) (toksW.map tokLine)).outRev =
      cntOpen false toksW ∧
    noAdjLi (scanGo cfgAbsent [] toksW.length (initSt []) (toksW.map tokLine)).outRev = true ∧
    (scanGo cfgAbsent [] toksW.length (initSt []) (toksW.map tokLine)).stack = [] ∧
    (scanGo cfgAbsent [] toksW.length (initSt []) (toksW.map tokLine)).openLi = []) :=
  C5_list_balance cfgAbsent [] [] toksW (by decide) (by decide)

end Tex2Canvas
